import Mathlib

/-! Requirement tracking of the ZynqMP PMU firmware (`pm_requirement.c`)

A shallow embedding of `lib/sw_apps/zynqmp_pmufw/src/pm_requirement.c`.

* The static heap `pmReqData` is a map from slot index to record, `pmReqTop` is the
  index of the first free slot.  A pointer to a requirement is the index of its slot,
  `none` is `NULL`.
* Masters and slaves are structures owned by other files; the only field of them this
  file touches is `reqs`, the head of the requirement list.  A pointer to a master (slave)
  is a number, and `masterReqs m` (`slaveReqs n`) is the field `reqs` of that structure.
* `PmCheckCapabilities` and `PmUpdateSlave` are defined in `pm_slave.c`.  They are
  parameters of the development (`PmEnv`).  Each call is recorded in `calls`, together
  with the memory the slave update could observe, and the functions may depend on the
  whole state at the time of the call, the record of earlier calls included.  They do
  not write the requirement heap or the list heads.
* The `while` loops walk a linked list and need not terminate on a cyclic list: each
  loop takes a bound on the number of iterations and yields `none` when it is exceeded.
-/

namespace Pm

/-- Pointer into `pmReqData` (slot index), `none` for `NULL`. -/
abbrev ReqPtr := Option Nat

/-- Pointer to a `PmMaster`, `none` for `NULL`. -/
abbrev MasterPtr := Option Nat

/-- Pointer to a `PmSlave`, `none` for `NULL`. -/
abbrev SlavePtr := Option Nat

/-- The fields of `struct PmRequirement` that `pm_requirement.c` reads or writes.
`nextSlave` threads the list of a master, `nextMaster` the list of a slave. -/
structure PmRequirement where
  nextSlave : ReqPtr
  nextMaster : ReqPtr
  master : MasterPtr
  slave : SlavePtr
  info : Nat
  defaultReq : Nat
  currReq : Nat
  nextReq : Nat
deriving DecidableEq

/-- The memory `pm_requirement.c` works on: the heap `pmReqData`, `pmReqTop`, and the
field `reqs` of every master and of every slave. -/
structure PmMem where
  pmReqData : Nat → PmRequirement
  pmReqTop : Nat
  masterReqs : Nat → ReqPtr
  slaveReqs : Nat → ReqPtr

/-- A call that left `pm_requirement.c`: `PmCheckCapabilities(slave, caps)` or
`PmUpdateSlave(slave)`, the latter with the memory as it was when the call was made. -/
inductive ExtCall where
  | check (slave : SlavePtr) (caps : Nat)
  | update (slave : SlavePtr) (seen : PmMem)

/-- Memory together with the record of external calls, most recent first. -/
structure PmState extends PmMem where
  calls : List ExtCall

/-- What `pm_requirement.c` takes from other files: the size of `pmReqData`, the usage
bit of `info`, and the two functions of the slave layer. -/
structure PmEnv where
  PM_REQUIREMENT_MAX : Nat
  PM_MASTER_USING_SLAVE_MASK : Nat
  PmCheckCapabilities : PmState → SlavePtr → Nat → Int
  PmUpdateSlave : PmState → SlavePtr → Int

/-- Status `XST_SUCCESS` of `xstatus.h`. -/
def XST_SUCCESS : Int := 0

/-- Status `XST_FAILURE` of `xstatus.h`. -/
def XST_FAILURE : Int := 1

/-- Status `XST_NO_FEATURE` of `xstatus.h`. -/
def XST_NO_FEATURE : Int := 19

/-- A zero-filled record: a slot of the static array at start-up and after `memset`. -/
def zeroReq : PmRequirement :=
  { nextSlave := none, nextMaster := none, master := none, slave := none,
    info := 0, defaultReq := 0, currReq := 0, nextReq := 0 }

/-- Start-up state: zero-initialised statics, every list head `NULL`, no call made. -/
def pmInit : PmState :=
  { pmReqData := fun _ => zeroReq, pmReqTop := 0,
    masterReqs := fun _ => none, slaveReqs := fun _ => none, calls := [] }

/-- Store `r` into slot `i` of `pmReqData`. -/
def PmState.setReq (s : PmState) (i : Nat) (r : PmRequirement) : PmState :=
  { s with pmReqData := fun j => if j = i then r else s.pmReqData j }

/-- Assignment `pmReqData[i].nextSlave = p`. -/
def PmState.setNextSlave (s : PmState) (i : Nat) (p : ReqPtr) : PmState :=
  s.setReq i { s.pmReqData i with nextSlave := p }

/-- Assignment `pmReqData[i].nextMaster = p`. -/
def PmState.setNextMaster (s : PmState) (i : Nat) (p : ReqPtr) : PmState :=
  s.setReq i { s.pmReqData i with nextMaster := p }

/-- Assignment `pmReqData[i].master = p`. -/
def PmState.setMaster (s : PmState) (i : Nat) (p : MasterPtr) : PmState :=
  s.setReq i { s.pmReqData i with master := p }

/-- Assignment `pmReqData[i].slave = p`. -/
def PmState.setSlave (s : PmState) (i : Nat) (p : SlavePtr) : PmState :=
  s.setReq i { s.pmReqData i with slave := p }

/-- Assignment `pmReqData[i].info = v`. -/
def PmState.setInfo (s : PmState) (i : Nat) (v : Nat) : PmState :=
  s.setReq i { s.pmReqData i with info := v }

/-- Assignment `pmReqData[i].currReq = v`. -/
def PmState.setCurrReq (s : PmState) (i : Nat) (v : Nat) : PmState :=
  s.setReq i { s.pmReqData i with currReq := v }

/-- Assignment `pmReqData[i].nextReq = v`. -/
def PmState.setNextReq (s : PmState) (i : Nat) (v : Nat) : PmState :=
  s.setReq i { s.pmReqData i with nextReq := v }

/-- Store `p` into `reqs` of master `m`. -/
def PmState.setMasterReqs (s : PmState) (m : Nat) (p : ReqPtr) : PmState :=
  { s with masterReqs := fun k => if k = m then p else s.masterReqs k }

/-- Store `p` into `reqs` of slave `n`. -/
def PmState.setSlaveReqs (s : PmState) (n : Nat) (p : ReqPtr) : PmState :=
  { s with slaveReqs := fun k => if k = n then p else s.slaveReqs k }

/-- The call `PmCheckCapabilities(slave, caps)`: its status, and the call recorded. -/
def callCheckCapabilities (env : PmEnv) (s : PmState) (slave : SlavePtr) (caps : Nat) :
    Int × PmState :=
  (env.PmCheckCapabilities s slave caps, { s with calls := ExtCall.check slave caps :: s.calls })

/-- The call `PmUpdateSlave(slave)`: its status, and the call recorded with the memory
it was made in. -/
def callUpdateSlave (env : PmEnv) (s : PmState) (slave : SlavePtr) : Int × PmState :=
  (env.PmUpdateSlave s slave, { s with calls := ExtCall.update slave s.toPmMem :: s.calls })

/-- Function `PmRequirementLink`: four assignments; `none` when `req->master` or
`req->slave` is `NULL`. -/
def PmRequirementLink (s : PmState) (req : Nat) : Option PmState := do
  -- req->nextSlave = req->master->reqs;
  let m ← (s.pmReqData req).master
  let s1 := s.setNextSlave req (s.masterReqs m)
  -- req->master->reqs = req;
  let m1 ← (s1.pmReqData req).master
  let s2 := s1.setMasterReqs m1 (some req)
  -- req->nextMaster = req->slave->reqs;
  let n ← (s2.pmReqData req).slave
  let s3 := s2.setNextMaster req (s2.slaveReqs n)
  -- req->slave->reqs = req;
  let n1 ← (s3.pmReqData req).slave
  pure (s3.setSlaveReqs n1 (some req))

/-- Function `PmRequirementMalloc`: the slot at `pmReqTop` when there is one, else
`NULL`. -/
def PmRequirementMalloc (env : PmEnv) (s : PmState) : ReqPtr × PmState :=
  if s.pmReqTop < env.PM_REQUIREMENT_MAX then
    (some s.pmReqTop, { s with pmReqTop := s.pmReqTop + 1 })
  else
    (none, s)

/-- Function `PmRequirementFreeAll`: `memset` of the first `pmReqTop` slots, then
`pmReqTop = 0`. -/
def PmRequirementFreeAll (s : PmState) : PmState :=
  { s with
    pmReqData := fun i => if i < s.pmReqTop then zeroReq else s.pmReqData i
    pmReqTop := 0 }

/-- Function `PmRequirementAdd`. -/
def PmRequirementAdd (env : PmEnv) (s : PmState) (master slave : Nat) : Option (Int × PmState) :=
  match PmRequirementMalloc env s with
  | (none, s1) => some (XST_FAILURE, s1)
  | (some req, s1) => do
    let s2 := s1.setMaster req (some master)
    let s3 := s2.setSlave req (some slave)
    let s4 ← PmRequirementLink s3 req
    pure (XST_SUCCESS, s4)

/-- Function `PmRequirementSchedule`. -/
def PmRequirementSchedule (env : PmEnv) (s : PmState) (masterReq caps : Nat) : Int × PmState :=
  let chk := callCheckCapabilities env s (s.pmReqData masterReq).slave caps
  let status := chk.1
  let s1 := chk.2
  if XST_SUCCESS ≠ status then
    (status, s1)
  else
    (status, s1.setNextReq masterReq caps)

/-- Function `PmRequirementUpdate`. -/
def PmRequirementUpdate (env : PmEnv) (s : PmState) (masterReq caps : Nat) : Int × PmState :=
  let chk := callCheckCapabilities env s (s.pmReqData masterReq).slave caps
  let status := chk.1
  let s1 := chk.2
  if XST_SUCCESS ≠ status then
    (status, s1)
  else
    let tmpCaps := (s1.pmReqData masterReq).currReq
    let s2 := s1.setCurrReq masterReq caps
    let upd := callUpdateSlave env s2 (s2.pmReqData masterReq).slave
    let status1 := upd.1
    let s3 := upd.2
    if XST_SUCCESS = status1 then
      (status1, s3.setNextReq masterReq ((s3.pmReqData masterReq).currReq))
    else
      (status1, s3.setCurrReq masterReq tmpCaps)

/-- The loop of `PmRequirementUpdateScheduled`, entered with `status` and `req`. -/
def PmRequirementUpdateScheduledLoop (env : PmEnv) (swap : Bool) :
    Nat → PmState → Int → ReqPtr → Option (Int × PmState)
  | _, s, status, none => some (status, s)
  | 0, _, _, some _ => none
  | fuel + 1, s, status, some req =>
    if (s.pmReqData req).currReq ≠ (s.pmReqData req).nextReq then
      let tmpReq := (s.pmReqData req).nextReq
      let s1 :=
        if true = swap then
          if 0 ≠ (s.pmReqData req).defaultReq then
            s.setNextReq req ((s.pmReqData req).defaultReq)
          else
            s.setNextReq req ((s.pmReqData req).currReq)
        else s
      let s2 := s1.setCurrReq req tmpReq
      let upd := callUpdateSlave env s2 (s2.pmReqData req).slave
      let status1 := upd.1
      let s3 := upd.2
      if XST_SUCCESS ≠ status1 then
        some (status1, s3)
      else
        PmRequirementUpdateScheduledLoop env swap fuel s3 status1 (s3.pmReqData req).nextSlave
    else
      PmRequirementUpdateScheduledLoop env swap fuel s status (s.pmReqData req).nextSlave

/-- Function `PmRequirementUpdateScheduled`. -/
def PmRequirementUpdateScheduled (env : PmEnv) (fuel : Nat) (s : PmState) (master : Nat)
    (swap : Bool) : Option (Int × PmState) :=
  PmRequirementUpdateScheduledLoop env swap fuel s XST_SUCCESS (s.masterReqs master)

/-- The loop of `PmRequirementCancelScheduled`. -/
def PmRequirementCancelScheduledLoop : Nat → PmState → ReqPtr → Option PmState
  | _, s, none => some s
  | 0, _, some _ => none
  | fuel + 1, s, some req =>
    if (s.pmReqData req).currReq ≠ (s.pmReqData req).nextReq then
      let s1 := s.setNextReq req ((s.pmReqData req).currReq)
      PmRequirementCancelScheduledLoop fuel s1 (s1.pmReqData req).nextSlave
    else
      PmRequirementCancelScheduledLoop fuel s (s.pmReqData req).nextSlave

/-- Function `PmRequirementCancelScheduled`. -/
def PmRequirementCancelScheduled (fuel : Nat) (s : PmState) (master : Nat) : Option PmState :=
  PmRequirementCancelScheduledLoop fuel s (s.masterReqs master)

/-- The loop of `PmRequirementRequestDefault`. -/
def PmRequirementRequestDefaultLoop (env : PmEnv) : Nat → PmState → ReqPtr → Option PmState
  | _, s, none => some s
  | 0, _, some _ => none
  | fuel + 1, s, some req =>
    if 0 ≠ (s.pmReqData req).defaultReq then
      let s1 := s.setInfo req ((s.pmReqData req).info ||| env.PM_MASTER_USING_SLAVE_MASK)
      let s2 := s1.setNextReq req ((s1.pmReqData req).defaultReq)
      PmRequirementRequestDefaultLoop env fuel s2 (s2.pmReqData req).nextSlave
    else
      PmRequirementRequestDefaultLoop env fuel s (s.pmReqData req).nextSlave

/-- Function `PmRequirementRequestDefault`. -/
def PmRequirementRequestDefault (env : PmEnv) (fuel : Nat) (s : PmState) (master : Nat) :
    Option PmState :=
  PmRequirementRequestDefaultLoop env fuel s (s.masterReqs master)

/-- The loop of `PmRequirementReleaseAll`, entered with `status` and `req`.
`~PM_MASTER_USING_SLAVE_MASK` is the complement of the mask in 32 bits. -/
def PmRequirementReleaseAllLoop (env : PmEnv) :
    Nat → PmState → Int → ReqPtr → Option (Int × PmState)
  | _, s, status, none => some (status, s)
  | 0, _, _, some _ => none
  | fuel + 1, s, status, some req =>
    if 0 ≠ (env.PM_MASTER_USING_SLAVE_MASK &&& (s.pmReqData req).info) then
      let s1 := s.setInfo req
        ((s.pmReqData req).info &&& (0xFFFFFFFF ^^^ env.PM_MASTER_USING_SLAVE_MASK))
      let s2 := s1.setCurrReq req 0
      let s3 := s2.setNextReq req 0
      let upd := callUpdateSlave env s3 (s3.pmReqData req).slave
      let status1 := upd.1
      let s4 := upd.2
      if XST_SUCCESS ≠ status1 then
        some (status1, s4)
      else
        PmRequirementReleaseAllLoop env fuel s4 status1 (s4.pmReqData req).nextSlave
    else
      PmRequirementReleaseAllLoop env fuel s status (s.pmReqData req).nextSlave

/-- Function `PmRequirementReleaseAll`. -/
def PmRequirementReleaseAll (env : PmEnv) (fuel : Nat) (s : PmState) (master : Nat) :
    Option (Int × PmState) :=
  PmRequirementReleaseAllLoop env fuel s XST_SUCCESS (s.masterReqs master)

/-- The loop of `PmRequirementGet`. -/
def PmRequirementGetLoop (s : PmState) (slave : SlavePtr) : Nat → ReqPtr → Option ReqPtr
  | _, none => some none
  | 0, some _ => none
  | fuel + 1, some req =>
    if slave = (s.pmReqData req).slave then
      some (some req)
    else
      PmRequirementGetLoop s slave fuel (s.pmReqData req).nextSlave

/-- Function `PmRequirementGet`. -/
def PmRequirementGet (fuel : Nat) (s : PmState) (master : Nat) (slave : SlavePtr) :
    Option ReqPtr :=
  PmRequirementGetLoop s slave fuel (s.masterReqs master)

/-- A call of one of the public functions that can change the state. -/
inductive PmCall where
  | add (master slave : Nat)
  | schedule (masterReq caps : Nat)
  | update (masterReq caps : Nat)
  | updateScheduled (master : Nat) (swap : Bool)
  | cancelScheduled (master : Nat)
  | requestDefault (master : Nat)
  | releaseAll (master : Nat)
  | freeAll
deriving DecidableEq

/-- Run one call: the value returned (`none` for a `void` function) and the state after
it; `none` when the call does not return within `fuel` loop iterations. -/
def exec (env : PmEnv) (fuel : Nat) : PmCall → PmState → Option (Option Int × PmState)
  | .add master slave, s =>
    (PmRequirementAdd env s master slave).map fun r => (some r.1, r.2)
  | .schedule masterReq caps, s =>
    some (some (PmRequirementSchedule env s masterReq caps).1,
      (PmRequirementSchedule env s masterReq caps).2)
  | .update masterReq caps, s =>
    some (some (PmRequirementUpdate env s masterReq caps).1,
      (PmRequirementUpdate env s masterReq caps).2)
  | .updateScheduled master swap, s =>
    (PmRequirementUpdateScheduled env fuel s master swap).map fun r => (some r.1, r.2)
  | .cancelScheduled master, s =>
    (PmRequirementCancelScheduled fuel s master).map fun s1 => (none, s1)
  | .requestDefault master, s =>
    (PmRequirementRequestDefault env fuel s master).map fun s1 => (none, s1)
  | .releaseAll master, s =>
    (PmRequirementReleaseAll env fuel s master).map fun r => (some r.1, r.2)
  | .freeAll, s => some (none, PmRequirementFreeAll s)

/-- States reached from start-up: `Reaches env evs s` when the calls listed in `evs`
(most recent first, each with the value it returned) lead from `pmInit` to `s`. -/
inductive Reaches (env : PmEnv) : List (PmCall × Option Int) → PmState → Prop where
  | init : Reaches env [] pmInit
  | step {evs : List (PmCall × Option Int)} {s : PmState} (fuel : Nat) (c : PmCall)
      (r : Option Int) (s1 : PmState) :
      Reaches env evs s → exec env fuel c s = some (r, s1) → Reaches env ((c, r) :: evs) s1

/-- Number of successful `PmRequirementAdd` calls since the last `PmRequirementFreeAll`. -/
def allocatedSinceReset : List (PmCall × Option Int) → Nat
  | [] => 0
  | (.freeAll, _) :: _ => 0
  | (.add _ _, r) :: evs =>
    if r = some XST_SUCCESS then allocatedSinceReset evs + 1 else allocatedSinceReset evs
  | _ :: evs => allocatedSinceReset evs

/-- The list that starts at `p` and follows the link `nxt` is `l` and ends in `NULL`. -/
def IsList (nxt : Nat → ReqPtr) : ReqPtr → List Nat → Prop
  | p, [] => p = none
  | p, i :: l => p = some i ∧ IsList nxt (nxt i) l

/-- The link `nextSlave` of every slot. -/
def PmState.nextSlaveOf (s : PmState) : Nat → ReqPtr := fun i => (s.pmReqData i).nextSlave

/-- The list of requirements of `master` is `l`. -/
def MasterList (s : PmState) (master : Nat) (l : List Nat) : Prop :=
  IsList s.nextSlaveOf (s.masterReqs master) l

/-- Slot `i` is met when walking from `p` along the link `nxt`. -/
inductive OnList (nxt : Nat → ReqPtr) : ReqPtr → Nat → Prop where
  | here (i : Nat) : OnList nxt (some i) i
  | later (i j : Nat) : OnList nxt (nxt i) j → OnList nxt (some i) j

/-- Shape of the master lists while the heap has not been cleared: a list head and a
`nextSlave` link of an allocated slot point to an allocated slot, links point to a slot
with a smaller index, and the slots on the list of a master carry that master. -/
structure MasterInv (s : PmState) : Prop where
  head_lt : ∀ m i, s.masterReqs m = some i → i < s.pmReqTop
  head_master : ∀ m i, s.masterReqs m = some i → (s.pmReqData i).master = some m
  next_lt : ∀ i j, i < s.pmReqTop → (s.pmReqData i).nextSlave = some j → j < i
  next_master : ∀ i j, i < s.pmReqTop → (s.pmReqData i).nextSlave = some j →
    (s.pmReqData j).master = (s.pmReqData i).master

/-- Some slot on the list of master `R` has slave `S`. -/
def AddedOnList (s : PmState) (R S : Nat) : Prop :=
  ∃ i, OnList s.nextSlaveOf (s.masterReqs R) i ∧ (s.pmReqData i).slave = some S

/-- A slave layer that accepts every capability request and every update, with a heap
of four slots and usage bit `0x2`. -/
def envOk : PmEnv :=
  { PM_REQUIREMENT_MAX := 4
    PM_MASTER_USING_SLAVE_MASK := 2
    PmCheckCapabilities := fun _ _ _ => XST_SUCCESS
    PmUpdateSlave := fun _ _ => XST_SUCCESS }

/-- A slave layer as `envOk`, with a heap of a single slot. -/
def envOne : PmEnv := { envOk with PM_REQUIREMENT_MAX := 1 }

/-- A slave layer that accepts every capability request and fails every update. -/
def envUpdateFails : PmEnv := { envOk with PmUpdateSlave := fun _ _ => XST_FAILURE }

/-- A slave layer that rejects every capability request. -/
def envRejects : PmEnv := { envOk with PmCheckCapabilities := fun _ _ _ => XST_NO_FEATURE }

/-- The state in which `PmRequirementUpdate(masterReq, caps)` calls `PmUpdateSlave`: the
capabilities have been checked and `currReq` has been set to `caps`. -/
def updateCallState (env : PmEnv) (s : PmState) (masterReq caps : Nat) : PmState :=
  (callCheckCapabilities env s (s.pmReqData masterReq).slave caps).2.setCurrReq masterReq caps

/-- Assignment `pmReqData[i].defaultReq = v`; `pm_requirement.c` never makes it, the
code that builds the topology does. -/
def PmState.setDefaultReq (s : PmState) (i : Nat) (v : Nat) : PmState :=
  s.setReq i { s.pmReqData i with defaultReq := v }

/-- The record of a requirement with `currReq != nextReq` after one iteration of the loop
of `PmRequirementUpdateScheduled`, and an untouched record otherwise. -/
def commitOne (swap : Bool) (r : PmRequirement) : PmRequirement :=
  if r.currReq ≠ r.nextReq then
    { r with
      nextReq :=
        if true = swap then (if 0 ≠ r.defaultReq then r.defaultReq else r.currReq)
        else r.nextReq
      currReq := r.nextReq }
  else r

/-- The stores one iteration of the loop of `PmRequirementUpdateScheduled` makes to slot
`req` before it calls `PmUpdateSlave`. -/
def commitStore (swap : Bool) (s : PmState) (req : Nat) : PmState :=
  (if true = swap then
    if 0 ≠ (s.pmReqData req).defaultReq then
      s.setNextReq req ((s.pmReqData req).defaultReq)
    else
      s.setNextReq req ((s.pmReqData req).currReq)
  else s).setCurrReq req (s.pmReqData req).nextReq

/-- The state after a successful `PmRequirementAdd(master, slave)`, written out. -/
def addedState (s : PmState) (master slave : Nat) : PmState :=
  { pmReqData := fun i =>
      if i = s.pmReqTop then
        { s.pmReqData s.pmReqTop with
          master := some master, slave := some slave,
          nextSlave := s.masterReqs master, nextMaster := s.slaveReqs slave }
      else s.pmReqData i
    pmReqTop := s.pmReqTop + 1
    masterReqs := fun k => if k = master then some s.pmReqTop else s.masterReqs k
    slaveReqs := fun k => if k = slave then some s.pmReqTop else s.slaveReqs k
    calls := s.calls }

/-- Master `1` has two requirements, slot `1` for slave `3` and slot `0` for slave `2`;
slot `0` has request `5` scheduled, slot `1` has nothing pending. -/
def pendingState : PmState := (addedState (addedState pmInit 1 2) 1 3).setNextReq 0 5

/-- Master `1` has one requirement, for slave `2`, with default requirement `4` and
nothing requested or scheduled. -/
def defaultState : PmState := (addedState pmInit 1 2).setDefaultReq 0 4

/-- Master `1` has one requirement, for slave `2`, with default requirement `4`, current
requirement `1` and request `5` scheduled. -/
def defaultPendingState : PmState :=
  ((defaultState.setCurrReq 0 1).setNextReq 0 5)

/-- Two states with the same `pmReqTop`, the same list heads, and in every slot the same
links, master, slave and default requirement. -/
structure SameLinks (s s1 : PmState) : Prop where
  top : s1.pmReqTop = s.pmReqTop
  masters : s1.masterReqs = s.masterReqs
  slaves : s1.slaveReqs = s.slaveReqs
  nextSlave : ∀ i, (s1.pmReqData i).nextSlave = (s.pmReqData i).nextSlave
  nextMaster : ∀ i, (s1.pmReqData i).nextMaster = (s.pmReqData i).nextMaster
  master : ∀ i, (s1.pmReqData i).master = (s.pmReqData i).master
  slave : ∀ i, (s1.pmReqData i).slave = (s.pmReqData i).slave
  defaultReq : ∀ i, (s1.pmReqData i).defaultReq = (s.pmReqData i).defaultReq

/-- The test `0U != (PM_MASTER_USING_SLAVE_MASK & req->info)`: the usage flag is set. -/
@[reducible] def usingSlave (env : PmEnv) (r : PmRequirement) : Prop :=
  0 ≠ (env.PM_MASTER_USING_SLAVE_MASK &&& r.info)

/-- The record of a requirement after one iteration of the loop of
`PmRequirementRequestDefault`. -/
def requestOne (env : PmEnv) (r : PmRequirement) : PmRequirement :=
  if 0 ≠ r.defaultReq then
    { r with info := r.info ||| env.PM_MASTER_USING_SLAVE_MASK, nextReq := r.defaultReq }
  else r

/-- The stores one iteration of the loop of `PmRequirementRequestDefault` makes to slot
`req` when its default requirement is not zero. -/
def requestStore (env : PmEnv) (s : PmState) (req : Nat) : PmState :=
  (s.setInfo req ((s.pmReqData req).info ||| env.PM_MASTER_USING_SLAVE_MASK)).setNextReq req
    (((s.setInfo req ((s.pmReqData req).info ||| env.PM_MASTER_USING_SLAVE_MASK)).pmReqData
      req).defaultReq)

/-- The record of a requirement after one iteration of the loop of
`PmRequirementReleaseAll`. -/
def releaseOne (env : PmEnv) (r : PmRequirement) : PmRequirement :=
  if 0 ≠ (env.PM_MASTER_USING_SLAVE_MASK &&& r.info) then
    { r with
      info := r.info &&& (0xFFFFFFFF ^^^ env.PM_MASTER_USING_SLAVE_MASK)
      currReq := 0
      nextReq := 0 }
  else r

/-- The stores one iteration of the loop of `PmRequirementReleaseAll` makes to slot `req`
before it calls `PmUpdateSlave`, when the usage flag is set. -/
def releaseStore (env : PmEnv) (s : PmState) (req : Nat) : PmState :=
  ((s.setInfo req
    ((s.pmReqData req).info &&& (0xFFFFFFFF ^^^ env.PM_MASTER_USING_SLAVE_MASK))).setCurrReq
      req 0).setNextReq req 0

/-- Master `1` has two requirements: slot `1` for slave `3` without a default requirement,
slot `0` for slave `2` with default requirement `4`. -/
def mixedDefaultState : PmState := (addedState (addedState pmInit 1 2) 1 3).setDefaultReq 0 4

/-- Master `1` has two requirements: slot `0` for slave `2` is in use (usage flag set,
current and next requirement `4`), slot `1` for slave `3` is not. -/
def usedState : PmState :=
  ((mixedDefaultState.setInfo 0 2).setCurrReq 0 4).setNextReq 0 4

/-- The state after start-up, `PmRequirementAdd(R, S)` and the assignment of default
requirement `d` to the requirement added. -/
def freshDefaultState (R S d : Nat) : PmState := (addedState pmInit R S).setDefaultReq 0 d

/-- Number of `PmUpdateSlave` calls in a record of external calls. -/
def countUpdates : List ExtCall → Nat
  | [] => 0
  | ExtCall.update _ _ :: cs => countUpdates cs + 1
  | ExtCall.check _ _ :: cs => countUpdates cs

/-- The status of the `PmUpdateSlave` call that the loop of `PmRequirementUpdateScheduled`
makes for the pending requirement `req` in state `s`. -/
def commitStatus (env : PmEnv) (swap : Bool) (s : PmState) (req : Nat) : Int :=
  (callUpdateSlave env (commitStore swap s req) ((commitStore swap s req).pmReqData req).slave).1

/-- The state after the iteration of the loop of `PmRequirementUpdateScheduled` for the
pending requirement `req`: the stores are made and the slave update is recorded. -/
def commitVisit (env : PmEnv) (swap : Bool) (s : PmState) (req : Nat) : PmState :=
  (callUpdateSlave env (commitStore swap s req) ((commitStore swap s req).pmReqData req).slave).2

/-- The state after the iterations for the pending requirements of `l`, in order. -/
def commitVisits (env : PmEnv) (swap : Bool) : PmState → List Nat → PmState
  | s, [] => s
  | s, i :: l => commitVisits env swap (commitVisit env swap s i) l

/-- The slave update succeeds in each of the iterations for the requirements of `l`. -/
def updatesSucceed (env : PmEnv) (swap : Bool) : PmState → List Nat → Prop
  | _, [] => True
  | s, i :: l =>
    commitStatus env swap s i = XST_SUCCESS ∧ updatesSucceed env swap (commitVisit env swap s i) l

/-- A slave layer whose second update fails and whose other updates succeed. -/
def envSecondFails : PmEnv :=
  { envOk with
    PmUpdateSlave := fun st _ => if countUpdates st.calls = 1 then XST_FAILURE else XST_SUCCESS }

/-- Master `1` has three requirements, slots `2`, `1`, `0` in list order, with requests `7`,
`6`, `5` scheduled. -/
def threePendingState : PmState :=
  (((addedState (addedState (addedState pmInit 1 2) 1 3) 1 4).setNextReq 0 5).setNextReq 1
    6).setNextReq 2 7

/-- The link `nextMaster` of every slot. -/
def PmState.nextMasterOf (s : PmState) : Nat → ReqPtr := fun i => (s.pmReqData i).nextMaster

/-- The master of every slot. -/
def PmState.masterOf (s : PmState) : Nat → MasterPtr := fun i => (s.pmReqData i).master

/-- The slave of every slot. -/
def PmState.slaveOf (s : PmState) : Nat → SlavePtr := fun i => (s.pmReqData i).slave

/-- The list of requirements of `slave` is `l`. -/
def SlaveList (s : PmState) (slave : Nat) (l : List Nat) : Prop :=
  IsList s.nextMasterOf (s.slaveReqs slave) l

/-- Shape of one family of lists (the lists of the masters, or the lists of the slaves)
over a heap with `top` allocated slots: `head` gives the list heads, `nxt` the links and
`own` the owner recorded in each slot.  Heads and links point to allocated slots, a link
leaves an allocated slot and points to a smaller index, the slots on a list carry the owner
of the list, and every allocated slot has an owner and is on the list of that owner. -/
structure ListsInv (top : Nat) (head : Nat → ReqPtr) (nxt : Nat → ReqPtr)
    (own : Nat → Option Nat) : Prop where
  head_lt : ∀ m i, head m = some i → i < top
  head_own : ∀ m i, head m = some i → own i = some m
  next_lt : ∀ i j, nxt i = some j → j < i
  next_top : ∀ i j, nxt i = some j → i < top
  next_own : ∀ i j, nxt i = some j → own j = own i
  own_some : ∀ i, i < top → ∃ m, own i = some m
  member : ∀ i m, i < top → own i = some m → OnList nxt (head m) i

/-- The lists of the masters and the lists of the slaves both have the shape `ListsInv`. -/
def ListsWellFormed (s : PmState) : Prop :=
  ListsInv s.pmReqTop s.masterReqs s.nextSlaveOf s.masterOf ∧
  ListsInv s.pmReqTop s.slaveReqs s.nextMasterOf s.slaveOf

/-- `NULL` stored into `reqs` of every master and of every slave.  `pm_requirement.c` does
not do this; the list heads belong to the code that owns the masters and the slaves. -/
def clearListHeads (s : PmState) : PmState :=
  { s with masterReqs := fun _ => none, slaveReqs := fun _ => none }

/-- States reached from start-up when every `PmRequirementFreeAll` comes together with
`clearListHeads`; `evs` lists the calls, most recent first, with the values returned. -/
inductive ReachesCleared (env : PmEnv) : List (PmCall × Option Int) → PmState → Prop where
  | init : ReachesCleared env [] pmInit
  | step {evs : List (PmCall × Option Int)} {s : PmState} (fuel : Nat) (c : PmCall)
      (r : Option Int) (s1 : PmState) :
      ReachesCleared env evs s → c ≠ PmCall.freeAll → exec env fuel c s = some (r, s1) →
      ReachesCleared env ((c, r) :: evs) s1
  | reset {evs : List (PmCall × Option Int)} {s : PmState} :
      ReachesCleared env evs s →
      ReachesCleared env ((PmCall.freeAll, none) :: evs) (clearListHeads (PmRequirementFreeAll s))

/-- The state after `PmRequirementAdd(1, 2)`, `PmRequirementFreeAll()` and
`PmRequirementAdd(1, 2)` again. -/
def loopState : PmState := addedState (PmRequirementFreeAll (addedState pmInit 1 2)) 1 2

/-- The list of requirements of `slave` in the memory `m` is `l`. -/
def MemSlaveList (m : PmMem) (slave : Nat) (l : List Nat) : Prop :=
  IsList (fun i => (m.pmReqData i).nextMaster) (m.slaveReqs slave) l

/-- The state after start-up, `PmRequirementAdd(R1, S)` and `PmRequirementAdd(R2, S)`. -/
def twoMastersState (R1 R2 S : Nat) : PmState := addedState (addedState pmInit R1 S) R2 S

/-- The state after `PmRequirementUpdate(&pmReqData[0], c1)` in `twoMastersState`. -/
def firstUpdateState (env : PmEnv) (R1 R2 S c1 : Nat) : PmState :=
  (PmRequirementUpdate env (twoMastersState R1 R2 S) 0 c1).2

/-- The state after `PmRequirementUpdate(&pmReqData[1], c2)` in `firstUpdateState`. -/
def secondUpdateState (env : PmEnv) (R1 R2 S c1 c2 : Nat) : PmState :=
  (PmRequirementUpdate env (firstUpdateState env R1 R2 S c1) 1 c2).2

/-- The record of a requirement after one iteration of the loop of
`PmRequirementCancelScheduled`. -/
def cancelOne (r : PmRequirement) : PmRequirement :=
  if r.currReq ≠ r.nextReq then { r with nextReq := r.currReq } else r

/-- The requirement argument of a call points to an allocated requirement: the pointer
passed to `PmRequirementSchedule` or `PmRequirementUpdate` is a slot below `pmReqTop`. -/
def validCall (s : PmState) : PmCall → Prop
  | .schedule masterReq _ => masterReq < s.pmReqTop
  | .update masterReq _ => masterReq < s.pmReqTop
  | _ => True

/-- States reached from start-up by calls of the public functions, `PmRequirementFreeAll`
included, whose requirement arguments point to allocated requirements, and by the assignment
of a default requirement to an allocated requirement that has none yet (the topology is
built by code outside `pm_requirement.c`).  `hist` lists the states in which a public
function was called, most recent first. -/
inductive ReachesValid (env : PmEnv) : List PmState → PmState → Prop where
  | init : ReachesValid env [] pmInit
  | call {hist : List PmState} {s : PmState} (fuel : Nat) (c : PmCall) (r : Option Int)
      (s1 : PmState) :
      ReachesValid env hist s → validCall s c → exec env fuel c s = some (r, s1) →
      ReachesValid env (s :: hist) s1
  | setDefault {hist : List PmState} {s : PmState} (i v : Nat) :
      ReachesValid env hist s → i < s.pmReqTop → (s.pmReqData i).defaultReq = 0 →
      ReachesValid env hist (s.setDefaultReq i v)

/-- The capability value `c` is zero, or the default requirement of the record `r`, or a
value that `PmCheckCapabilities` accepted for the slave of `r` in one of the states of
`hist`. -/
def Allowed (env : PmEnv) (hist : List PmState) (r : PmRequirement) (c : Nat) : Prop :=
  c = 0 ∨ c = r.defaultReq ∨
    ∃ st, st ∈ hist ∧ env.PmCheckCapabilities st r.slave c = XST_SUCCESS

/-- Both `currReq` and `nextReq` of the record are `Allowed`. -/
def Good (env : PmEnv) (hist : List PmState) (r : PmRequirement) : Prop :=
  Allowed env hist r r.currReq ∧ Allowed env hist r r.nextReq

/-- Invariant of `ReachesValid`: the slots from `pmReqTop` on are zero-filled, and every
slot is `Good`. -/
structure ValidInv (env : PmEnv) (hist : List PmState) (s : PmState) : Prop where
  zero : ∀ i, s.pmReqTop ≤ i → s.pmReqData i = zeroReq
  good : ∀ i, Good env hist (s.pmReqData i)

/-- A run of `PmRequirementAdd` calls, one for each pair of `ps`: the statuses returned,
in order, and the state after the last call. -/
def addAll (env : PmEnv) : PmState → List (Nat × Nat) → Option (List Int × PmState)
  | s, [] => some ([], s)
  | s, p :: ps =>
    match PmRequirementAdd env s p.1 p.2 with
    | none => none
    | some r =>
      match addAll env r.2 ps with
      | none => none
      | some rest => some (r.1 :: rest.1, rest.2)

/-- The state after start-up, `PmRequirementAdd(1, 2)` and
`PmRequirementUpdate(&pmReqData[0], 5)` with the slave layer `envOk`. -/
def updatedState : PmState := (PmRequirementUpdate envOk (addedState pmInit 1 2) 0 5).2

/-- The state after start-up, `PmRequirementAdd(1, 2)`, default requirement `4` assigned,
`PmRequirementRequestDefault(1)` and `PmRequirementUpdateScheduled(1, false)`, with the
slave layer `envRejects`. -/
def wokenState : PmState :=
  commitVisit envRejects false (requestStore envRejects (freshDefaultState 1 2 4) 0) 0

/-! ## Reading a state after a store -/

@[simp] theorem setReq_pmReqData (s : PmState) (i : Nat) (r : PmRequirement) (j : Nat) :
    (s.setReq i r).pmReqData j = if j = i then r else s.pmReqData j := rfl

@[simp] theorem setReq_pmReqTop (s : PmState) (i : Nat) (r : PmRequirement) :
    (s.setReq i r).pmReqTop = s.pmReqTop := rfl

@[simp] theorem setReq_masterReqs (s : PmState) (i : Nat) (r : PmRequirement) :
    (s.setReq i r).masterReqs = s.masterReqs := rfl

@[simp] theorem setReq_slaveReqs (s : PmState) (i : Nat) (r : PmRequirement) :
    (s.setReq i r).slaveReqs = s.slaveReqs := rfl

@[simp] theorem setReq_calls (s : PmState) (i : Nat) (r : PmRequirement) :
    (s.setReq i r).calls = s.calls := rfl

@[simp] theorem callUpdateSlave_fst (env : PmEnv) (s : PmState) (sl : SlavePtr) :
    (callUpdateSlave env s sl).1 = env.PmUpdateSlave s sl := rfl

@[simp] theorem callUpdateSlave_pmReqData (env : PmEnv) (s : PmState) (sl : SlavePtr) :
    (callUpdateSlave env s sl).2.pmReqData = s.pmReqData := rfl

@[simp] theorem callUpdateSlave_pmReqTop (env : PmEnv) (s : PmState) (sl : SlavePtr) :
    (callUpdateSlave env s sl).2.pmReqTop = s.pmReqTop := rfl

@[simp] theorem callUpdateSlave_masterReqs (env : PmEnv) (s : PmState) (sl : SlavePtr) :
    (callUpdateSlave env s sl).2.masterReqs = s.masterReqs := rfl

@[simp] theorem callUpdateSlave_slaveReqs (env : PmEnv) (s : PmState) (sl : SlavePtr) :
    (callUpdateSlave env s sl).2.slaveReqs = s.slaveReqs := rfl

@[simp] theorem callUpdateSlave_calls (env : PmEnv) (s : PmState) (sl : SlavePtr) :
    (callUpdateSlave env s sl).2.calls = ExtCall.update sl s.toPmMem :: s.calls := rfl

@[simp] theorem callCheckCapabilities_fst (env : PmEnv) (s : PmState) (sl : SlavePtr) (c : Nat) :
    (callCheckCapabilities env s sl c).1 = env.PmCheckCapabilities s sl c := rfl

@[simp] theorem callCheckCapabilities_toPmMem (env : PmEnv) (s : PmState) (sl : SlavePtr)
    (c : Nat) : (callCheckCapabilities env s sl c).2.toPmMem = s.toPmMem := rfl

@[simp] theorem callCheckCapabilities_calls (env : PmEnv) (s : PmState) (sl : SlavePtr)
    (c : Nat) : (callCheckCapabilities env s sl c).2.calls = ExtCall.check sl c :: s.calls := rfl

/-! ## The part of the state that only `PmRequirementAdd` and `PmRequirementFreeAll` write -/

theorem SameLinks.refl (s : PmState) : SameLinks s s :=
  ⟨rfl, rfl, rfl, fun _ => rfl, fun _ => rfl, fun _ => rfl, fun _ => rfl, fun _ => rfl⟩

theorem SameLinks.trans {s s1 s2 : PmState} (h : SameLinks s s1) (h1 : SameLinks s1 s2) :
    SameLinks s s2 :=
  ⟨h1.top.trans h.top, h1.masters.trans h.masters, h1.slaves.trans h.slaves,
   fun i => (h1.nextSlave i).trans (h.nextSlave i),
   fun i => (h1.nextMaster i).trans (h.nextMaster i),
   fun i => (h1.master i).trans (h.master i),
   fun i => (h1.slave i).trans (h.slave i),
   fun i => (h1.defaultReq i).trans (h.defaultReq i)⟩

theorem SameLinks.thenSetInfo {s s1 : PmState} (h : SameLinks s s1) (i v : Nat) :
    SameLinks s (s1.setInfo i v) := by
  refine h.trans ⟨rfl, rfl, rfl, ?_, ?_, ?_, ?_, ?_⟩ <;> intro j <;>
    by_cases hj : j = i <;> simp [PmState.setInfo, hj]

theorem SameLinks.thenSetCurrReq {s s1 : PmState} (h : SameLinks s s1) (i v : Nat) :
    SameLinks s (s1.setCurrReq i v) := by
  refine h.trans ⟨rfl, rfl, rfl, ?_, ?_, ?_, ?_, ?_⟩ <;> intro j <;>
    by_cases hj : j = i <;> simp [PmState.setCurrReq, hj]

theorem SameLinks.thenSetNextReq {s s1 : PmState} (h : SameLinks s s1) (i v : Nat) :
    SameLinks s (s1.setNextReq i v) := by
  refine h.trans ⟨rfl, rfl, rfl, ?_, ?_, ?_, ?_, ?_⟩ <;> intro j <;>
    by_cases hj : j = i <;> simp [PmState.setNextReq, hj]

theorem SameLinks.thenUpdateSlave {s s1 : PmState} (h : SameLinks s s1) (env : PmEnv)
    (sl : SlavePtr) : SameLinks s (callUpdateSlave env s1 sl).2 :=
  h.trans ⟨rfl, rfl, rfl, fun _ => rfl, fun _ => rfl, fun _ => rfl, fun _ => rfl, fun _ => rfl⟩

theorem SameLinks.thenCheckCapabilities {s s1 : PmState} (h : SameLinks s s1) (env : PmEnv)
    (sl : SlavePtr) (c : Nat) : SameLinks s (callCheckCapabilities env s1 sl c).2 :=
  h.trans ⟨rfl, rfl, rfl, fun _ => rfl, fun _ => rfl, fun _ => rfl, fun _ => rfl, fun _ => rfl⟩

theorem sameLinks_schedule (env : PmEnv) (s : PmState) (q c : Nat) :
    SameLinks s (PmRequirementSchedule env s q c).2 := by
  simp only [PmRequirementSchedule]
  split_ifs
  · exact (SameLinks.refl s).thenCheckCapabilities env _ c
  · exact ((SameLinks.refl s).thenCheckCapabilities env _ c).thenSetNextReq _ _

theorem sameLinks_update (env : PmEnv) (s : PmState) (q c : Nat) :
    SameLinks s (PmRequirementUpdate env s q c).2 := by
  simp only [PmRequirementUpdate]
  split_ifs
  · exact (SameLinks.refl s).thenCheckCapabilities env _ c
  · exact ((((SameLinks.refl s).thenCheckCapabilities env _ c).thenSetCurrReq _ _).thenUpdateSlave
      env _).thenSetNextReq _ _
  · exact ((((SameLinks.refl s).thenCheckCapabilities env _ c).thenSetCurrReq _ _).thenUpdateSlave
      env _).thenSetCurrReq _ _

theorem sameLinks_updateScheduledLoop (env : PmEnv) (swap : Bool) :
    ∀ (fuel : Nat) (s0 s : PmState) (status : Int) (p : ReqPtr) (r : Int × PmState),
      SameLinks s0 s →
      PmRequirementUpdateScheduledLoop env swap fuel s status p = some r → SameLinks s0 r.2 := by
  intro fuel
  induction fuel with
  | zero =>
    intro s0 s status p r hs h
    cases p with
    | none => simp [PmRequirementUpdateScheduledLoop] at h; subst h; exact hs
    | some i => simp [PmRequirementUpdateScheduledLoop] at h
  | succ n ih =>
    intro s0 s status p r hs h
    cases p with
    | none => simp [PmRequirementUpdateScheduledLoop] at h; subst h; exact hs
    | some i =>
      simp only [PmRequirementUpdateScheduledLoop] at h
      split_ifs at h with h1 h2 h3 h4
      all_goals first
        | exact ih _ _ _ _ _ hs h
        | exact ih _ _ _ _ _ (((hs.thenSetNextReq _ _).thenSetCurrReq _ _).thenUpdateSlave _ _) h
        | exact ih _ _ _ _ _ ((hs.thenSetCurrReq _ _).thenUpdateSlave _ _) h
        | (cases h; exact ((hs.thenSetNextReq _ _).thenSetCurrReq _ _).thenUpdateSlave _ _)
        | (cases h; exact (hs.thenSetCurrReq _ _).thenUpdateSlave _ _)

theorem sameLinks_cancelScheduledLoop :
    ∀ (fuel : Nat) (s0 s : PmState) (p : ReqPtr) (r : PmState),
      SameLinks s0 s → PmRequirementCancelScheduledLoop fuel s p = some r → SameLinks s0 r := by
  intro fuel
  induction fuel with
  | zero =>
    intro s0 s p r hs h
    cases p with
    | none => simp [PmRequirementCancelScheduledLoop] at h; subst h; exact hs
    | some i => simp [PmRequirementCancelScheduledLoop] at h
  | succ n ih =>
    intro s0 s p r hs h
    cases p with
    | none => simp [PmRequirementCancelScheduledLoop] at h; subst h; exact hs
    | some i =>
      simp only [PmRequirementCancelScheduledLoop] at h
      split_ifs at h with h1
      · exact ih _ _ _ _ (hs.thenSetNextReq _ _) h
      · exact ih _ _ _ _ hs h

theorem sameLinks_requestDefaultLoop (env : PmEnv) :
    ∀ (fuel : Nat) (s0 s : PmState) (p : ReqPtr) (r : PmState),
      SameLinks s0 s → PmRequirementRequestDefaultLoop env fuel s p = some r →
      SameLinks s0 r := by
  intro fuel
  induction fuel with
  | zero =>
    intro s0 s p r hs h
    cases p with
    | none => simp [PmRequirementRequestDefaultLoop] at h; subst h; exact hs
    | some i => simp [PmRequirementRequestDefaultLoop] at h
  | succ n ih =>
    intro s0 s p r hs h
    cases p with
    | none => simp [PmRequirementRequestDefaultLoop] at h; subst h; exact hs
    | some i =>
      simp only [PmRequirementRequestDefaultLoop] at h
      split_ifs at h with h1
      · exact ih _ _ _ _ ((hs.thenSetInfo _ _).thenSetNextReq _ _) h
      · exact ih _ _ _ _ hs h

theorem sameLinks_releaseAllLoop (env : PmEnv) :
    ∀ (fuel : Nat) (s0 s : PmState) (status : Int) (p : ReqPtr) (r : Int × PmState),
      SameLinks s0 s →
      PmRequirementReleaseAllLoop env fuel s status p = some r → SameLinks s0 r.2 := by
  intro fuel
  induction fuel with
  | zero =>
    intro s0 s status p r hs h
    cases p with
    | none => simp [PmRequirementReleaseAllLoop] at h; subst h; exact hs
    | some i => simp [PmRequirementReleaseAllLoop] at h
  | succ n ih =>
    intro s0 s status p r hs h
    cases p with
    | none => simp [PmRequirementReleaseAllLoop] at h; subst h; exact hs
    | some i =>
      simp only [PmRequirementReleaseAllLoop] at h
      split_ifs at h with h1 h2
      · cases h
        exact (((hs.thenSetInfo _ _).thenSetCurrReq _ _).thenSetNextReq _ _).thenUpdateSlave _ _
      · exact ih _ _ _ _ _
          ((((hs.thenSetInfo _ _).thenSetCurrReq _ _).thenSetNextReq _ _).thenUpdateSlave _ _) h
      · exact ih _ _ _ _ _ hs h

/-- Every call but `PmRequirementAdd` and `PmRequirementFreeAll` leaves `pmReqTop`, the list
heads and the links, master, slave and default of every slot as they were. -/
theorem sameLinks_exec (env : PmEnv) (fuel : Nat) (c : PmCall) (s : PmState) (r : Option Int)
    (s1 : PmState) (h : exec env fuel c s = some (r, s1))
    (hadd : ∀ m n, c ≠ PmCall.add m n) (hfree : c ≠ PmCall.freeAll) : SameLinks s s1 := by
  cases c with
  | add m n => exact absurd rfl (hadd m n)
  | freeAll => exact absurd rfl hfree
  | schedule q caps =>
    simp only [exec, Option.some.injEq, Prod.mk.injEq] at h
    rw [← h.2]; exact sameLinks_schedule env s q caps
  | update q caps =>
    simp only [exec, Option.some.injEq, Prod.mk.injEq] at h
    rw [← h.2]; exact sameLinks_update env s q caps
  | updateScheduled m swap =>
    simp only [exec, PmRequirementUpdateScheduled, Option.map_eq_some', Prod.mk.injEq] at h
    obtain ⟨a, ha, -, rfl⟩ := h
    exact sameLinks_updateScheduledLoop env swap fuel s s _ _ a (SameLinks.refl s) ha
  | cancelScheduled m =>
    simp only [exec, PmRequirementCancelScheduled, Option.map_eq_some', Prod.mk.injEq] at h
    obtain ⟨a, ha, -, rfl⟩ := h
    exact sameLinks_cancelScheduledLoop fuel s s _ a (SameLinks.refl s) ha
  | requestDefault m =>
    simp only [exec, PmRequirementRequestDefault, Option.map_eq_some', Prod.mk.injEq] at h
    obtain ⟨a, ha, -, rfl⟩ := h
    exact sameLinks_requestDefaultLoop env fuel s s _ a (SameLinks.refl s) ha
  | releaseAll m =>
    simp only [exec, PmRequirementReleaseAll, Option.map_eq_some', Prod.mk.injEq] at h
    obtain ⟨a, ha, -, rfl⟩ := h
    exact sameLinks_releaseAllLoop env fuel s s _ _ a (SameLinks.refl s) ha

/-! ## What `PmRequirementAdd` does -/

theorem add_of_lt (env : PmEnv) (s : PmState) (m n : Nat)
    (h : s.pmReqTop < env.PM_REQUIREMENT_MAX) :
    PmRequirementAdd env s m n = some (XST_SUCCESS, addedState s m n) := by
  simp only [PmRequirementAdd, PmRequirementMalloc, h, if_true, PmRequirementLink,
    PmState.setMaster, PmState.setSlave, PmState.setNextSlave, PmState.setNextMaster,
    PmState.setMasterReqs, PmState.setSlaveReqs, PmState.setReq, addedState]
  simp only [bind, Option.bind, pure, if_true, Option.some.injEq, Prod.mk.injEq, true_and]
  congr 1
  congr 1
  funext i
  by_cases hi : i = s.pmReqTop <;> simp [hi]

theorem add_of_not_lt (env : PmEnv) (s : PmState) (m n : Nat)
    (h : ¬ s.pmReqTop < env.PM_REQUIREMENT_MAX) :
    PmRequirementAdd env s m n = some (XST_FAILURE, s) := by
  simp [PmRequirementAdd, PmRequirementMalloc, h]

/-! ## Master lists in states reached without `PmRequirementFreeAll` -/

theorem masterInv_init : MasterInv pmInit :=
  ⟨by intro m i h; simp [pmInit] at h, by intro m i h; simp [pmInit] at h,
   by intro i j h; simp [pmInit] at h, by intro i j h; simp [pmInit] at h⟩

theorem masterInv_sameLinks {s s1 : PmState} (h : SameLinks s s1) (hi : MasterInv s) :
    MasterInv s1 := by
  refine ⟨?_, ?_, ?_, ?_⟩
  · intro m i hm
    rw [h.masters] at hm; rw [h.top]; exact hi.head_lt m i hm
  · intro m i hm
    rw [h.masters] at hm; rw [h.master]; exact hi.head_master m i hm
  · intro i j hlt hn
    rw [h.top] at hlt; rw [h.nextSlave] at hn; exact hi.next_lt i j hlt hn
  · intro i j hlt hn
    rw [h.top] at hlt; rw [h.nextSlave] at hn
    rw [h.master, h.master]; exact hi.next_master i j hlt hn

theorem masterInv_added {s : PmState} (hi : MasterInv s) (m n : Nat) :
    MasterInv (addedState s m n) := by
  refine ⟨?_, ?_, ?_, ?_⟩
  · intro k i hk
    simp only [addedState] at hk ⊢
    split_ifs at hk with h1
    · cases hk; exact Nat.lt_succ_self _
    · exact Nat.lt_succ_of_lt (hi.head_lt k i hk)
  · intro k i hk
    simp only [addedState] at hk ⊢
    split_ifs at hk with h1
    · cases hk; simp [h1]
    · have hlt := hi.head_lt k i hk
      rw [if_neg (Nat.ne_of_lt hlt)]
      exact hi.head_master k i hk
  · intro i j hlt hn
    simp only [addedState] at hlt hn
    split_ifs at hn with h1
    · simp only at hn
      rw [h1]; exact hi.head_lt m j hn
    · have hlt1 : i < s.pmReqTop := lt_of_le_of_ne (Nat.lt_succ_iff.mp hlt) h1
      exact hi.next_lt i j hlt1 hn
  · intro i j hlt hn
    simp only [addedState] at hlt hn ⊢
    split_ifs at hn with h1
    · simp only at hn
      have hj := hi.head_lt m j hn
      rw [if_neg (Nat.ne_of_lt hj), if_pos h1]
      exact hi.head_master m j hn
    · have hlt1 : i < s.pmReqTop := lt_of_le_of_ne (Nat.lt_succ_iff.mp hlt) h1
      have hj := hi.next_lt i j hlt1 hn
      rw [if_neg (Nat.ne_of_lt (lt_trans hj hlt1)), if_neg h1]
      exact hi.next_master i j hlt1 hn

theorem exec_add_cases (env : PmEnv) (fuel : Nat) (m n : Nat) (s : PmState) (r : Option Int)
    (s1 : PmState) (h : exec env fuel (PmCall.add m n) s = some (r, s1)) :
    (s.pmReqTop < env.PM_REQUIREMENT_MAX ∧ r = some XST_SUCCESS ∧ s1 = addedState s m n) ∨
    (¬ s.pmReqTop < env.PM_REQUIREMENT_MAX ∧ r = some XST_FAILURE ∧ s1 = s) := by
  by_cases hlt : s.pmReqTop < env.PM_REQUIREMENT_MAX
  · left
    simp only [exec, add_of_lt env s m n hlt, Option.map_some', Option.some.injEq,
      Prod.mk.injEq] at h
    exact ⟨hlt, h.1.symm, h.2.symm⟩
  · right
    simp only [exec, add_of_not_lt env s m n hlt, Option.map_some', Option.some.injEq,
      Prod.mk.injEq] at h
    exact ⟨hlt, h.1.symm, h.2.symm⟩

theorem reaches_masterInv (env : PmEnv) (evs : List (PmCall × Option Int)) (s : PmState)
    (h : Reaches env evs s) (hno : ∀ e ∈ evs, e.1 ≠ PmCall.freeAll) : MasterInv s := by
  induction h with
  | init => exact masterInv_init
  | @step evs s fuel c r s1 _ hex ih =>
    have hs : MasterInv s := ih (fun e he => hno e (List.mem_cons_of_mem _ he))
    have hc : c ≠ PmCall.freeAll := hno (c, r) (List.mem_cons_self _ _)
    by_cases hadd : ∃ m n, c = PmCall.add m n
    · obtain ⟨m, n, rfl⟩ := hadd
      rcases exec_add_cases env fuel m n s r s1 hex with ⟨-, -, rfl⟩ | ⟨-, -, rfl⟩
      · exact masterInv_added hs m n
      · exact hs
    · exact masterInv_sameLinks
        (sameLinks_exec env fuel c s r s1 hex (fun m n hmn => hadd ⟨m, n, hmn⟩) hc) hs

theorem onList_some {nxt : Nat → ReqPtr} {p : ReqPtr} {i : Nat} (h : OnList nxt p i) :
    ∃ a, p = some a := by
  cases h with
  | here => exact ⟨_, rfl⟩
  | later a _ _ => exact ⟨a, rfl⟩

theorem onList_lt {s : PmState} (hi : MasterInv s) :
    ∀ (p : ReqPtr) (i : Nat), OnList s.nextSlaveOf p i →
      (∀ a, p = some a → a < s.pmReqTop) → i < s.pmReqTop := by
  intro p i h
  induction h with
  | here i => intro ha; exact ha i rfl
  | later a j _ ih =>
    intro ha
    refine ih ?_
    intro b hb
    exact lt_trans (hi.next_lt a b (ha a rfl) hb) (ha a rfl)

theorem onList_added {s : PmState} (hi : MasterInv s) (m n : Nat) :
    ∀ (p : ReqPtr) (i : Nat), OnList s.nextSlaveOf p i →
      (∀ a, p = some a → a < s.pmReqTop) → OnList (addedState s m n).nextSlaveOf p i := by
  intro p i h
  induction h with
  | here i => intro _; exact OnList.here i
  | later a j _ ih =>
    intro ha
    have hlt := ha a rfl
    have hnx : (addedState s m n).nextSlaveOf a = s.nextSlaveOf a := by
      simp [PmState.nextSlaveOf, addedState, Nat.ne_of_lt hlt]
    refine OnList.later a j ?_
    rw [hnx]
    refine ih ?_
    intro b hb
    exact lt_trans (hi.next_lt a b hlt hb) hlt

theorem addedOnList_added {s : PmState} (hi : MasterInv s) (m n R S : Nat)
    (h : AddedOnList s R S) : AddedOnList (addedState s m n) R S := by
  obtain ⟨i, hon, hsl⟩ := h
  have hhead : ∀ a, s.masterReqs R = some a → a < s.pmReqTop := fun a ha => hi.head_lt R a ha
  have hlt := onList_lt hi _ i hon hhead
  have hon1 := onList_added hi m n _ i hon hhead
  refine ⟨i, ?_, ?_⟩
  · by_cases hR : R = m
    · subst hR
      have h1 : (addedState s R n).masterReqs R = some s.pmReqTop := by simp [addedState]
      have h2 : (addedState s R n).nextSlaveOf s.pmReqTop = s.masterReqs R := by
        simp [PmState.nextSlaveOf, addedState]
      rw [h1]
      refine OnList.later _ i ?_
      rw [h2]; exact hon1
    · have h1 : (addedState s m n).masterReqs R = s.masterReqs R := by simp [addedState, hR]
      rw [h1]; exact hon1
  · simp only [addedState, if_neg (Nat.ne_of_lt hlt)]
    exact hsl

theorem addedOnList_new (s : PmState) (R S : Nat) : AddedOnList (addedState s R S) R S := by
  refine ⟨s.pmReqTop, ?_, ?_⟩
  · have h1 : (addedState s R S).masterReqs R = some s.pmReqTop := by simp [addedState]
    rw [h1]; exact OnList.here _
  · simp [addedState]

theorem addedOnList_sameLinks {s s1 : PmState} (h : SameLinks s s1) (R S : Nat)
    (ha : AddedOnList s R S) : AddedOnList s1 R S := by
  obtain ⟨i, hon, hsl⟩ := ha
  have hnx : s1.nextSlaveOf = s.nextSlaveOf := funext fun k => h.nextSlave k
  refine ⟨i, ?_, ?_⟩
  · rw [hnx, h.masters]; exact hon
  · rw [h.slave]; exact hsl

theorem reaches_addedOnList (env : PmEnv) (evs : List (PmCall × Option Int)) (s : PmState)
    (h : Reaches env evs s) (hno : ∀ e ∈ evs, e.1 ≠ PmCall.freeAll) (R S : Nat)
    (hadd : (PmCall.add R S, some XST_SUCCESS) ∈ evs) : AddedOnList s R S := by
  induction h with
  | init => simp at hadd
  | @step evs s fuel c r s1 hr hex ih =>
    have hno1 : ∀ e ∈ evs, e.1 ≠ PmCall.freeAll := fun e he => hno e (List.mem_cons_of_mem _ he)
    have hs : MasterInv s := reaches_masterInv env evs s hr hno1
    have hc : c ≠ PmCall.freeAll := hno (c, r) (List.mem_cons_self _ _)
    by_cases hc1 : ∃ m n, c = PmCall.add m n
    · obtain ⟨m, n, rfl⟩ := hc1
      rcases exec_add_cases env fuel m n s r s1 hex with ⟨-, rfl, rfl⟩ | ⟨-, rfl, rfl⟩
      · rcases List.mem_cons.mp hadd with heq | hmem
        · simp only [Prod.mk.injEq, PmCall.add.injEq] at heq
          obtain ⟨⟨rfl, rfl⟩, -⟩ := heq
          exact addedOnList_new s R S
        · exact addedOnList_added hs m n R S (ih hno1 hmem)
      · rcases List.mem_cons.mp hadd with heq | hmem
        · simp [XST_SUCCESS, XST_FAILURE] at heq
        · exact ih hno1 hmem
    · have hsl := sameLinks_exec env fuel c s r s1 hex (fun m n hmn => hc1 ⟨m, n, hmn⟩) hc
      rcases List.mem_cons.mp hadd with heq | hmem
      · simp only [Prod.mk.injEq] at heq
        exact absurd ⟨R, S, heq.1.symm⟩ hc1
      · exact addedOnList_sameLinks hsl R S (ih hno1 hmem)

theorem get_of_onList {s : PmState} (hi : MasterInv s) (R S : Nat) :
    ∀ (p : ReqPtr) (i : Nat), OnList s.nextSlaveOf p i → (s.pmReqData i).slave = some S →
      ∀ a, p = some a → a < s.pmReqTop → (s.pmReqData a).master = some R →
      ∃ k, (∀ fuel, a < fuel → PmRequirementGetLoop s (some S) fuel p = some (some k)) ∧
        (s.pmReqData k).master = some R ∧ (s.pmReqData k).slave = some S := by
  intro p i h
  induction h with
  | here i =>
    intro hsl a ha hlt hm
    cases ha
    refine ⟨i, ?_, hm, hsl⟩
    intro fuel hf
    obtain ⟨f, rfl⟩ : ∃ f, fuel = f + 1 := ⟨fuel - 1, by omega⟩
    simp [PmRequirementGetLoop, hsl]
  | later b j hon ih =>
    intro hsl a ha hlt hm
    cases ha
    by_cases hb : (s.pmReqData b).slave = some S
    · refine ⟨b, ?_, hm, hb⟩
      intro fuel hf
      obtain ⟨f, rfl⟩ : ∃ f, fuel = f + 1 := ⟨fuel - 1, by omega⟩
      simp [PmRequirementGetLoop, hb]
    · obtain ⟨c, hc⟩ : ∃ c, s.nextSlaveOf b = some c := onList_some hon
      have hcb : c < b := hi.next_lt b c hlt hc
      have hcm : (s.pmReqData c).master = some R := by
        rw [hi.next_master b c hlt hc]; exact hm
      obtain ⟨k, hk, hkm, hks⟩ := ih hsl c hc (lt_trans hcb hlt) hcm
      refine ⟨k, ?_, hkm, hks⟩
      intro fuel hf
      obtain ⟨f, rfl⟩ : ∃ f, fuel = f + 1 := ⟨fuel - 1, by omega⟩
      have hb1 : ¬ some S = (s.pmReqData b).slave := fun e => hb e.symm
      simp only [PmRequirementGetLoop, if_neg hb1]
      exact hk f (by omega)

/-! ## The allocation index -/

theorem allocatedSinceReset_other (c : PmCall) (r : Option Int)
    (evs : List (PmCall × Option Int)) (hadd : ∀ m n, c ≠ PmCall.add m n)
    (hfree : c ≠ PmCall.freeAll) :
    allocatedSinceReset ((c, r) :: evs) = allocatedSinceReset evs := by
  cases c with
  | add m n => exact absurd rfl (hadd m n)
  | freeAll => exact absurd rfl hfree
  | schedule _ _ => rfl
  | update _ _ => rfl
  | updateScheduled _ _ => rfl
  | cancelScheduled _ => rfl
  | requestDefault _ => rfl
  | releaseAll _ => rfl

theorem reaches_top (env : PmEnv) (evs : List (PmCall × Option Int)) (s : PmState)
    (h : Reaches env evs s) :
    s.pmReqTop = allocatedSinceReset evs ∧ s.pmReqTop ≤ env.PM_REQUIREMENT_MAX := by
  induction h with
  | init => exact ⟨rfl, Nat.zero_le _⟩
  | @step evs s fuel c r s1 _ hex ih =>
    by_cases hadd : ∃ m n, c = PmCall.add m n
    · obtain ⟨m, n, rfl⟩ := hadd
      rcases exec_add_cases env fuel m n s r s1 hex with ⟨hlt, rfl, rfl⟩ | ⟨-, rfl, rfl⟩
      · refine ⟨?_, hlt⟩
        simp [allocatedSinceReset, addedState, ih.1]
      · refine ⟨?_, ih.2⟩
        simp [allocatedSinceReset, XST_SUCCESS, XST_FAILURE, ih.1]
    · by_cases hfree : c = PmCall.freeAll
      · subst hfree
        simp only [exec, Option.some.injEq, Prod.mk.injEq] at hex
        rw [← hex.2]
        exact ⟨rfl, Nat.zero_le _⟩
      · have hsl := sameLinks_exec env fuel c s r s1 hex (fun m n hmn => hadd ⟨m, n, hmn⟩) hfree
        rw [hsl.top, allocatedSinceReset_other c r evs (fun m n hmn => hadd ⟨m, n, hmn⟩) hfree]
        exact ih

/-! ## Well-formed lists -/

theorem isList_unique {nxt : Nat → ReqPtr} :
    ∀ (l1 l2 : List Nat) (p : ReqPtr), IsList nxt p l1 → IsList nxt p l2 → l1 = l2 := by
  intro l1
  induction l1 with
  | nil =>
    intro l2 p h1 h2
    cases l2 with
    | nil => rfl
    | cons j l2 =>
      simp only [IsList] at h1 h2
      rw [h1] at h2; exact absurd h2.1 (by simp)
  | cons i l1 ih =>
    intro l2 p h1 h2
    cases l2 with
    | nil =>
      simp only [IsList] at h1 h2
      rw [h2] at h1; exact absurd h1.1 (by simp)
    | cons j l2 =>
      simp only [IsList] at h1 h2
      have hij : i = j := by
        have := h1.1.symm.trans h2.1
        simpa using this
      subst hij
      rw [ih l2 _ h1.2 h2.2]

theorem isList_suffix {nxt : Nat → ReqPtr} :
    ∀ (a b : List Nat) (p : ReqPtr), IsList nxt p (a ++ b) → ∃ p1, IsList nxt p1 b := by
  intro a
  induction a with
  | nil => intro b p h; exact ⟨p, h⟩
  | cons i a ih =>
    intro b p h
    simp only [List.cons_append, IsList] at h
    exact ih b _ h.2

theorem isList_nodup {nxt : Nat → ReqPtr} :
    ∀ (l : List Nat) (p : ReqPtr), IsList nxt p l → l.Nodup := by
  intro l
  induction l with
  | nil => intro p _; exact List.nodup_nil
  | cons i l ih =>
    intro p h
    simp only [IsList] at h
    refine List.nodup_cons.mpr ⟨?_, ih _ h.2⟩
    intro hmem
    obtain ⟨a, b, hab⟩ := List.append_of_mem hmem
    have h2 := h.2
    rw [hab] at h2
    obtain ⟨p1, hp1⟩ := isList_suffix a (i :: b) _ h2
    simp only [IsList] at hp1
    have heq := isList_unique l b _ h.2 hp1.2
    have hlen : l.length = b.length := by rw [heq]
    rw [hab] at hlen
    simp at hlen
    omega

theorem isList_sameLinks {s s1 : PmState} (h : SameLinks s s1) (p : ReqPtr) (l : List Nat)
    (hl : IsList s.nextSlaveOf p l) : IsList s1.nextSlaveOf p l := by
  have hnx : s1.nextSlaveOf = s.nextSlaveOf := funext fun k => h.nextSlave k
  rw [hnx]; exact hl

/-! ## The walk of `PmRequirementUpdateScheduled` -/

theorem commitStore_sameLinks (swap : Bool) (s : PmState) (i : Nat) :
    SameLinks s (commitStore swap s i) := by
  unfold commitStore
  split_ifs
  · exact ((SameLinks.refl s).thenSetNextReq _ _).thenSetCurrReq _ _
  · exact ((SameLinks.refl s).thenSetNextReq _ _).thenSetCurrReq _ _
  · exact (SameLinks.refl s).thenSetCurrReq _ _

theorem commitStore_calls (swap : Bool) (s : PmState) (i : Nat) :
    (commitStore swap s i).calls = s.calls := by
  unfold commitStore
  split_ifs <;> rfl

theorem commitStore_pmReqData (swap : Bool) (s : PmState) (i : Nat)
    (h : (s.pmReqData i).currReq ≠ (s.pmReqData i).nextReq) (j : Nat) :
    (commitStore swap s i).pmReqData j
      = if j = i then commitOne swap (s.pmReqData i) else s.pmReqData j := by
  unfold commitStore commitOne
  rw [if_pos h]
  by_cases hj : j = i
  · subst hj
    rw [if_pos rfl]
    split_ifs <;> simp [PmState.setCurrReq, PmState.setNextReq]
  · rw [if_neg hj]
    split_ifs <;> simp [PmState.setCurrReq, PmState.setNextReq, hj]

theorem updateScheduledLoop_succ (env : PmEnv) (swap : Bool) (fuel : Nat) (s : PmState)
    (status : Int) (i : Nat) :
    PmRequirementUpdateScheduledLoop env swap (fuel + 1) s status (some i) =
      if (s.pmReqData i).currReq ≠ (s.pmReqData i).nextReq then
        if XST_SUCCESS ≠ (callUpdateSlave env (commitStore swap s i)
            ((commitStore swap s i).pmReqData i).slave).1 then
          some (callUpdateSlave env (commitStore swap s i)
            ((commitStore swap s i).pmReqData i).slave)
        else
          PmRequirementUpdateScheduledLoop env swap fuel
            (callUpdateSlave env (commitStore swap s i)
              ((commitStore swap s i).pmReqData i).slave).2
            (callUpdateSlave env (commitStore swap s i)
              ((commitStore swap s i).pmReqData i).slave).1
            ((commitStore swap s i).pmReqData i).nextSlave
      else
        PmRequirementUpdateScheduledLoop env swap fuel s status (s.pmReqData i).nextSlave := by
  simp only [PmRequirementUpdateScheduledLoop, commitStore]
  rfl

theorem updateScheduledLoop_spec (env : PmEnv) (swap : Bool) :
    ∀ (l : List Nat) (fuel : Nat) (s : PmState) (status : Int) (p : ReqPtr),
      IsList s.nextSlaveOf p l → l.Nodup → l.length ≤ fuel →
      ∃ r s1, PmRequirementUpdateScheduledLoop env swap fuel s status p = some (r, s1) ∧
        (r = XST_SUCCESS →
          (∀ i ∈ l, s1.pmReqData i = commitOne swap (s.pmReqData i)) ∧
          (∀ i, i ∉ l → s1.pmReqData i = s.pmReqData i)) := by
  intro l
  induction l with
  | nil =>
    intro fuel s status p hl _ _
    simp only [IsList] at hl
    subst hl
    refine ⟨status, s, ?_, fun _ => ⟨by simp, fun _ _ => rfl⟩⟩
    cases fuel <;> simp [PmRequirementUpdateScheduledLoop]
  | cons i l ih =>
    intro fuel s status p hl hnd hf
    simp only [IsList] at hl
    obtain ⟨hp, hl1⟩ := hl
    subst hp
    obtain ⟨f, rfl⟩ : ∃ f, fuel = f + 1 := ⟨fuel - 1, by simp at hf; omega⟩
    have hf1 : l.length ≤ f := by simp at hf; omega
    obtain ⟨hil, hnd1⟩ := List.nodup_cons.mp hnd
    rw [updateScheduledLoop_succ]
    by_cases hcn : (s.pmReqData i).currReq = (s.pmReqData i).nextReq
    · rw [if_neg (not_not.mpr hcn)]
      obtain ⟨r, s1, hrun, hprop⟩ := ih f s status _ hl1 hnd1 hf1
      refine ⟨r, s1, hrun, fun hr => ?_⟩
      obtain ⟨h1, h2⟩ := hprop hr
      refine ⟨?_, ?_⟩
      · intro j hj
        rcases List.mem_cons.mp hj with rfl | hj1
        · rw [h2 j hil]; simp [commitOne, hcn]
        · exact h1 j hj1
      · intro j hj
        exact h2 j (fun hj1 => hj (List.mem_cons_of_mem _ hj1))
    · rw [if_pos hcn]
      by_cases hst : XST_SUCCESS ≠ (callUpdateSlave env (commitStore swap s i)
          ((commitStore swap s i).pmReqData i).slave).1
      · rw [if_pos hst]
        exact ⟨_, _, rfl, fun hr => absurd hr.symm hst⟩
      · rw [if_neg hst]
        have hsl : SameLinks s (callUpdateSlave env (commitStore swap s i)
            ((commitStore swap s i).pmReqData i).slave).2 :=
          (commitStore_sameLinks swap s i).thenUpdateSlave env _
        have hnx : ((commitStore swap s i).pmReqData i).nextSlave = s.nextSlaveOf i :=
          (commitStore_sameLinks swap s i).nextSlave i
        rw [hnx]
        obtain ⟨r, s1, hrun, hprop⟩ :=
          ih f _ (callUpdateSlave env (commitStore swap s i)
            ((commitStore swap s i).pmReqData i).slave).1 _
            (isList_sameLinks hsl _ _ hl1) hnd1 hf1
        refine ⟨r, s1, hrun, fun hr => ?_⟩
        obtain ⟨h1, h2⟩ := hprop hr
        simp only [callUpdateSlave_pmReqData, commitStore_pmReqData swap s i hcn] at h1 h2
        refine ⟨?_, ?_⟩
        · intro j hj
          rcases List.mem_cons.mp hj with rfl | hj1
          · rw [h2 j hil]; simp
          · rw [h1 j hj1, if_neg (fun (e : j = i) => hil (e ▸ hj1))]
        · intro j hj
          have hji : j ≠ i := fun (e : j = i) => hj (e ▸ List.mem_cons_self _ _)
          rw [h2 j (fun hj1 => hj (List.mem_cons_of_mem _ hj1)), if_neg hji]

/-! ## The walk of `PmRequirementCancelScheduled` -/

/-- A walk of `PmRequirementUpdateScheduled` that returns `XST_SUCCESS` has reached the end
of the list: the list it walked is well formed and no longer than the number of
iterations. -/
theorem updateScheduledLoop_success_isList (env : PmEnv) (swap : Bool) :
    ∀ (fuel : Nat) (s : PmState) (status : Int) (p : ReqPtr) (s1 : PmState),
      PmRequirementUpdateScheduledLoop env swap fuel s status p = some (XST_SUCCESS, s1) →
      ∃ l, IsList s.nextSlaveOf p l ∧ l.length ≤ fuel := by
  intro fuel
  induction fuel with
  | zero =>
    intro s status p s1 h
    cases p with
    | none => exact ⟨[], rfl, Nat.le_refl _⟩
    | some i => simp [PmRequirementUpdateScheduledLoop] at h
  | succ n ih =>
    intro s status p s1 h
    cases p with
    | none => exact ⟨[], rfl, Nat.zero_le _⟩
    | some i =>
      rw [updateScheduledLoop_succ] at h
      by_cases hcn : (s.pmReqData i).currReq = (s.pmReqData i).nextReq
      · rw [if_neg (not_not.mpr hcn)] at h
        obtain ⟨l, hl, hlen⟩ := ih _ _ _ _ h
        exact ⟨i :: l, ⟨rfl, hl⟩, Nat.succ_le_succ hlen⟩
      · rw [if_pos hcn] at h
        by_cases hst : XST_SUCCESS ≠ (callUpdateSlave env (commitStore swap s i)
            ((commitStore swap s i).pmReqData i).slave).1
        · rw [if_pos hst] at h
          simp only [Option.some.injEq] at h
          exact absurd (congrArg Prod.fst h).symm hst
        · rw [if_neg hst] at h
          have hsl : SameLinks s (callUpdateSlave env (commitStore swap s i)
              ((commitStore swap s i).pmReqData i).slave).2 :=
            (commitStore_sameLinks swap s i).thenUpdateSlave env _
          have hnx : ((commitStore swap s i).pmReqData i).nextSlave = s.nextSlaveOf i :=
            (commitStore_sameLinks swap s i).nextSlave i
          rw [hnx] at h
          obtain ⟨l, hl, hlen⟩ := ih _ _ _ _ h
          have hnxf : (callUpdateSlave env (commitStore swap s i)
              ((commitStore swap s i).pmReqData i).slave).2.nextSlaveOf = s.nextSlaveOf :=
            funext fun k => hsl.nextSlave k
          rw [hnxf] at hl
          exact ⟨i :: l, ⟨rfl, hl⟩, Nat.succ_le_succ hlen⟩

/-- When `PmRequirementUpdateScheduled` returns `XST_SUCCESS`, the list of the master is
well formed. -/
theorem updateScheduled_success_masterList (env : PmEnv) (swap : Bool) (fuel : Nat)
    (s : PmState) (R : Nat) (s1 : PmState)
    (h : PmRequirementUpdateScheduled env fuel s R swap = some (XST_SUCCESS, s1)) :
    ∃ l, MasterList s R l ∧ l.length ≤ fuel :=
  updateScheduledLoop_success_isList env swap fuel s XST_SUCCESS _ s1 h

theorem nextReq_eq_currReq (r : PmRequirement) (h : r.currReq = r.nextReq) :
    { r with nextReq := r.currReq } = r := by
  cases r
  simp_all

theorem cancelScheduledLoop_spec :
    ∀ (l : List Nat) (fuel : Nat) (s : PmState) (p : ReqPtr),
      IsList s.nextSlaveOf p l → l.Nodup → l.length ≤ fuel →
      ∃ s1, PmRequirementCancelScheduledLoop fuel s p = some s1 ∧
        s1.calls = s.calls ∧
        (∀ i ∈ l, s1.pmReqData i
          = { s.pmReqData i with nextReq := (s.pmReqData i).currReq }) ∧
        (∀ i, i ∉ l → s1.pmReqData i = s.pmReqData i) := by
  intro l
  induction l with
  | nil =>
    intro fuel s p hl _ _
    simp only [IsList] at hl
    subst hl
    refine ⟨s, ?_, rfl, by simp, fun _ _ => rfl⟩
    cases fuel <;> simp [PmRequirementCancelScheduledLoop]
  | cons i l ih =>
    intro fuel s p hl hnd hf
    simp only [IsList] at hl
    obtain ⟨hp, hl1⟩ := hl
    subst hp
    obtain ⟨f, rfl⟩ : ∃ f, fuel = f + 1 := ⟨fuel - 1, by simp at hf; omega⟩
    have hf1 : l.length ≤ f := by simp at hf; omega
    obtain ⟨hil, hnd1⟩ := List.nodup_cons.mp hnd
    simp only [PmRequirementCancelScheduledLoop]
    by_cases hcn : (s.pmReqData i).currReq = (s.pmReqData i).nextReq
    · rw [if_neg (not_not.mpr hcn)]
      obtain ⟨s1, hrun, hcalls, h1, h2⟩ := ih f s _ hl1 hnd1 hf1
      refine ⟨s1, hrun, hcalls, ?_, ?_⟩
      · intro j hj
        rcases List.mem_cons.mp hj with rfl | hj1
        · rw [h2 j hil, nextReq_eq_currReq _ hcn]
        · exact h1 j hj1
      · intro j hj
        exact h2 j (fun hj1 => hj (List.mem_cons_of_mem _ hj1))
    · rw [if_pos hcn]
      have hsl : SameLinks s (s.setNextReq i (s.pmReqData i).currReq) :=
        (SameLinks.refl s).thenSetNextReq _ _
      have hnx : ((s.setNextReq i (s.pmReqData i).currReq).pmReqData i).nextSlave
          = s.nextSlaveOf i := hsl.nextSlave i
      rw [hnx]
      obtain ⟨s1, hrun, hcalls, h1, h2⟩ := ih f _ _ (isList_sameLinks hsl _ _ hl1) hnd1 hf1
      refine ⟨s1, hrun, hcalls, ?_, ?_⟩
      · intro j hj
        rcases List.mem_cons.mp hj with rfl | hj1
        · rw [h2 j hil]; simp [PmState.setNextReq]
        · have hji : j ≠ i := fun (e : j = i) => hil (e ▸ hj1)
          rw [h1 j hj1]; simp [PmState.setNextReq, hji]
      · intro j hj
        have hji : j ≠ i := fun (e : j = i) => hj (e ▸ List.mem_cons_self _ _)
        rw [h2 j (fun hj1 => hj (List.mem_cons_of_mem _ hj1))]
        simp [PmState.setNextReq, hji]

/-! ## The walk of `PmRequirementRequestDefault` -/

theorem requestStore_sameLinks (env : PmEnv) (s : PmState) (i : Nat) :
    SameLinks s (requestStore env s i) :=
  ((SameLinks.refl s).thenSetInfo _ _).thenSetNextReq _ _

theorem requestStore_pmReqData (env : PmEnv) (s : PmState) (i : Nat)
    (h : 0 ≠ (s.pmReqData i).defaultReq) (j : Nat) :
    (requestStore env s i).pmReqData j
      = if j = i then requestOne env (s.pmReqData i) else s.pmReqData j := by
  unfold requestStore requestOne
  rw [if_pos h]
  by_cases hj : j = i
  · subst hj
    simp [PmState.setInfo, PmState.setNextReq]
  · simp [PmState.setInfo, PmState.setNextReq, hj]

theorem requestDefaultLoop_succ (env : PmEnv) (fuel : Nat) (s : PmState) (i : Nat) :
    PmRequirementRequestDefaultLoop env (fuel + 1) s (some i) =
      if 0 ≠ (s.pmReqData i).defaultReq then
        PmRequirementRequestDefaultLoop env fuel (requestStore env s i)
          ((requestStore env s i).pmReqData i).nextSlave
      else
        PmRequirementRequestDefaultLoop env fuel s (s.pmReqData i).nextSlave := by
  simp only [PmRequirementRequestDefaultLoop, requestStore]

theorem requestDefaultLoop_spec (env : PmEnv) :
    ∀ (l : List Nat) (fuel : Nat) (s : PmState) (p : ReqPtr),
      IsList s.nextSlaveOf p l → l.Nodup → l.length ≤ fuel →
      ∃ s1, PmRequirementRequestDefaultLoop env fuel s p = some s1 ∧
        s1.calls = s.calls ∧
        (∀ i ∈ l, s1.pmReqData i = requestOne env (s.pmReqData i)) ∧
        (∀ i, i ∉ l → s1.pmReqData i = s.pmReqData i) := by
  intro l
  induction l with
  | nil =>
    intro fuel s p hl _ _
    simp only [IsList] at hl
    subst hl
    refine ⟨s, ?_, rfl, by simp, fun _ _ => rfl⟩
    cases fuel <;> simp [PmRequirementRequestDefaultLoop]
  | cons i l ih =>
    intro fuel s p hl hnd hf
    simp only [IsList] at hl
    obtain ⟨hp, hl1⟩ := hl
    subst hp
    obtain ⟨f, rfl⟩ : ∃ f, fuel = f + 1 := ⟨fuel - 1, by simp at hf; omega⟩
    have hf1 : l.length ≤ f := by simp at hf; omega
    obtain ⟨hil, hnd1⟩ := List.nodup_cons.mp hnd
    rw [requestDefaultLoop_succ]
    by_cases hd : 0 ≠ (s.pmReqData i).defaultReq
    · rw [if_pos hd]
      have hsl := requestStore_sameLinks env s i
      have hnx : ((requestStore env s i).pmReqData i).nextSlave = s.nextSlaveOf i :=
        hsl.nextSlave i
      rw [hnx]
      obtain ⟨s1, hrun, hcalls, h1, h2⟩ := ih f _ _ (isList_sameLinks hsl _ _ hl1) hnd1 hf1
      simp only [requestStore_pmReqData env s i hd] at h1 h2
      refine ⟨s1, hrun, hcalls, ?_, ?_⟩
      · intro j hj
        rcases List.mem_cons.mp hj with rfl | hj1
        · rw [h2 j hil]; simp
        · rw [h1 j hj1, if_neg (fun (e : j = i) => hil (e ▸ hj1))]
      · intro j hj
        have hji : j ≠ i := fun (e : j = i) => hj (e ▸ List.mem_cons_self _ _)
        rw [h2 j (fun hj1 => hj (List.mem_cons_of_mem _ hj1)), if_neg hji]
    · rw [if_neg hd]
      obtain ⟨s1, hrun, hcalls, h1, h2⟩ := ih f s _ hl1 hnd1 hf1
      refine ⟨s1, hrun, hcalls, ?_, ?_⟩
      · intro j hj
        rcases List.mem_cons.mp hj with rfl | hj1
        · rw [h2 j hil]; simp [requestOne, hd]
        · exact h1 j hj1
      · intro j hj
        exact h2 j (fun hj1 => hj (List.mem_cons_of_mem _ hj1))

/-! ## The usage bit -/

theorem mask_and_or (m i : Nat) : m &&& (i ||| m) = m := by
  apply Nat.eq_of_testBit_eq
  intro k
  simp only [Nat.testBit_and, Nat.testBit_or]
  cases m.testBit k <;> simp

theorem mask_and_clear (m i : Nat) (h : m < 2 ^ 32) :
    m &&& (i &&& (0xFFFFFFFF ^^^ m)) = 0 := by
  apply Nat.eq_of_testBit_eq
  intro k
  have h1 : (0xFFFFFFFF : Nat) = 2 ^ 32 - 1 := by norm_num
  simp only [Nat.testBit_and, Nat.testBit_xor, Nat.zero_testBit, h1,
    Nat.testBit_two_pow_sub_one]
  by_cases hk : k < 32
  · cases m.testBit k <;> simp [hk]
  · have hm : m.testBit k = false := by
      apply Nat.testBit_eq_false_of_lt
      exact lt_of_lt_of_le h (Nat.pow_le_pow_right (by norm_num) (by omega))
    simp [hm]

/-! ## The walk of `PmRequirementReleaseAll` -/

theorem releaseStore_sameLinks (env : PmEnv) (s : PmState) (i : Nat) :
    SameLinks s (releaseStore env s i) :=
  (((SameLinks.refl s).thenSetInfo _ _).thenSetCurrReq _ _).thenSetNextReq _ _

theorem releaseStore_pmReqData (env : PmEnv) (s : PmState) (i : Nat)
    (h : 0 ≠ (env.PM_MASTER_USING_SLAVE_MASK &&& (s.pmReqData i).info)) (j : Nat) :
    (releaseStore env s i).pmReqData j
      = if j = i then releaseOne env (s.pmReqData i) else s.pmReqData j := by
  unfold releaseStore releaseOne
  rw [if_pos h]
  by_cases hj : j = i
  · subst hj
    simp [PmState.setInfo, PmState.setNextReq, PmState.setCurrReq]
  · simp [PmState.setInfo, PmState.setNextReq, PmState.setCurrReq, hj]

theorem releaseAllLoop_succ (env : PmEnv) (fuel : Nat) (s : PmState) (status : Int) (i : Nat) :
    PmRequirementReleaseAllLoop env (fuel + 1) s status (some i) =
      if 0 ≠ (env.PM_MASTER_USING_SLAVE_MASK &&& (s.pmReqData i).info) then
        if XST_SUCCESS ≠ (callUpdateSlave env (releaseStore env s i)
            ((releaseStore env s i).pmReqData i).slave).1 then
          some (callUpdateSlave env (releaseStore env s i)
            ((releaseStore env s i).pmReqData i).slave)
        else
          PmRequirementReleaseAllLoop env fuel
            (callUpdateSlave env (releaseStore env s i)
              ((releaseStore env s i).pmReqData i).slave).2
            (callUpdateSlave env (releaseStore env s i)
              ((releaseStore env s i).pmReqData i).slave).1
            ((releaseStore env s i).pmReqData i).nextSlave
      else
        PmRequirementReleaseAllLoop env fuel s status (s.pmReqData i).nextSlave := by
  simp only [PmRequirementReleaseAllLoop, releaseStore]
  rfl

theorem releaseAllLoop_spec (env : PmEnv) :
    ∀ (l : List Nat) (fuel : Nat) (s : PmState) (status : Int) (p : ReqPtr),
      IsList s.nextSlaveOf p l → l.Nodup → l.length ≤ fuel →
      ∃ r s1, PmRequirementReleaseAllLoop env fuel s status p = some (r, s1) ∧
        (∀ i, i ∉ l → s1.pmReqData i = s.pmReqData i) ∧
        (r = XST_SUCCESS → ∀ i ∈ l, s1.pmReqData i = releaseOne env (s.pmReqData i)) := by
  intro l
  induction l with
  | nil =>
    intro fuel s status p hl _ _
    simp only [IsList] at hl
    subst hl
    refine ⟨status, s, ?_, fun _ _ => rfl, fun _ => by simp⟩
    cases fuel <;> simp [PmRequirementReleaseAllLoop]
  | cons i l ih =>
    intro fuel s status p hl hnd hf
    simp only [IsList] at hl
    obtain ⟨hp, hl1⟩ := hl
    subst hp
    obtain ⟨f, rfl⟩ : ∃ f, fuel = f + 1 := ⟨fuel - 1, by simp at hf; omega⟩
    have hf1 : l.length ≤ f := by simp at hf; omega
    obtain ⟨hil, hnd1⟩ := List.nodup_cons.mp hnd
    rw [releaseAllLoop_succ]
    by_cases hu : 0 ≠ (env.PM_MASTER_USING_SLAVE_MASK &&& (s.pmReqData i).info)
    · rw [if_pos hu]
      by_cases hst : XST_SUCCESS ≠ (callUpdateSlave env (releaseStore env s i)
          ((releaseStore env s i).pmReqData i).slave).1
      · rw [if_pos hst]
        refine ⟨_, _, rfl, ?_, fun hr => absurd hr.symm hst⟩
        intro j hj
        have hji : j ≠ i := fun (e : j = i) => hj (e ▸ List.mem_cons_self _ _)
        show (releaseStore env s i).pmReqData j = s.pmReqData j
        rw [releaseStore_pmReqData env s i hu, if_neg hji]
      · rw [if_neg hst]
        have hsl : SameLinks s (callUpdateSlave env (releaseStore env s i)
            ((releaseStore env s i).pmReqData i).slave).2 :=
          (releaseStore_sameLinks env s i).thenUpdateSlave env _
        have hnx : ((releaseStore env s i).pmReqData i).nextSlave = s.nextSlaveOf i :=
          (releaseStore_sameLinks env s i).nextSlave i
        rw [hnx]
        obtain ⟨r, s1, hrun, h2, h1⟩ :=
          ih f _ (callUpdateSlave env (releaseStore env s i)
            ((releaseStore env s i).pmReqData i).slave).1 _
            (isList_sameLinks hsl _ _ hl1) hnd1 hf1
        simp only [callUpdateSlave_pmReqData, releaseStore_pmReqData env s i hu] at h1 h2
        refine ⟨r, s1, hrun, ?_, fun hr => ?_⟩
        · intro j hj
          have hji : j ≠ i := fun (e : j = i) => hj (e ▸ List.mem_cons_self _ _)
          rw [h2 j (fun hj1 => hj (List.mem_cons_of_mem _ hj1)), if_neg hji]
        · intro j hj
          rcases List.mem_cons.mp hj with rfl | hj1
          · rw [h2 j hil]; simp
          · rw [h1 hr j hj1, if_neg (fun (e : j = i) => hil (e ▸ hj1))]
    · rw [if_neg hu]
      obtain ⟨r, s1, hrun, h2, h1⟩ := ih f s status _ hl1 hnd1 hf1
      refine ⟨r, s1, hrun, ?_, fun hr => ?_⟩
      · intro j hj
        exact h2 j (fun hj1 => hj (List.mem_cons_of_mem _ hj1))
      · intro j hj
        rcases List.mem_cons.mp hj with rfl | hj1
        · rw [h2 j hil]; simp [releaseOne, hu]
        · exact h1 hr j hj1

/-! ## Walks over a slave layer whose updates succeed -/

theorem updateScheduledLoop_status (env : PmEnv) (swap : Bool)
    (hupd : ∀ st sl, env.PmUpdateSlave st sl = XST_SUCCESS) :
    ∀ (fuel : Nat) (s : PmState) (p : ReqPtr) (r : Int × PmState),
      PmRequirementUpdateScheduledLoop env swap fuel s XST_SUCCESS p = some r →
      r.1 = XST_SUCCESS := by
  intro fuel
  induction fuel with
  | zero =>
    intro s p r h
    cases p with
    | none => simp [PmRequirementUpdateScheduledLoop] at h; rw [← h]
    | some i => simp [PmRequirementUpdateScheduledLoop] at h
  | succ n ih =>
    intro s p r h
    cases p with
    | none => simp [PmRequirementUpdateScheduledLoop] at h; rw [← h]
    | some i =>
      rw [updateScheduledLoop_succ] at h
      simp only [callUpdateSlave_fst, hupd, ne_eq, not_true_eq_false, if_false] at h
      split_ifs at h
      · exact ih _ _ _ h
      · exact ih _ _ _ h

theorem releaseAllLoop_status (env : PmEnv)
    (hupd : ∀ st sl, env.PmUpdateSlave st sl = XST_SUCCESS) :
    ∀ (fuel : Nat) (s : PmState) (p : ReqPtr) (r : Int × PmState),
      PmRequirementReleaseAllLoop env fuel s XST_SUCCESS p = some r →
      r.1 = XST_SUCCESS := by
  intro fuel
  induction fuel with
  | zero =>
    intro s p r h
    cases p with
    | none => simp [PmRequirementReleaseAllLoop] at h; rw [← h]
    | some i => simp [PmRequirementReleaseAllLoop] at h
  | succ n ih =>
    intro s p r h
    cases p with
    | none => simp [PmRequirementReleaseAllLoop] at h; rw [← h]
    | some i =>
      rw [releaseAllLoop_succ] at h
      simp only [callUpdateSlave_fst, hupd, ne_eq, not_true_eq_false, if_false] at h
      split_ifs at h
      · exact ih _ _ _ h
      · exact ih _ _ _ h

/-! ## A walk of `PmRequirementUpdateScheduled` that stops at a failed update -/

theorem commitVisit_sameLinks (env : PmEnv) (swap : Bool) (s : PmState) (i : Nat) :
    SameLinks s (commitVisit env swap s i) :=
  (commitStore_sameLinks swap s i).thenUpdateSlave env _

theorem commitVisit_pmReqData (env : PmEnv) (swap : Bool) (s : PmState) (i : Nat)
    (h : (s.pmReqData i).currReq ≠ (s.pmReqData i).nextReq) (j : Nat) :
    (commitVisit env swap s i).pmReqData j
      = if j = i then commitOne swap (s.pmReqData i) else s.pmReqData j :=
  commitStore_pmReqData swap s i h j

theorem commitVisit_countUpdates (env : PmEnv) (swap : Bool) (s : PmState) (i : Nat) :
    countUpdates (commitVisit env swap s i).calls = countUpdates s.calls + 1 := by
  show countUpdates (ExtCall.update _ _ :: (commitStore swap s i).calls) = _
  rw [countUpdates, commitStore_calls]

theorem commitVisits_spec (env : PmEnv) (swap : Bool) :
    ∀ (l : List Nat) (s : PmState), l.Nodup →
      (∀ i ∈ l, (s.pmReqData i).currReq ≠ (s.pmReqData i).nextReq) →
      SameLinks s (commitVisits env swap s l) ∧
      countUpdates (commitVisits env swap s l).calls = countUpdates s.calls + l.length ∧
      (∀ i ∈ l, (commitVisits env swap s l).pmReqData i = commitOne swap (s.pmReqData i)) ∧
      (∀ i, i ∉ l → (commitVisits env swap s l).pmReqData i = s.pmReqData i) := by
  intro l
  induction l with
  | nil =>
    intro s _ _
    exact ⟨SameLinks.refl s, rfl, by simp, fun _ _ => rfl⟩
  | cons i l ih =>
    intro s hnd hp
    obtain ⟨hil, hnd1⟩ := List.nodup_cons.mp hnd
    have hpi := hp i (List.mem_cons_self _ _)
    have hp1 : ∀ j ∈ l, ((commitVisit env swap s i).pmReqData j).currReq
        ≠ ((commitVisit env swap s i).pmReqData j).nextReq := by
      intro j hj
      rw [commitVisit_pmReqData env swap s i hpi, if_neg (fun (e : j = i) => hil (e ▸ hj))]
      exact hp j (List.mem_cons_of_mem _ hj)
    obtain ⟨hsl, hcnt, h1, h2⟩ := ih (commitVisit env swap s i) hnd1 hp1
    refine ⟨(commitVisit_sameLinks env swap s i).trans hsl, ?_, ?_, ?_⟩
    · show countUpdates (commitVisits env swap (commitVisit env swap s i) l).calls = _
      rw [hcnt, commitVisit_countUpdates, List.length_cons]
      omega
    · intro j hj
      show (commitVisits env swap (commitVisit env swap s i) l).pmReqData j = _
      rcases List.mem_cons.mp hj with rfl | hj1
      · rw [h2 j hil, commitVisit_pmReqData env swap s j hpi, if_pos rfl]
      · rw [h1 j hj1, commitVisit_pmReqData env swap s i hpi,
          if_neg (fun (e : j = i) => hil (e ▸ hj1))]
    · intro j hj
      show (commitVisits env swap (commitVisit env swap s i) l).pmReqData j = _
      have hji : j ≠ i := fun (e : j = i) => hj (e ▸ List.mem_cons_self _ _)
      rw [h2 j (fun hj1 => hj (List.mem_cons_of_mem _ hj1)),
        commitVisit_pmReqData env swap s i hpi, if_neg hji]

theorem updateScheduledLoop_stops (env : PmEnv) (swap : Bool) :
    ∀ (pre : List Nat) (s : PmState) (status : Int) (p : ReqPtr) (x : Nat) (post : List Nat)
      (fuel : Nat),
      IsList s.nextSlaveOf p (pre ++ x :: post) → (pre ++ x :: post).Nodup →
      (∀ i ∈ pre ++ x :: post, (s.pmReqData i).currReq ≠ (s.pmReqData i).nextReq) →
      updatesSucceed env swap s pre →
      commitStatus env swap (commitVisits env swap s pre) x ≠ XST_SUCCESS →
      pre.length + 1 ≤ fuel →
      PmRequirementUpdateScheduledLoop env swap fuel s status p =
        some (commitStatus env swap (commitVisits env swap s pre) x,
          commitVisit env swap (commitVisits env swap s pre) x) := by
  intro pre
  induction pre with
  | nil =>
    intro s status p x post fuel hl _ hp _ hfail hf
    simp only [List.nil_append, IsList] at hl
    obtain ⟨hpx, -⟩ := hl
    subst hpx
    obtain ⟨f, rfl⟩ : ∃ f, fuel = f + 1 := ⟨fuel - 1, by simp at hf; omega⟩
    have hpx := hp x (by simp)
    have hne : XST_SUCCESS ≠ (callUpdateSlave env (commitStore swap s x)
        ((commitStore swap s x).pmReqData x).slave).1 := fun e => hfail e.symm
    rw [updateScheduledLoop_succ, if_pos hpx, if_pos hne]
    rfl
  | cons i pre ih =>
    intro s status p x post fuel hl hnd hp hok hfail hf
    simp only [List.cons_append, IsList] at hl
    obtain ⟨hpi, hl1⟩ := hl
    subst hpi
    obtain ⟨f, rfl⟩ : ∃ f, fuel = f + 1 := ⟨fuel - 1, by simp at hf; omega⟩
    have hf1 : pre.length + 1 ≤ f := by simp at hf; omega
    obtain ⟨hil, hnd1⟩ := List.nodup_cons.mp hnd
    have hpend := hp i (by simp)
    obtain ⟨hst, hok1⟩ := hok
    have hst1 : ¬ XST_SUCCESS ≠ (callUpdateSlave env (commitStore swap s i)
        ((commitStore swap s i).pmReqData i).slave).1 := fun h => h hst.symm
    rw [updateScheduledLoop_succ, if_pos hpend, if_neg hst1]
    have hsl := commitVisit_sameLinks env swap s i
    have hnx : ((commitStore swap s i).pmReqData i).nextSlave = s.nextSlaveOf i :=
      (commitStore_sameLinks swap s i).nextSlave i
    rw [hnx]
    have hp1 : ∀ j ∈ pre ++ x :: post, ((commitVisit env swap s i).pmReqData j).currReq
        ≠ ((commitVisit env swap s i).pmReqData j).nextReq := by
      intro j hj
      rw [commitVisit_pmReqData env swap s i hpend, if_neg (fun (e : j = i) => hil (e ▸ hj))]
      exact hp j (List.mem_cons_of_mem _ hj)
    exact ih (commitVisit env swap s i) _ _ x post f (isList_sameLinks hsl _ _ hl1) hnd1 hp1
      hok1 hfail hf1

theorem updateScheduled_threePendingState_secondFails :
    (PmRequirementUpdateScheduled envSecondFails 3 threePendingState 1 false).map
      (fun r => (r.1, (r.2.pmReqData 2).currReq, (r.2.pmReqData 1).currReq,
        (r.2.pmReqData 0).currReq, (r.2.pmReqData 0).nextReq, countUpdates r.2.calls))
      = some (XST_FAILURE, 7, 6, 0, 5, 2) := rfl

/-! ## Lists threaded through a bump-allocated heap -/

theorem onList_push {top : Nat} {head nxt : Nat → ReqPtr} {own : Nat → Option Nat}
    (h : ListsInv top head nxt own) (x : ReqPtr) :
    ∀ (p : ReqPtr) (i : Nat), OnList nxt p i → (∀ a, p = some a → a < top) →
      OnList (fun k => if k = top then x else nxt k) p i := by
  intro p i hon
  induction hon with
  | here i => intro _; exact OnList.here i
  | later a j _ ih =>
    intro ha
    have hlt := ha a rfl
    refine OnList.later a j ?_
    show OnList _ (if a = top then x else nxt a) j
    rw [if_neg (Nat.ne_of_lt hlt)]
    refine ih ?_
    intro b hb
    exact lt_trans (h.next_lt a b hb) hlt

theorem ListsInv.push {top : Nat} {head nxt : Nat → ReqPtr} {own : Nat → Option Nat}
    (h : ListsInv top head nxt own) (m : Nat) :
    ListsInv (top + 1) (fun k => if k = m then some top else head k)
      (fun i => if i = top then head m else nxt i)
      (fun i => if i = top then some m else own i) := by
  refine ⟨?_, ?_, ?_, ?_, ?_, ?_, ?_⟩
  · intro k i hk
    simp only at hk
    split_ifs at hk with h1
    · cases hk; exact Nat.lt_succ_self _
    · exact Nat.lt_succ_of_lt (h.head_lt k i hk)
  · intro k i hk
    simp only at hk ⊢
    split_ifs at hk with h1
    · cases hk; rw [if_pos rfl, h1]
    · rw [if_neg (Nat.ne_of_lt (h.head_lt k i hk))]
      exact h.head_own k i hk
  · intro i j hn
    simp only at hn
    split_ifs at hn with h1
    · rw [h1]; exact h.head_lt m j hn
    · exact h.next_lt i j hn
  · intro i j hn
    simp only at hn
    split_ifs at hn with h1
    · rw [h1]; exact Nat.lt_succ_self _
    · exact Nat.lt_succ_of_lt (h.next_top i j hn)
  · intro i j hn
    simp only at hn ⊢
    split_ifs at hn with h1
    · rw [if_neg (Nat.ne_of_lt (h.head_lt m j hn)), if_pos h1]
      exact h.head_own m j hn
    · have hi := h.next_top i j hn
      have hj := h.next_lt i j hn
      rw [if_neg (Nat.ne_of_lt (lt_trans hj hi)), if_neg h1]
      exact h.next_own i j hn
  · intro i hi
    by_cases h1 : i = top
    · exact ⟨m, by simp [h1]⟩
    · obtain ⟨k, hk⟩ := h.own_some i (lt_of_le_of_ne (Nat.lt_succ_iff.mp hi) h1)
      exact ⟨k, by simp [h1, hk]⟩
  · intro i k hi hk
    simp only at hk
    split_ifs at hk with h1
    · cases hk
      simp only [if_pos rfl, h1]
      exact OnList.here top
    · have hlt : i < top := lt_of_le_of_ne (Nat.lt_succ_iff.mp hi) h1
      have hon := h.member i k hlt hk
      have hon1 := onList_push h (head m) _ i hon (fun a ha => h.head_lt k a ha)
      by_cases hkm : k = m
      · subst hkm
        simp only [if_pos rfl]
        refine OnList.later top i ?_
        simp only [if_pos rfl]
        exact hon1
      · simp only [if_neg hkm]
        exact hon1

theorem ListsInv.exists_list {top : Nat} {head nxt : Nat → ReqPtr} {own : Nat → Option Nat}
    (h : ListsInv top head nxt own) :
    ∀ (n : Nat) (p : ReqPtr), (∀ a, p = some a → a < n) →
      ∃ l, IsList nxt p l ∧ l.length ≤ n ∧ ∀ j ∈ l, j < n := by
  intro n
  induction n with
  | zero =>
    intro p hp
    cases p with
    | none => exact ⟨[], rfl, Nat.le_refl _, by simp⟩
    | some a => exact absurd (hp a rfl) (Nat.not_lt_zero _)
  | succ n ih =>
    intro p hp
    cases p with
    | none => exact ⟨[], rfl, Nat.zero_le _, by simp⟩
    | some a =>
      have ha := hp a rfl
      obtain ⟨l, hl, hlen, hlt⟩ := ih (nxt a) (fun b hb => by
        have := h.next_lt a b hb
        omega)
      refine ⟨a :: l, ⟨rfl, hl⟩, Nat.succ_le_succ hlen, ?_⟩
      intro j hj
      rcases List.mem_cons.mp hj with rfl | hj1
      · exact ha
      · exact Nat.lt_succ_of_lt (hlt j hj1)

theorem ListsInv.head_list {top : Nat} {head nxt : Nat → ReqPtr} {own : Nat → Option Nat}
    (h : ListsInv top head nxt own) (m : Nat) :
    ∃ l, IsList nxt (head m) l ∧ l.length ≤ top ∧ ∀ j ∈ l, j < top :=
  h.exists_list top (head m) (fun a ha => h.head_lt m a ha)

theorem isList_mem_of_onList {nxt : Nat → ReqPtr} :
    ∀ (p : ReqPtr) (i : Nat), OnList nxt p i → ∀ l, IsList nxt p l → i ∈ l := by
  intro p i hon
  induction hon with
  | here i =>
    intro l hl
    cases l with
    | nil => simp [IsList] at hl
    | cons j l =>
      simp only [IsList, Option.some.injEq] at hl
      rw [hl.1]; exact List.mem_cons_self _ _
  | later a j _ ih =>
    intro l hl
    cases l with
    | nil => simp [IsList] at hl
    | cons b l =>
      simp only [IsList, Option.some.injEq] at hl
      obtain ⟨hab, hl1⟩ := hl
      subst hab
      exact List.mem_cons_of_mem _ (ih l hl1)

theorem isList_own {nxt : Nat → ReqPtr} {own : Nat → Option Nat} (m : Nat)
    (hnext : ∀ i j, nxt i = some j → own j = own i) :
    ∀ (l : List Nat) (p : ReqPtr), IsList nxt p l → (∀ a, p = some a → own a = some m) →
      ∀ j ∈ l, own j = some m := by
  intro l
  induction l with
  | nil => intro p _ _ j hj; simp at hj
  | cons i l ih =>
    intro p hl hp j hj
    simp only [IsList] at hl
    obtain ⟨hpi, hl1⟩ := hl
    have hi := hp i hpi
    rcases List.mem_cons.mp hj with rfl | hj1
    · exact hi
    · exact ih _ hl1 (fun a ha => by rw [hnext i a ha]; exact hi) j hj1

/-- In a family of lists of shape `ListsInv`, an allocated slot is exactly once on the list
of its owner and on no other list of the family. -/
theorem ListsInv.exactly_once {top : Nat} {head nxt : Nat → ReqPtr} {own : Nat → Option Nat}
    (h : ListsInv top head nxt own) (i : Nat) (hi : i < top) :
    ∃ m, own i = some m ∧
      (∃ l, IsList nxt (head m) l ∧ l.count i = 1) ∧
      (∀ k l, k ≠ m → IsList nxt (head k) l → i ∉ l) := by
  obtain ⟨m, hm⟩ := h.own_some i hi
  obtain ⟨l, hl, -, -⟩ := h.head_list m
  refine ⟨m, hm, ⟨l, hl, ?_⟩, ?_⟩
  · exact List.count_eq_one_of_mem (isList_nodup l _ hl)
      (isList_mem_of_onList _ i (h.member i m hi hm) l hl)
  · intro k l1 hk hl1 hmem
    have := isList_own k h.next_own l1 _ hl1 (fun a ha => h.head_own k a ha) i hmem
    rw [hm] at this
    exact hk (Option.some.inj this).symm

/-! ## The lists of a state -/

theorem addedState_nextSlaveOf (s : PmState) (m n : Nat) :
    (addedState s m n).nextSlaveOf
      = fun i => if i = s.pmReqTop then s.masterReqs m else s.nextSlaveOf i := by
  funext i
  by_cases hi : i = s.pmReqTop <;> simp [PmState.nextSlaveOf, addedState, hi]

theorem addedState_nextMasterOf (s : PmState) (m n : Nat) :
    (addedState s m n).nextMasterOf
      = fun i => if i = s.pmReqTop then s.slaveReqs n else s.nextMasterOf i := by
  funext i
  by_cases hi : i = s.pmReqTop <;> simp [PmState.nextMasterOf, addedState, hi]

theorem addedState_masterOf (s : PmState) (m n : Nat) :
    (addedState s m n).masterOf
      = fun i => if i = s.pmReqTop then some m else s.masterOf i := by
  funext i
  by_cases hi : i = s.pmReqTop <;> simp [PmState.masterOf, addedState, hi]

theorem addedState_slaveOf (s : PmState) (m n : Nat) :
    (addedState s m n).slaveOf
      = fun i => if i = s.pmReqTop then some n else s.slaveOf i := by
  funext i
  by_cases hi : i = s.pmReqTop <;> simp [PmState.slaveOf, addedState, hi]

theorem listsWellFormed_init : ListsWellFormed pmInit := by
  constructor <;>
  · refine ⟨?_, ?_, ?_, ?_, ?_, ?_, ?_⟩
    · intro m i h; simp [pmInit] at h
    · intro m i h; simp [pmInit] at h
    · intro i j h; simp [pmInit, PmState.nextSlaveOf, PmState.nextMasterOf, zeroReq] at h
    · intro i j h; simp [pmInit, PmState.nextSlaveOf, PmState.nextMasterOf, zeroReq] at h
    · intro i j h; simp [pmInit, PmState.nextSlaveOf, PmState.nextMasterOf, zeroReq] at h
    · intro i h; simp [pmInit] at h
    · intro i m h; simp [pmInit] at h

theorem sameLinks_funs {s s1 : PmState} (h : SameLinks s s1) :
    s1.nextSlaveOf = s.nextSlaveOf ∧ s1.nextMasterOf = s.nextMasterOf ∧
    s1.masterOf = s.masterOf ∧ s1.slaveOf = s.slaveOf :=
  ⟨funext fun k => h.nextSlave k, funext fun k => h.nextMaster k,
   funext fun k => h.master k, funext fun k => h.slave k⟩

theorem listsWellFormed_sameLinks {s s1 : PmState} (h : SameLinks s s1)
    (hw : ListsWellFormed s) : ListsWellFormed s1 := by
  obtain ⟨h1, h2, h3, h4⟩ := sameLinks_funs h
  unfold ListsWellFormed
  rw [h.top, h.masters, h.slaves, h1, h2, h3, h4]
  exact hw

theorem listsWellFormed_added {s : PmState} (hw : ListsWellFormed s) (m n : Nat) :
    ListsWellFormed (addedState s m n) := by
  unfold ListsWellFormed
  rw [addedState_nextSlaveOf, addedState_nextMasterOf, addedState_masterOf, addedState_slaveOf]
  exact ⟨hw.1.push m, hw.2.push n⟩

theorem listsWellFormed_exec (env : PmEnv) (fuel : Nat) (c : PmCall) (s : PmState)
    (r : Option Int) (s1 : PmState) (hex : exec env fuel c s = some (r, s1))
    (hc : c ≠ PmCall.freeAll) (hw : ListsWellFormed s) : ListsWellFormed s1 := by
  by_cases hadd : ∃ m n, c = PmCall.add m n
  · obtain ⟨m, n, rfl⟩ := hadd
    rcases exec_add_cases env fuel m n s r s1 hex with ⟨-, -, rfl⟩ | ⟨-, -, rfl⟩
    · exact listsWellFormed_added hw m n
    · exact hw
  · exact listsWellFormed_sameLinks
      (sameLinks_exec env fuel c s r s1 hex (fun m n hmn => hadd ⟨m, n, hmn⟩) hc) hw

theorem reaches_listsWellFormed (env : PmEnv) (evs : List (PmCall × Option Int)) (s : PmState)
    (h : Reaches env evs s) (hno : ∀ e ∈ evs, e.1 ≠ PmCall.freeAll) : ListsWellFormed s := by
  induction h with
  | init => exact listsWellFormed_init
  | @step evs s fuel c r s1 _ hex ih =>
    exact listsWellFormed_exec env fuel c s r s1 hex (hno (c, r) (List.mem_cons_self _ _))
      (ih (fun e he => hno e (List.mem_cons_of_mem _ he)))

theorem isList_congr {nxt nxt1 : Nat → ReqPtr} :
    ∀ (l : List Nat) (p : ReqPtr), IsList nxt p l → (∀ j ∈ l, nxt1 j = nxt j) →
      IsList nxt1 p l := by
  intro l
  induction l with
  | nil => intro p h _; exact h
  | cons i l ih =>
    intro p h hc
    simp only [IsList] at h ⊢
    refine ⟨h.1, ?_⟩
    rw [hc i (List.mem_cons_self _ _)]
    exact ih _ h.2 (fun j hj => hc j (List.mem_cons_of_mem _ hj))

/-- Pushing a new slot at the head of the list of `m` leaves every list of the family as a
suffix of what it becomes. -/
theorem ListsInv.push_suffix {top : Nat} {head nxt : Nat → ReqPtr} {own : Nat → Option Nat}
    (h : ListsInv top head nxt own) (m k : Nat) (l : List Nat) (hl : IsList nxt (head k) l) :
    ∃ pre, IsList (fun i => if i = top then head m else nxt i)
      (if k = m then some top else head k) (pre ++ l) ∧ pre.length ≤ 1 := by
  obtain ⟨l1, hl1, -, hlt⟩ := h.head_list k
  have heq := isList_unique l l1 _ hl hl1
  subst heq
  have hl2 : IsList (fun i => if i = top then head m else nxt i) (head k) l :=
    isList_congr l _ hl (fun j hj => by simp [Nat.ne_of_lt (hlt j hj)])
  by_cases hkm : k = m
  · subst hkm
    refine ⟨[top], ?_, Nat.le_refl _⟩
    rw [if_pos rfl]
    refine ⟨rfl, ?_⟩
    simp only [if_pos]
    exact hl2
  · refine ⟨[], ?_, Nat.zero_le _⟩
    rw [if_neg hkm]
    exact hl2

theorem getLoop_terminates (s : PmState) (slave : SlavePtr) :
    ∀ (l : List Nat) (fuel : Nat) (p : ReqPtr), IsList s.nextSlaveOf p l → l.length ≤ fuel →
      ∃ r, PmRequirementGetLoop s slave fuel p = some r := by
  intro l
  induction l with
  | nil =>
    intro fuel p hl _
    simp only [IsList] at hl
    subst hl
    exact ⟨none, by cases fuel <;> simp [PmRequirementGetLoop]⟩
  | cons i l ih =>
    intro fuel p hl hf
    simp only [IsList] at hl
    obtain ⟨hp, hl1⟩ := hl
    subst hp
    obtain ⟨f, rfl⟩ : ∃ f, fuel = f + 1 := ⟨fuel - 1, by simp at hf; omega⟩
    have hf1 : l.length ≤ f := by simp at hf; omega
    simp only [PmRequirementGetLoop]
    split_ifs
    · exact ⟨_, rfl⟩
    · exact ih f _ hl1 hf1

theorem exec_keeps_lists (env : PmEnv) (fuel : Nat) (c : PmCall) (s : PmState)
    (r : Option Int) (s1 : PmState) (hex : exec env fuel c s = some (r, s1))
    (hc : c ≠ PmCall.freeAll) (hw : ListsWellFormed s) :
    (∀ m l, MasterList s m l → ∃ pre, MasterList s1 m (pre ++ l) ∧ pre.length ≤ 1) ∧
    (∀ n l, SlaveList s n l → ∃ pre, SlaveList s1 n (pre ++ l) ∧ pre.length ≤ 1) := by
  by_cases hadd : ∃ m n, c = PmCall.add m n
  · obtain ⟨m, n, rfl⟩ := hadd
    rcases exec_add_cases env fuel m n s r s1 hex with ⟨-, -, rfl⟩ | ⟨-, -, rfl⟩
    · constructor
      · intro k l hl
        unfold MasterList
        rw [addedState_nextSlaveOf]
        exact hw.1.push_suffix m k l hl
      · intro k l hl
        unfold SlaveList
        rw [addedState_nextMasterOf]
        exact hw.2.push_suffix n k l hl
    · exact ⟨fun k l hl => ⟨[], hl, Nat.zero_le _⟩, fun k l hl => ⟨[], hl, Nat.zero_le _⟩⟩
  · have hsl := sameLinks_exec env fuel c s r s1 hex (fun m n hmn => hadd ⟨m, n, hmn⟩) hc
    obtain ⟨h1, h2, -, -⟩ := sameLinks_funs hsl
    constructor
    · intro k l hl
      refine ⟨[], ?_, Nat.zero_le _⟩
      unfold MasterList
      rw [h1, hsl.masters]
      exact hl
    · intro k l hl
      refine ⟨[], ?_, Nat.zero_le _⟩
      unfold SlaveList
      rw [h2, hsl.slaves]
      exact hl

/-- With lists of shape `ListsInv`, every walk along the list of a master returns within
`pmReqTop` iterations. -/
theorem walks_terminate (env : PmEnv) (s : PmState) (hw : ListsWellFormed s) (fuel m : Nat)
    (hf : s.pmReqTop ≤ fuel) :
    (∀ sl, ∃ r, PmRequirementGet fuel s m sl = some r) ∧
    (∀ swap, ∃ r, PmRequirementUpdateScheduled env fuel s m swap = some r) ∧
    (∃ r, PmRequirementCancelScheduled fuel s m = some r) ∧
    (∃ r, PmRequirementRequestDefault env fuel s m = some r) ∧
    (∃ r, PmRequirementReleaseAll env fuel s m = some r) := by
  obtain ⟨l, hl, hlen, -⟩ := hw.1.head_list m
  have hlf : l.length ≤ fuel := le_trans hlen hf
  have hnd := isList_nodup l _ hl
  refine ⟨?_, ?_, ?_, ?_, ?_⟩
  · intro sl
    exact getLoop_terminates s sl l fuel _ hl hlf
  · intro swap
    obtain ⟨r, s1, hrun, -⟩ := updateScheduledLoop_spec env swap l fuel s XST_SUCCESS _ hl hnd hlf
    exact ⟨_, hrun⟩
  · obtain ⟨s1, hrun, -⟩ := cancelScheduledLoop_spec l fuel s _ hl hnd hlf
    exact ⟨_, hrun⟩
  · obtain ⟨s1, hrun, -⟩ := requestDefaultLoop_spec env l fuel s _ hl hnd hlf
    exact ⟨_, hrun⟩
  · obtain ⟨r, s1, hrun, -⟩ := releaseAllLoop_spec env l fuel s XST_SUCCESS _ hl hnd hlf
    exact ⟨_, hrun⟩

/-! ## `PmRequirementFreeAll` and the list heads -/

theorem listsWellFormed_cleared {s : PmState} (hw : ListsWellFormed s) :
    ListsWellFormed (clearListHeads (PmRequirementFreeAll s)) := by
  have h1 : ∀ i j, (clearListHeads (PmRequirementFreeAll s)).nextSlaveOf i ≠ some j := by
    intro i j hn
    simp only [PmState.nextSlaveOf, clearListHeads, PmRequirementFreeAll] at hn
    split_ifs at hn with hi
    · simp [zeroReq] at hn
    · exact hi (hw.1.next_top i j hn)
  have h2 : ∀ i j, (clearListHeads (PmRequirementFreeAll s)).nextMasterOf i ≠ some j := by
    intro i j hn
    simp only [PmState.nextMasterOf, clearListHeads, PmRequirementFreeAll] at hn
    split_ifs at hn with hi
    · simp [zeroReq] at hn
    · exact hi (hw.2.next_top i j hn)
  constructor
  · refine ⟨?_, ?_, ?_, ?_, ?_, ?_, ?_⟩
    · intro m i h; simp [clearListHeads] at h
    · intro m i h; simp [clearListHeads] at h
    · intro i j h; exact absurd h (h1 i j)
    · intro i j h; exact absurd h (h1 i j)
    · intro i j h; exact absurd h (h1 i j)
    · intro i h; exact absurd h (Nat.not_lt_zero _)
    · intro i m h; exact absurd h (Nat.not_lt_zero _)
  · refine ⟨?_, ?_, ?_, ?_, ?_, ?_, ?_⟩
    · intro m i h; simp [clearListHeads] at h
    · intro m i h; simp [clearListHeads] at h
    · intro i j h; exact absurd h (h2 i j)
    · intro i j h; exact absurd h (h2 i j)
    · intro i j h; exact absurd h (h2 i j)
    · intro i h; exact absurd h (Nat.not_lt_zero _)
    · intro i m h; exact absurd h (Nat.not_lt_zero _)

theorem reachesCleared_listsWellFormed (env : PmEnv) (evs : List (PmCall × Option Int))
    (s : PmState) (h : ReachesCleared env evs s) : ListsWellFormed s := by
  induction h with
  | init => exact listsWellFormed_init
  | @step evs s fuel c r s1 _ hc hex ih => exact listsWellFormed_exec env fuel c s r s1 hex hc ih
  | @reset evs s _ ih => exact listsWellFormed_cleared ih

theorem reachesCleared_top (env : PmEnv) (evs : List (PmCall × Option Int)) (s : PmState)
    (h : ReachesCleared env evs s) : s.pmReqTop = allocatedSinceReset evs := by
  induction h with
  | init => rfl
  | @step evs s fuel c r s1 _ hc hex ih =>
    by_cases hadd : ∃ m n, c = PmCall.add m n
    · obtain ⟨m, n, rfl⟩ := hadd
      rcases exec_add_cases env fuel m n s r s1 hex with ⟨-, rfl, rfl⟩ | ⟨-, rfl, rfl⟩
      · simp [allocatedSinceReset, addedState, ih]
      · simp [allocatedSinceReset, XST_SUCCESS, XST_FAILURE, ih]
    · have hsl := sameLinks_exec env fuel c s r s1 hex (fun m n hmn => hadd ⟨m, n, hmn⟩) hc
      rw [hsl.top, allocatedSinceReset_other c r evs (fun m n hmn => hadd ⟨m, n, hmn⟩) hc]
      exact ih
  | @reset evs s _ _ => rfl

theorem loopState_no_list : ∀ l : List Nat, ¬ IsList loopState.nextSlaveOf (some 0) l := by
  intro l
  induction l with
  | nil => intro h; simp [IsList] at h
  | cons i l ih =>
    intro h
    simp only [IsList, Option.some.injEq] at h
    obtain ⟨hi, hl⟩ := h
    subst hi
    exact ih hl

theorem loopState_get_diverges :
    ∀ fuel : Nat, PmRequirementGetLoop loopState (some 3) fuel (some 0) = none := by
  intro fuel
  induction fuel with
  | zero => rfl
  | succ n ih =>
    have hsl : ¬ (some 3 : SlavePtr) = (loopState.pmReqData 0).slave := by decide
    have hnx : (loopState.pmReqData 0).nextSlave = some 0 := rfl
    rw [PmRequirementGetLoop, if_neg hsl, hnx]
    exact ih

/-! ## The external calls of `PmRequirementUpdate` -/

theorem update_calls_of_accepted (env : PmEnv) (s : PmState) (q caps : Nat)
    (hchk : env.PmCheckCapabilities s (s.pmReqData q).slave caps = XST_SUCCESS) :
    (PmRequirementUpdate env s q caps).2.calls =
      ExtCall.update (s.pmReqData q).slave (updateCallState env s q caps).toPmMem ::
        ExtCall.check (s.pmReqData q).slave caps :: s.calls := by
  have hsl : ((updateCallState env s q caps).pmReqData q).slave = (s.pmReqData q).slave := by
    simp [updateCallState, PmState.setCurrReq]
  simp only [PmRequirementUpdate, callCheckCapabilities_fst, hchk, ne_eq, not_true_eq_false,
    if_false]
  rw [← updateCallState, hsl]
  split_ifs <;> rfl

theorem updateCallState_sameLinks (env : PmEnv) (s : PmState) (q caps : Nat) :
    SameLinks s (updateCallState env s q caps) :=
  ((SameLinks.refl s).thenCheckCapabilities env _ caps).thenSetCurrReq _ _

theorem updateCallState_currReq (env : PmEnv) (s : PmState) (q caps : Nat) :
    ((updateCallState env s q caps).pmReqData q).currReq = caps := by
  simp [updateCallState, PmState.setCurrReq]

theorem memSlaveList_sameLinks {s s1 : PmState} (h : SameLinks s s1) (n : Nat) (l : List Nat)
    (hl : SlaveList s n l) : MemSlaveList s1.toPmMem n l := by
  have hnx : (fun i => (s1.pmReqData i).nextMaster) = s.nextMasterOf :=
    funext fun k => h.nextMaster k
  unfold MemSlaveList
  rw [hnx, h.slaves]
  exact hl

theorem twoMastersState_slaveList (R1 R2 S : Nat) :
    SlaveList (twoMastersState R1 R2 S) S [1, 0] := by
  simp [SlaveList, IsList, twoMastersState, addedState, pmInit, PmState.nextMasterOf, zeroReq]

theorem twoMastersState_get (R1 R2 S : Nat) (h : R1 ≠ R2) :
    PmRequirementGet 1 (twoMastersState R1 R2 S) R1 (some S) = some (some 0) ∧
    PmRequirementGet 1 (twoMastersState R1 R2 S) R2 (some S) = some (some 1) := by
  constructor
  · simp [PmRequirementGet, PmRequirementGetLoop, twoMastersState, addedState, pmInit, h]
  · simp [PmRequirementGet, PmRequirementGetLoop, twoMastersState, addedState, pmInit]

theorem getLoop_sameLinks {s s1 : PmState} (h : SameLinks s s1) (sl : SlavePtr) :
    ∀ (fuel : Nat) (p : ReqPtr),
      PmRequirementGetLoop s1 sl fuel p = PmRequirementGetLoop s sl fuel p := by
  intro fuel
  induction fuel with
  | zero => intro p; cases p <;> rfl
  | succ n ih =>
    intro p
    cases p with
    | none => rfl
    | some i =>
      simp only [PmRequirementGetLoop, h.slave, h.nextSlave, ih]

theorem get_sameLinks {s s1 : PmState} (h : SameLinks s s1) (fuel m : Nat) (sl : SlavePtr) :
    PmRequirementGet fuel s1 m sl = PmRequirementGet fuel s m sl := by
  simp only [PmRequirementGet, h.masters, getLoop_sameLinks h]

/-! ## What a walk can do to a single slot -/

theorem updateScheduledLoop_slot (env : PmEnv) (swap : Bool) (P : PmRequirement → Prop)
    (hP : ∀ r, P r → P (commitOne swap r)) :
    ∀ (fuel : Nat) (s : PmState) (status : Int) (p : ReqPtr) (r : Int × PmState),
      PmRequirementUpdateScheduledLoop env swap fuel s status p = some r →
      ∀ i, P (s.pmReqData i) → P (r.2.pmReqData i) := by
  intro fuel
  induction fuel with
  | zero =>
    intro s status p r h i hi
    cases p with
    | none => simp [PmRequirementUpdateScheduledLoop] at h; subst h; exact hi
    | some j => simp [PmRequirementUpdateScheduledLoop] at h
  | succ n ih =>
    intro s status p r h i hi
    cases p with
    | none => simp [PmRequirementUpdateScheduledLoop] at h; subst h; exact hi
    | some j =>
      rw [updateScheduledLoop_succ] at h
      by_cases hcn : (s.pmReqData j).currReq = (s.pmReqData j).nextReq
      · rw [if_neg (not_not.mpr hcn)] at h
        exact ih _ _ _ _ h i hi
      · rw [if_pos hcn] at h
        have hvis : P ((commitVisit env swap s j).pmReqData i) := by
          rw [commitVisit_pmReqData env swap s j hcn]
          by_cases hij : i = j
          · rw [if_pos hij]; subst hij; exact hP _ hi
          · rw [if_neg hij]; exact hi
        split_ifs at h with hst
        · simp only [Option.some.injEq] at h
          subst h
          exact hvis
        · exact ih _ _ _ _ h i hvis

theorem cancelScheduledLoop_slot (P : PmRequirement → Prop)
    (hP : ∀ r, P r → P (cancelOne r)) :
    ∀ (fuel : Nat) (s : PmState) (p : ReqPtr) (s1 : PmState),
      PmRequirementCancelScheduledLoop fuel s p = some s1 →
      ∀ i, P (s.pmReqData i) → P (s1.pmReqData i) := by
  intro fuel
  induction fuel with
  | zero =>
    intro s p s1 h i hi
    cases p with
    | none => simp [PmRequirementCancelScheduledLoop] at h; subst h; exact hi
    | some j => simp [PmRequirementCancelScheduledLoop] at h
  | succ n ih =>
    intro s p s1 h i hi
    cases p with
    | none => simp [PmRequirementCancelScheduledLoop] at h; subst h; exact hi
    | some j =>
      simp only [PmRequirementCancelScheduledLoop] at h
      by_cases hcn : (s.pmReqData j).currReq = (s.pmReqData j).nextReq
      · rw [if_neg (not_not.mpr hcn)] at h
        exact ih _ _ _ h i hi
      · rw [if_pos hcn] at h
        refine ih _ _ _ h i ?_
        by_cases hij : i = j
        · subst hij
          have := hP _ hi
          simp only [cancelOne, if_pos hcn] at this
          simpa [PmState.setNextReq] using this
        · simpa [PmState.setNextReq, hij] using hi

theorem requestDefaultLoop_slot (env : PmEnv) (P : PmRequirement → Prop)
    (hP : ∀ r, P r → P (requestOne env r)) :
    ∀ (fuel : Nat) (s : PmState) (p : ReqPtr) (s1 : PmState),
      PmRequirementRequestDefaultLoop env fuel s p = some s1 →
      ∀ i, P (s.pmReqData i) → P (s1.pmReqData i) := by
  intro fuel
  induction fuel with
  | zero =>
    intro s p s1 h i hi
    cases p with
    | none => simp [PmRequirementRequestDefaultLoop] at h; subst h; exact hi
    | some j => simp [PmRequirementRequestDefaultLoop] at h
  | succ n ih =>
    intro s p s1 h i hi
    cases p with
    | none => simp [PmRequirementRequestDefaultLoop] at h; subst h; exact hi
    | some j =>
      rw [requestDefaultLoop_succ] at h
      by_cases hd : 0 ≠ (s.pmReqData j).defaultReq
      · rw [if_pos hd] at h
        refine ih _ _ _ h i ?_
        rw [requestStore_pmReqData env s j hd]
        by_cases hij : i = j
        · rw [if_pos hij]; subst hij; exact hP _ hi
        · rw [if_neg hij]; exact hi
      · rw [if_neg hd] at h
        exact ih _ _ _ h i hi

theorem releaseAllLoop_slot (env : PmEnv) (P : PmRequirement → Prop)
    (hP : ∀ r, P r → P (releaseOne env r)) :
    ∀ (fuel : Nat) (s : PmState) (status : Int) (p : ReqPtr) (r : Int × PmState),
      PmRequirementReleaseAllLoop env fuel s status p = some r →
      ∀ i, P (s.pmReqData i) → P (r.2.pmReqData i) := by
  intro fuel
  induction fuel with
  | zero =>
    intro s status p r h i hi
    cases p with
    | none => simp [PmRequirementReleaseAllLoop] at h; subst h; exact hi
    | some j => simp [PmRequirementReleaseAllLoop] at h
  | succ n ih =>
    intro s status p r h i hi
    cases p with
    | none => simp [PmRequirementReleaseAllLoop] at h; subst h; exact hi
    | some j =>
      rw [releaseAllLoop_succ] at h
      by_cases hu : 0 ≠ (env.PM_MASTER_USING_SLAVE_MASK &&& (s.pmReqData j).info)
      · rw [if_pos hu] at h
        have hvis : P ((releaseStore env s j).pmReqData i) := by
          rw [releaseStore_pmReqData env s j hu]
          by_cases hij : i = j
          · rw [if_pos hij]; subst hij; exact hP _ hi
          · rw [if_neg hij]; exact hi
        split_ifs at h with hst
        · simp only [Option.some.injEq] at h
          subst h
          exact hvis
        · exact ih _ _ _ _ h i hvis
      · rw [if_neg hu] at h
        exact ih _ _ _ _ h i hi

/-! ## States reached with valid requirement references -/

theorem commitOne_zeroReq (swap : Bool) : commitOne swap zeroReq = zeroReq := by
  simp [commitOne, zeroReq]

theorem cancelOne_zeroReq : cancelOne zeroReq = zeroReq := by
  simp [cancelOne, zeroReq]

theorem requestOne_zeroReq (env : PmEnv) : requestOne env zeroReq = zeroReq := by
  simp [requestOne, zeroReq]

theorem releaseOne_zeroReq (env : PmEnv) : releaseOne env zeroReq = zeroReq := by
  simp [releaseOne, zeroReq]

theorem good_zeroReq (env : PmEnv) (hist : List PmState) : Good env hist zeroReq :=
  ⟨Or.inl rfl, Or.inl rfl⟩

theorem allowed_mono {env : PmEnv} {hist : List PmState} {r : PmRequirement} {c : Nat}
    (h : Allowed env hist r c) (st : PmState) : Allowed env (st :: hist) r c := by
  rcases h with h | h | ⟨st1, hmem, hst⟩
  · exact Or.inl h
  · exact Or.inr (Or.inl h)
  · exact Or.inr (Or.inr ⟨st1, List.mem_cons_of_mem _ hmem, hst⟩)

theorem good_mono {env : PmEnv} {hist : List PmState} {r : PmRequirement}
    (h : Good env hist r) (st : PmState) : Good env (st :: hist) r :=
  ⟨allowed_mono h.1 st, allowed_mono h.2 st⟩

theorem good_commitOne (env : PmEnv) (hist : List PmState) (swap : Bool) (r : PmRequirement)
    (h : Good env hist r) : Good env hist (commitOne swap r) := by
  unfold commitOne
  split_ifs
  · exact ⟨h.2, Or.inr (Or.inl rfl)⟩
  · exact ⟨h.2, h.1⟩
  · exact ⟨h.2, h.2⟩
  · exact h

theorem good_cancelOne (env : PmEnv) (hist : List PmState) (r : PmRequirement)
    (h : Good env hist r) : Good env hist (cancelOne r) := by
  unfold cancelOne
  split_ifs
  · exact ⟨h.1, h.1⟩
  · exact h

theorem good_requestOne (env : PmEnv) (hist : List PmState) (r : PmRequirement)
    (h : Good env hist r) : Good env hist (requestOne env r) := by
  unfold requestOne
  split_ifs
  · exact ⟨h.1, Or.inr (Or.inl rfl)⟩
  · exact h

theorem good_releaseOne (env : PmEnv) (hist : List PmState) (r : PmRequirement)
    (h : Good env hist r) : Good env hist (releaseOne env r) := by
  unfold releaseOne
  split_ifs
  · exact ⟨Or.inl rfl, Or.inl rfl⟩
  · exact h

theorem schedule_pmReqData (env : PmEnv) (s : PmState) (q caps i : Nat) :
    (PmRequirementSchedule env s q caps).2.pmReqData i = s.pmReqData i ∨
    (i = q ∧ env.PmCheckCapabilities s (s.pmReqData q).slave caps = XST_SUCCESS ∧
      (PmRequirementSchedule env s q caps).2.pmReqData i
        = { s.pmReqData q with nextReq := caps }) := by
  simp only [PmRequirementSchedule, callCheckCapabilities_fst]
  split_ifs with h
  · exact Or.inl rfl
  · have hs : env.PmCheckCapabilities s (s.pmReqData q).slave caps = XST_SUCCESS := by
      by_contra hne
      exact h (fun e => hne e.symm)
    by_cases hi : i = q
    · subst hi
      exact Or.inr ⟨rfl, hs, by simp [PmState.setNextReq]⟩
    · exact Or.inl (by simp [PmState.setNextReq, hi])

theorem update_pmReqData (env : PmEnv) (s : PmState) (q caps i : Nat) :
    (PmRequirementUpdate env s q caps).2.pmReqData i = s.pmReqData i ∨
    (i = q ∧ env.PmCheckCapabilities s (s.pmReqData q).slave caps = XST_SUCCESS ∧
      (PmRequirementUpdate env s q caps).2.pmReqData i
        = { s.pmReqData q with currReq := caps, nextReq := caps }) := by
  simp only [PmRequirementUpdate, callCheckCapabilities_fst]
  split_ifs with h h1
  · exact Or.inl rfl
  · have hs : env.PmCheckCapabilities s (s.pmReqData q).slave caps = XST_SUCCESS := by
      by_contra hne
      exact h (fun e => hne e.symm)
    by_cases hi : i = q
    · subst hi
      exact Or.inr ⟨rfl, hs, by simp [PmState.setNextReq, PmState.setCurrReq]⟩
    · exact Or.inl (by simp [PmState.setNextReq, PmState.setCurrReq, hi])
  · left
    by_cases hi : i = q
    · subst hi
      simp [PmState.setCurrReq]
    · simp [PmState.setCurrReq, hi]

theorem validInv_init (env : PmEnv) : ValidInv env [] pmInit :=
  ⟨fun _ _ => rfl, fun _ => good_zeroReq env []⟩

theorem validInv_added {env : PmEnv} {hist : List PmState} {s : PmState}
    (h : ValidInv env hist s) (m n : Nat) : ValidInv env (s :: hist) (addedState s m n) := by
  constructor
  · intro i hi
    have hi1 : s.pmReqTop + 1 ≤ i := hi
    have hne : i ≠ s.pmReqTop := by omega
    simp only [addedState, if_neg hne]
    exact h.zero i (by omega)
  · intro i
    by_cases hi : i = s.pmReqTop
    · simp only [addedState, if_pos hi, h.zero s.pmReqTop (Nat.le_refl _)]
      exact ⟨Or.inl rfl, Or.inl rfl⟩
    · simp only [addedState, if_neg hi]
      exact good_mono (h.good i) s

theorem validInv_freeAll {env : PmEnv} {hist : List PmState} {s : PmState}
    (h : ValidInv env hist s) : ValidInv env (s :: hist) (PmRequirementFreeAll s) := by
  have hz : ∀ i, (PmRequirementFreeAll s).pmReqData i = zeroReq := by
    intro i
    simp only [PmRequirementFreeAll]
    split_ifs with hi
    · rfl
    · exact h.zero i (Nat.le_of_not_lt hi)
  exact ⟨fun i _ => hz i, fun i => by rw [hz i]; exact good_zeroReq env _⟩

theorem validInv_call (env : PmEnv) (hist : List PmState) (s : PmState) (fuel : Nat)
    (c : PmCall) (r : Option Int) (s1 : PmState) (h : ValidInv env hist s)
    (hv : validCall s c) (hex : exec env fuel c s = some (r, s1)) :
    ValidInv env (s :: hist) s1 := by
  cases c with
  | add m n =>
    rcases exec_add_cases env fuel m n s r s1 hex with ⟨-, -, hs⟩ | ⟨-, -, hs⟩
    · rw [hs]; exact validInv_added h m n
    · rw [hs]; exact ⟨h.zero, fun i => good_mono (h.good i) s⟩
  | freeAll =>
    simp only [exec, Option.some.injEq, Prod.mk.injEq] at hex
    rw [← hex.2]
    exact validInv_freeAll h
  | schedule q caps =>
    have hq : q < s.pmReqTop := hv
    simp only [exec, Option.some.injEq, Prod.mk.injEq] at hex
    rw [← hex.2]
    have htop := (sameLinks_schedule env s q caps).top
    constructor
    · intro i hi
      rw [htop] at hi
      rcases schedule_pmReqData env s q caps i with h1 | ⟨h1, -, -⟩
      · rw [h1]; exact h.zero i hi
      · omega
    · intro i
      rcases schedule_pmReqData env s q caps i with h1 | ⟨h1, hs, h2⟩
      · rw [h1]; exact good_mono (h.good i) s
      · rw [h2]
        exact ⟨allowed_mono (h.good q).1 s, Or.inr (Or.inr ⟨s, List.mem_cons_self _ _, hs⟩)⟩
  | update q caps =>
    have hq : q < s.pmReqTop := hv
    simp only [exec, Option.some.injEq, Prod.mk.injEq] at hex
    rw [← hex.2]
    have htop := (sameLinks_update env s q caps).top
    constructor
    · intro i hi
      rw [htop] at hi
      rcases update_pmReqData env s q caps i with h1 | ⟨h1, -, -⟩
      · rw [h1]; exact h.zero i hi
      · omega
    · intro i
      rcases update_pmReqData env s q caps i with h1 | ⟨h1, hs, h2⟩
      · rw [h1]; exact good_mono (h.good i) s
      · rw [h2]
        exact ⟨Or.inr (Or.inr ⟨s, List.mem_cons_self _ _, hs⟩),
          Or.inr (Or.inr ⟨s, List.mem_cons_self _ _, hs⟩)⟩
  | updateScheduled m swap =>
    simp only [exec, PmRequirementUpdateScheduled, Option.map_eq_some', Prod.mk.injEq] at hex
    obtain ⟨a, ha, -, rfl⟩ := hex
    have htop := (sameLinks_updateScheduledLoop env swap fuel s s _ _ a (SameLinks.refl s) ha).top
    constructor
    · intro i hi
      rw [htop] at hi
      exact updateScheduledLoop_slot env swap (fun r => r = zeroReq)
        (fun r hr => by rw [hr]; exact commitOne_zeroReq swap) fuel s _ _ a ha i (h.zero i hi)
    · intro i
      exact updateScheduledLoop_slot env swap (Good env (s :: hist))
        (good_commitOne env _ swap) fuel s _ _ a ha i (good_mono (h.good i) s)
  | cancelScheduled m =>
    simp only [exec, PmRequirementCancelScheduled, Option.map_eq_some', Prod.mk.injEq] at hex
    obtain ⟨a, ha, -, rfl⟩ := hex
    have htop := (sameLinks_cancelScheduledLoop fuel s s _ a (SameLinks.refl s) ha).top
    constructor
    · intro i hi
      rw [htop] at hi
      exact cancelScheduledLoop_slot (fun r => r = zeroReq)
        (fun r hr => by rw [hr]; exact cancelOne_zeroReq) fuel s _ a ha i (h.zero i hi)
    · intro i
      exact cancelScheduledLoop_slot (Good env (s :: hist))
        (good_cancelOne env _) fuel s _ a ha i (good_mono (h.good i) s)
  | requestDefault m =>
    simp only [exec, PmRequirementRequestDefault, Option.map_eq_some', Prod.mk.injEq] at hex
    obtain ⟨a, ha, -, rfl⟩ := hex
    have htop := (sameLinks_requestDefaultLoop env fuel s s _ a (SameLinks.refl s) ha).top
    constructor
    · intro i hi
      rw [htop] at hi
      exact requestDefaultLoop_slot env (fun r => r = zeroReq)
        (fun r hr => by rw [hr]; exact requestOne_zeroReq env) fuel s _ a ha i (h.zero i hi)
    · intro i
      exact requestDefaultLoop_slot env (Good env (s :: hist))
        (good_requestOne env _) fuel s _ a ha i (good_mono (h.good i) s)
  | releaseAll m =>
    simp only [exec, PmRequirementReleaseAll, Option.map_eq_some', Prod.mk.injEq] at hex
    obtain ⟨a, ha, -, rfl⟩ := hex
    have htop := (sameLinks_releaseAllLoop env fuel s s _ _ a (SameLinks.refl s) ha).top
    constructor
    · intro i hi
      rw [htop] at hi
      exact releaseAllLoop_slot env (fun r => r = zeroReq)
        (fun r hr => by rw [hr]; exact releaseOne_zeroReq env) fuel s _ _ a ha i (h.zero i hi)
    · intro i
      exact releaseAllLoop_slot env (Good env (s :: hist))
        (good_releaseOne env _) fuel s _ _ a ha i (good_mono (h.good i) s)

theorem validInv_setDefault {env : PmEnv} {hist : List PmState} {s : PmState}
    (h : ValidInv env hist s) (i v : Nat) (hi : i < s.pmReqTop)
    (hd : (s.pmReqData i).defaultReq = 0) : ValidInv env hist (s.setDefaultReq i v) := by
  constructor
  · intro j hj
    have hj1 : s.pmReqTop ≤ j := hj
    have hne : j ≠ i := by omega
    simp only [PmState.setDefaultReq, setReq_pmReqData, if_neg hne]
    exact h.zero j hj1
  · intro j
    by_cases hji : j = i
    · subst hji
      simp only [PmState.setDefaultReq, setReq_pmReqData, if_pos]
      obtain ⟨h1, h2⟩ := h.good j
      constructor
      · rcases h1 with h1 | h1 | h1
        · exact Or.inl h1
        · exact Or.inl (h1.trans hd)
        · exact Or.inr (Or.inr h1)
      · rcases h2 with h2 | h2 | h2
        · exact Or.inl h2
        · exact Or.inl (h2.trans hd)
        · exact Or.inr (Or.inr h2)
    · simp only [PmState.setDefaultReq, setReq_pmReqData, if_neg hji]
      exact h.good j

theorem reachesValid_inv (env : PmEnv) (hist : List PmState) (s : PmState)
    (h : ReachesValid env hist s) : ValidInv env hist s := by
  induction h with
  | init => exact validInv_init env
  | @call hist s fuel c r s1 _ hv hex ih => exact validInv_call env hist s fuel c r s1 ih hv hex
  | @setDefault hist s i v _ hi hd ih => exact validInv_setDefault ih i v hi hd

theorem addAll_spec (env : PmEnv) :
    ∀ (ps : List (Nat × Nat)) (s : PmState),
      ∃ s1, addAll env s ps =
          some ((List.range ps.length).map
            (fun j => if s.pmReqTop + j < env.PM_REQUIREMENT_MAX then XST_SUCCESS
              else XST_FAILURE), s1) ∧
        ∀ i, (s1.pmReqData i).currReq = (s.pmReqData i).currReq ∧
          (s1.pmReqData i).nextReq = (s.pmReqData i).nextReq ∧
          (s1.pmReqData i).defaultReq = (s.pmReqData i).defaultReq ∧
          (s1.pmReqData i).info = (s.pmReqData i).info := by
  intro ps
  induction ps with
  | nil => intro s; exact ⟨s, rfl, fun _ => ⟨rfl, rfl, rfl, rfl⟩⟩
  | cons p ps ih =>
    intro s
    by_cases hlt : s.pmReqTop < env.PM_REQUIREMENT_MAX
    · obtain ⟨s1, hrun, hf⟩ := ih (addedState s p.1 p.2)
      refine ⟨s1, ?_, ?_⟩
      · simp only [addAll, add_of_lt env s p.1 p.2 hlt, hrun, List.length_cons,
          List.range_succ_eq_map, List.map_cons, List.map_map, Nat.add_zero, if_pos hlt]
        congr 3
        apply List.map_congr_left
        intro j _
        have h1 : (addedState s p.1 p.2).pmReqTop + j = s.pmReqTop + (j + 1) := by
          show s.pmReqTop + 1 + j = s.pmReqTop + (j + 1)
          omega
        simp only [Function.comp, h1]
      · intro i
        obtain ⟨h1, h2, h3, h4⟩ := hf i
        rw [h1, h2, h3, h4]
        by_cases hi : i = s.pmReqTop
        · subst hi; simp [addedState]
        · simp [addedState, hi]
    · obtain ⟨s1, hrun, hf⟩ := ih s
      refine ⟨s1, ?_, hf⟩
      simp only [addAll, add_of_not_lt env s p.1 p.2 hlt, hrun, List.length_cons,
        List.range_succ_eq_map, List.map_cons, List.map_map, Nat.add_zero, if_neg hlt]
      congr 3
      apply List.map_congr_left
      intro j _
      have h1 : ¬ s.pmReqTop + j < env.PM_REQUIREMENT_MAX := by omega
      have h2 : ¬ s.pmReqTop + (j + 1) < env.PM_REQUIREMENT_MAX := by omega
      simp only [Function.comp, if_neg h1, if_neg h2]

theorem addAll_five_after_reset :
    (addAll envOk (PmRequirementFreeAll updatedState) [(1, 2), (1, 3), (2, 2), (2, 3), (3, 3)]).map
      (fun r => (r.1, r.2.pmReqTop))
      = some ([XST_SUCCESS, XST_SUCCESS, XST_SUCCESS, XST_SUCCESS, XST_FAILURE], 4) := rfl

theorem updatedState_slot :
    ((updatedState.pmReqData 0).currReq, (updatedState.pmReqData 0).nextReq,
      (updatedState.pmReqData 0).slave) = (5, 5, some 2) := rfl

/-! ## The functions on small inputs -/

theorem get_pendingState :
    PmRequirementGet 2 pendingState 1 (some 2) = some (some 0) ∧
    PmRequirementGet 2 pendingState 1 (some 3) = some (some 1) ∧
    PmRequirementGet 2 pendingState 1 (some 9) = some none ∧
    PmRequirementGet 1 pendingState 1 (some 2) = none :=
  ⟨rfl, rfl, rfl, rfl⟩

theorem updateScheduled_pendingState_noswap :
    (PmRequirementUpdateScheduled envOk 2 pendingState 1 false).map
      (fun r => (r.1, (r.2.pmReqData 0).currReq, (r.2.pmReqData 0).nextReq, r.2.calls.length))
      = some (XST_SUCCESS, 5, 5, 1) := rfl

theorem updateScheduled_pendingState_swap :
    (PmRequirementUpdateScheduled envOk 2 pendingState 1 true).map
      (fun r => (r.1, (r.2.pmReqData 0).currReq, (r.2.pmReqData 0).nextReq, r.2.calls.length))
      = some (XST_SUCCESS, 5, 0, 1) := rfl

theorem updateScheduled_defaultPendingState_swap :
    (PmRequirementUpdateScheduled envOk 1 defaultPendingState 1 true).map
      (fun r => (r.1, (r.2.pmReqData 0).currReq, (r.2.pmReqData 0).nextReq))
      = some (XST_SUCCESS, 5, 4) := rfl

theorem updateScheduled_pendingState_fails :
    (PmRequirementUpdateScheduled envUpdateFails 2 pendingState 1 false).map
      (fun r => (r.1, (r.2.pmReqData 0).currReq, (r.2.pmReqData 0).nextReq))
      = some (XST_FAILURE, 5, 5) := rfl

theorem add_pmInit :
    (PmRequirementAdd envOk pmInit 1 2).map
      (fun r => (r.1, r.2.pmReqTop, r.2.masterReqs 1, r.2.slaveReqs 2,
        (r.2.pmReqData 0).master, (r.2.pmReqData 0).slave, (r.2.pmReqData 0).nextSlave))
      = some (XST_SUCCESS, 1, some 0, some 0, some 1, some 2, none) := rfl

/-! ## Claims -/

/-- C1: in a state reached from start-up by calls of the public functions, none of them
`PmRequirementFreeAll`, for every pair `(R, S)` for which a call `PmRequirementAdd(R, S)`
returned `XST_SUCCESS`, `PmRequirementGet(R, S)` returns (within `pmReqTop` iterations) a
requirement, not `NULL`, whose master is `R` and whose slave is `S`. -/
theorem C1_get_after_add (env : PmEnv) (evs : List (PmCall × Option Int)) (s : PmState)
    (h : Reaches env evs s) (hno : ∀ e ∈ evs, e.1 ≠ PmCall.freeAll) (R S : Nat)
    (hadd : (PmCall.add R S, some XST_SUCCESS) ∈ evs) :
    ∃ k, (∀ fuel, s.pmReqTop ≤ fuel → PmRequirementGet fuel s R (some S) = some (some k)) ∧
      (s.pmReqData k).master = some R ∧ (s.pmReqData k).slave = some S := by
  have hi := reaches_masterInv env evs s h hno
  obtain ⟨i, hon, hsl⟩ := reaches_addedOnList env evs s h hno R S hadd
  obtain ⟨a, ha⟩ := onList_some hon
  obtain ⟨k, hk, hkm, hks⟩ :=
    get_of_onList hi R S _ i hon hsl a ha (hi.head_lt R a ha) (hi.head_master R a ha)
  refine ⟨k, ?_, hkm, hks⟩
  intro fuel hf
  exact hk fuel (lt_of_lt_of_le (hi.head_lt R a ha) hf)

/-- C1 at `PmRequirementAdd(1, 2)` after start-up. -/
theorem C1_get_after_add_witness :
    ∃ k, (∀ fuel, (addedState pmInit 1 2).pmReqTop ≤ fuel →
        PmRequirementGet fuel (addedState pmInit 1 2) 1 (some 2) = some (some k)) ∧
      ((addedState pmInit 1 2).pmReqData k).master = some 1 ∧
      ((addedState pmInit 1 2).pmReqData k).slave = some 2 :=
  C1_get_after_add envOk [(PmCall.add 1 2, some XST_SUCCESS)] (addedState pmInit 1 2)
    (Reaches.step 0 (PmCall.add 1 2) (some XST_SUCCESS) (addedState pmInit 1 2) Reaches.init
      (by rw [exec, add_of_lt envOk pmInit 1 2 (by decide)]; rfl))
    (by simp) 1 2 (by simp)

/-- C2: in a state reached from start-up by calls of the public functions, `pmReqTop` is
the number of requirements allocated since the last `PmRequirementFreeAll`;
`PmRequirementAdd(R, S)` returns `XST_FAILURE` exactly when that number is
`PM_REQUIREMENT_MAX` and `XST_SUCCESS` otherwise, and when it fails the state after the call
is the state before it (`pmReqTop`, every slot, every list head). -/
theorem C2_add_capacity (env : PmEnv) (evs : List (PmCall × Option Int)) (s : PmState)
    (h : Reaches env evs s) (R S : Nat) :
    s.pmReqTop = allocatedSinceReset evs ∧
    ∃ status s1, PmRequirementAdd env s R S = some (status, s1) ∧
      (status = XST_FAILURE ∨ status = XST_SUCCESS) ∧
      (status = XST_FAILURE ↔ allocatedSinceReset evs = env.PM_REQUIREMENT_MAX) ∧
      (status = XST_FAILURE → s1 = s) := by
  obtain ⟨htop, hle⟩ := reaches_top env evs s h
  refine ⟨htop, ?_⟩
  rw [← htop]
  by_cases hlt : s.pmReqTop < env.PM_REQUIREMENT_MAX
  · refine ⟨XST_SUCCESS, addedState s R S, add_of_lt env s R S hlt, Or.inr rfl, ?_, ?_⟩
    · constructor
      · intro hst; simp [XST_SUCCESS, XST_FAILURE] at hst
      · intro heq; omega
    · intro hst; simp [XST_SUCCESS, XST_FAILURE] at hst
  · refine ⟨XST_FAILURE, s, add_of_not_lt env s R S hlt, Or.inl rfl, ?_, fun _ => rfl⟩
    constructor
    · intro _; omega
    · intro _; rfl

/-- C2 at a heap of one slot after `PmRequirementAdd(1, 2)`. -/
theorem C2_add_capacity_witness :
    (addedState pmInit 1 2).pmReqTop = allocatedSinceReset [(PmCall.add 1 2, some XST_SUCCESS)] ∧
    ∃ status s1, PmRequirementAdd envOne (addedState pmInit 1 2) 3 4 = some (status, s1) ∧
      (status = XST_FAILURE ∨ status = XST_SUCCESS) ∧
      (status = XST_FAILURE ↔
        allocatedSinceReset [(PmCall.add 1 2, some XST_SUCCESS)] = envOne.PM_REQUIREMENT_MAX) ∧
      (status = XST_FAILURE → s1 = addedState pmInit 1 2) :=
  C2_add_capacity envOne [(PmCall.add 1 2, some XST_SUCCESS)] (addedState pmInit 1 2)
    (Reaches.step 0 (PmCall.add 1 2) (some XST_SUCCESS) (addedState pmInit 1 2) Reaches.init
      (by rw [exec, add_of_lt envOne pmInit 1 2 (by decide)]; rfl)) 3 4

/-- C3: when `PmCheckCapabilities` accepts `caps` and the `PmUpdateSlave` call made by
`PmRequirementUpdate(q, caps)` returns a status other than `XST_SUCCESS`, then
`PmRequirementUpdate` returns that status, `currReq` of `q` is what it was before the call,
`nextReq` of `q` is unchanged, and so is every slot of the heap. -/
theorem C3_update_rollback (env : PmEnv) (s : PmState) (q caps : Nat)
    (hchk : env.PmCheckCapabilities s (s.pmReqData q).slave caps = XST_SUCCESS)
    (hupd : env.PmUpdateSlave (updateCallState env s q caps) (s.pmReqData q).slave
      ≠ XST_SUCCESS) :
    (PmRequirementUpdate env s q caps).1 =
      env.PmUpdateSlave (updateCallState env s q caps) (s.pmReqData q).slave ∧
    ((PmRequirementUpdate env s q caps).2.pmReqData q).currReq = (s.pmReqData q).currReq ∧
    ((PmRequirementUpdate env s q caps).2.pmReqData q).nextReq = (s.pmReqData q).nextReq ∧
    ∀ i, (PmRequirementUpdate env s q caps).2.pmReqData i = s.pmReqData i := by
  have hsl : ((updateCallState env s q caps).pmReqData q).slave = (s.pmReqData q).slave := by
    simp [updateCallState, PmState.setCurrReq]
  have hne : ¬ XST_SUCCESS =
      env.PmUpdateSlave (updateCallState env s q caps) (s.pmReqData q).slave :=
    fun e => hupd e.symm
  have key : PmRequirementUpdate env s q caps =
      (env.PmUpdateSlave (updateCallState env s q caps) (s.pmReqData q).slave,
        (callUpdateSlave env (updateCallState env s q caps) (s.pmReqData q).slave).2.setCurrReq q
          (s.pmReqData q).currReq) := by
    simp only [PmRequirementUpdate, callCheckCapabilities_fst, hchk, ne_eq, not_true_eq_false,
      if_false]
    rw [← updateCallState, hsl, callUpdateSlave_fst, if_neg hne]
    rfl
  rw [key]
  refine ⟨rfl, ?_, ?_, ?_⟩
  · simp [PmState.setCurrReq]
  · simp [PmState.setCurrReq, updateCallState]
  · intro i
    by_cases hi : i = q
    · subst hi
      simp [PmState.setCurrReq, updateCallState]
    · simp [PmState.setCurrReq, updateCallState, hi]

/-- C3 at the requirement added by `PmRequirementAdd(1, 2)`, request `5`, with a slave
whose update fails. -/
theorem C3_update_rollback_witness :
    (PmRequirementUpdate envUpdateFails (addedState pmInit 1 2) 0 5).1 = XST_FAILURE ∧
    ((PmRequirementUpdate envUpdateFails (addedState pmInit 1 2) 0 5).2.pmReqData 0).currReq
      = 0 ∧
    ((PmRequirementUpdate envUpdateFails (addedState pmInit 1 2) 0 5).2.pmReqData 0).nextReq
      = 0 :=
  have h := C3_update_rollback envUpdateFails (addedState pmInit 1 2) 0 5 rfl (by decide)
  ⟨h.1, h.2.1, h.2.2.1⟩

/-- C4: when `PmCheckCapabilities` accepts `caps` and the `PmUpdateSlave` call made by
`PmRequirementUpdate(q, caps)` returns `XST_SUCCESS`, then `PmRequirementUpdate` returns
`XST_SUCCESS` and afterwards `currReq` and `nextReq` of `q` are both `caps`. -/
theorem C4_update_success (env : PmEnv) (s : PmState) (q caps : Nat)
    (hchk : env.PmCheckCapabilities s (s.pmReqData q).slave caps = XST_SUCCESS)
    (hupd : env.PmUpdateSlave (updateCallState env s q caps) (s.pmReqData q).slave
      = XST_SUCCESS) :
    (PmRequirementUpdate env s q caps).1 = XST_SUCCESS ∧
    ((PmRequirementUpdate env s q caps).2.pmReqData q).currReq = caps ∧
    ((PmRequirementUpdate env s q caps).2.pmReqData q).nextReq = caps := by
  have hsl : ((updateCallState env s q caps).pmReqData q).slave = (s.pmReqData q).slave := by
    simp [updateCallState, PmState.setCurrReq]
  have key : PmRequirementUpdate env s q caps =
      (XST_SUCCESS,
        (callUpdateSlave env (updateCallState env s q caps) (s.pmReqData q).slave).2.setNextReq q
          caps) := by
    simp only [PmRequirementUpdate, callCheckCapabilities_fst, hchk, ne_eq, not_true_eq_false,
      if_false]
    rw [← updateCallState, hsl, callUpdateSlave_fst, hupd, if_pos rfl]
    simp [updateCallState, PmState.setCurrReq]
  rw [key]
  refine ⟨rfl, ?_, ?_⟩
  · simp [PmState.setNextReq, PmState.setCurrReq, updateCallState]
  · simp [PmState.setNextReq]

/-- C4 at the requirement added by `PmRequirementAdd(1, 2)`, request `5`. -/
theorem C4_update_success_witness :
    (PmRequirementUpdate envOk (addedState pmInit 1 2) 0 5).1 = XST_SUCCESS ∧
    ((PmRequirementUpdate envOk (addedState pmInit 1 2) 0 5).2.pmReqData 0).currReq = 5 ∧
    ((PmRequirementUpdate envOk (addedState pmInit 1 2) 0 5).2.pmReqData 0).nextReq = 5 :=
  C4_update_success envOk (addedState pmInit 1 2) 0 5 rfl rfl

/-- C5: when `PmCheckCapabilities` accepts `caps`, `PmRequirementSchedule(q, caps)` returns
`XST_SUCCESS`, leaves `currReq` of `q` as it was, sets `nextReq` of `q` to `caps` and changes
no other field of `q`, no other slot, neither `pmReqTop` nor a list head, and the only
external call it makes is the capability check (`PmUpdateSlave` is not called). -/
theorem C5_schedule_accepted (env : PmEnv) (s : PmState) (q caps : Nat)
    (hchk : env.PmCheckCapabilities s (s.pmReqData q).slave caps = XST_SUCCESS) :
    (PmRequirementSchedule env s q caps).1 = XST_SUCCESS ∧
    ((PmRequirementSchedule env s q caps).2.pmReqData q).currReq = (s.pmReqData q).currReq ∧
    ((PmRequirementSchedule env s q caps).2.pmReqData q).nextReq = caps ∧
    (PmRequirementSchedule env s q caps).2.pmReqData q
      = { s.pmReqData q with nextReq := caps } ∧
    (∀ i, i ≠ q → (PmRequirementSchedule env s q caps).2.pmReqData i = s.pmReqData i) ∧
    (PmRequirementSchedule env s q caps).2.pmReqTop = s.pmReqTop ∧
    (PmRequirementSchedule env s q caps).2.masterReqs = s.masterReqs ∧
    (PmRequirementSchedule env s q caps).2.slaveReqs = s.slaveReqs ∧
    (PmRequirementSchedule env s q caps).2.calls
      = ExtCall.check (s.pmReqData q).slave caps :: s.calls := by
  have key : PmRequirementSchedule env s q caps =
      (XST_SUCCESS,
        (callCheckCapabilities env s (s.pmReqData q).slave caps).2.setNextReq q caps) := by
    simp only [PmRequirementSchedule, callCheckCapabilities_fst, hchk, ne_eq,
      not_true_eq_false, if_false]
  rw [key]
  refine ⟨rfl, ?_, ?_, ?_, ?_, rfl, rfl, rfl, rfl⟩
  · simp [PmState.setNextReq]
  · simp [PmState.setNextReq]
  · simp [PmState.setNextReq]
  · intro i hi
    simp [PmState.setNextReq, hi]

/-- C5 at the requirement added by `PmRequirementAdd(1, 2)`, request `5`. -/
theorem C5_schedule_accepted_witness :
    (PmRequirementSchedule envOk (addedState pmInit 1 2) 0 5).1 = XST_SUCCESS ∧
    ((PmRequirementSchedule envOk (addedState pmInit 1 2) 0 5).2.pmReqData 0).currReq = 0 ∧
    ((PmRequirementSchedule envOk (addedState pmInit 1 2) 0 5).2.pmReqData 0).nextReq = 5 ∧
    (PmRequirementSchedule envOk (addedState pmInit 1 2) 0 5).2.calls
      = [ExtCall.check (some 2) 5] :=
  have h := C5_schedule_accepted envOk (addedState pmInit 1 2) 0 5 rfl
  ⟨h.1, h.2.1, h.2.2.1, h.2.2.2.2.2.2.2.2⟩

/-- C6: when `PmCheckCapabilities` rejects `caps`, both `PmRequirementSchedule(q, caps)` and
`PmRequirementUpdate(q, caps)` return the status of the check, leave the whole memory
(every slot with all its fields, `pmReqTop`, every list head) as it was, and the only
external call they make is the capability check (`PmUpdateSlave` is not called). -/
theorem C6_rejected_untouched (env : PmEnv) (s : PmState) (q caps : Nat)
    (hchk : env.PmCheckCapabilities s (s.pmReqData q).slave caps ≠ XST_SUCCESS) :
    ((PmRequirementSchedule env s q caps).1
        = env.PmCheckCapabilities s (s.pmReqData q).slave caps ∧
      (PmRequirementSchedule env s q caps).2.toPmMem = s.toPmMem ∧
      (PmRequirementSchedule env s q caps).2.calls
        = ExtCall.check (s.pmReqData q).slave caps :: s.calls) ∧
    ((PmRequirementUpdate env s q caps).1
        = env.PmCheckCapabilities s (s.pmReqData q).slave caps ∧
      (PmRequirementUpdate env s q caps).2.toPmMem = s.toPmMem ∧
      (PmRequirementUpdate env s q caps).2.calls
        = ExtCall.check (s.pmReqData q).slave caps :: s.calls) := by
  have hne : XST_SUCCESS ≠ env.PmCheckCapabilities s (s.pmReqData q).slave caps :=
    fun e => hchk e.symm
  have k1 : PmRequirementSchedule env s q caps =
      callCheckCapabilities env s (s.pmReqData q).slave caps := by
    simp only [PmRequirementSchedule, callCheckCapabilities_fst, if_pos hne]
    rfl
  have k2 : PmRequirementUpdate env s q caps =
      callCheckCapabilities env s (s.pmReqData q).slave caps := by
    simp only [PmRequirementUpdate, callCheckCapabilities_fst, if_pos hne]
    rfl
  rw [k1, k2]
  exact ⟨⟨rfl, rfl, rfl⟩, ⟨rfl, rfl, rfl⟩⟩

/-- C6 at the requirement added by `PmRequirementAdd(1, 2)`, request `5`, with a slave that
rejects every request. -/
theorem C6_rejected_untouched_witness :
    ((PmRequirementSchedule envRejects (addedState pmInit 1 2) 0 5).1 = XST_NO_FEATURE ∧
      (PmRequirementSchedule envRejects (addedState pmInit 1 2) 0 5).2.toPmMem
        = (addedState pmInit 1 2).toPmMem ∧
      (PmRequirementSchedule envRejects (addedState pmInit 1 2) 0 5).2.calls
        = [ExtCall.check (some 2) 5]) ∧
    ((PmRequirementUpdate envRejects (addedState pmInit 1 2) 0 5).1 = XST_NO_FEATURE ∧
      (PmRequirementUpdate envRejects (addedState pmInit 1 2) 0 5).2.toPmMem
        = (addedState pmInit 1 2).toPmMem ∧
      (PmRequirementUpdate envRejects (addedState pmInit 1 2) 0 5).2.calls
        = [ExtCall.check (some 2) 5]) :=
  C6_rejected_untouched envRejects (addedState pmInit 1 2) 0 5 (by decide)

/-- C7: when the list of master `R` is well formed, `PmRequirementUpdateScheduled(R, false)`
returns, and when it returns `XST_SUCCESS` every requirement on the list that had
`currReq != nextReq` before the call has `currReq` equal to its former `nextReq`, and
every requirement on the list that had `currReq == nextReq` has all its fields unchanged. -/
theorem C7_commit_noswap (env : PmEnv) (s : PmState) (R : Nat) (l : List Nat)
    (hl : MasterList s R l) (fuel : Nat) (hf : l.length ≤ fuel) :
    ∃ status s1, PmRequirementUpdateScheduled env fuel s R false = some (status, s1) ∧
      (status = XST_SUCCESS → ∀ i ∈ l,
        ((s.pmReqData i).currReq ≠ (s.pmReqData i).nextReq →
          (s1.pmReqData i).currReq = (s.pmReqData i).nextReq) ∧
        ((s.pmReqData i).currReq = (s.pmReqData i).nextReq →
          s1.pmReqData i = s.pmReqData i)) := by
  obtain ⟨r, s1, hrun, hprop⟩ :=
    updateScheduledLoop_spec env false l fuel s XST_SUCCESS _ hl (isList_nodup l _ hl) hf
  refine ⟨r, s1, hrun, fun hr i hi => ?_⟩
  rw [(hprop hr).1 i hi]
  constructor
  · intro hne; simp [commitOne, hne]
  · intro heq; simp [commitOne, heq]

/-- C7 at `pendingState`: slot `0` is committed, slot `1` is untouched. -/
theorem C7_commit_noswap_witness :
    ∃ status s1, PmRequirementUpdateScheduled envOk 2 pendingState 1 false
        = some (status, s1) ∧
      (status = XST_SUCCESS → ∀ i ∈ [1, 0],
        ((pendingState.pmReqData i).currReq ≠ (pendingState.pmReqData i).nextReq →
          (s1.pmReqData i).currReq = (pendingState.pmReqData i).nextReq) ∧
        ((pendingState.pmReqData i).currReq = (pendingState.pmReqData i).nextReq →
          s1.pmReqData i = pendingState.pmReqData i)) :=
  C7_commit_noswap envOk pendingState 1 [1, 0] ⟨rfl, rfl, rfl⟩ 2 (by decide)

/-- C8 as stated fails: in `defaultState` the only requirement of master `1` has default
requirement `4` and `currReq == nextReq == 0`; `PmRequirementUpdateScheduled(1, true)`
returns `XST_SUCCESS` and leaves the state as it was, with `nextReq` still `0`, not `4`. -/
theorem C8_commit_swap_default_counterexample :
    MasterList defaultState 1 [0] ∧
    (defaultState.pmReqData 0).defaultReq = 4 ∧
    PmRequirementUpdateScheduled envOk 1 defaultState 1 true
      = some (XST_SUCCESS, defaultState) ∧
    (defaultState.pmReqData 0).nextReq = 0 ∧
    (defaultState.pmReqData 0).nextReq ≠ (defaultState.pmReqData 0).defaultReq :=
  ⟨⟨rfl, rfl⟩, rfl, rfl, rfl, by decide⟩

/-- C8, amended: when the list of master `R` is well formed,
`PmRequirementUpdateScheduled(R, true)` returns, and when it returns `XST_SUCCESS` every
requirement on the list with a nonzero default requirement that had `currReq != nextReq`
before the call has `nextReq` equal to its default requirement (and `currReq` equal to its
former `nextReq`), while one that had `currReq == nextReq` has all its fields unchanged. -/
theorem C8_commit_swap_default (env : PmEnv) (s : PmState) (R : Nat) (l : List Nat)
    (hl : MasterList s R l) (fuel : Nat) (hf : l.length ≤ fuel) :
    ∃ status s1, PmRequirementUpdateScheduled env fuel s R true = some (status, s1) ∧
      (status = XST_SUCCESS → ∀ i ∈ l, (s.pmReqData i).defaultReq ≠ 0 →
        ((s.pmReqData i).currReq ≠ (s.pmReqData i).nextReq →
          (s1.pmReqData i).nextReq = (s1.pmReqData i).defaultReq ∧
          (s1.pmReqData i).defaultReq = (s.pmReqData i).defaultReq ∧
          (s1.pmReqData i).currReq = (s.pmReqData i).nextReq) ∧
        ((s.pmReqData i).currReq = (s.pmReqData i).nextReq →
          s1.pmReqData i = s.pmReqData i)) := by
  obtain ⟨r, s1, hrun, hprop⟩ :=
    updateScheduledLoop_spec env true l fuel s XST_SUCCESS _ hl (isList_nodup l _ hl) hf
  refine ⟨r, s1, hrun, fun hr i hi hd => ?_⟩
  rw [(hprop hr).1 i hi]
  have hd1 : ¬ 0 = (s.pmReqData i).defaultReq := fun e => hd e.symm
  constructor
  · intro hne; simp [commitOne, hne, hd1]
  · intro heq; simp [commitOne, heq]

/-- C8, amended, at `defaultPendingState`: the scheduled `5` becomes current and the
default `4` becomes the next requirement. -/
theorem C8_commit_swap_default_witness :
    ∃ status s1, PmRequirementUpdateScheduled envOk 1 defaultPendingState 1 true
        = some (status, s1) ∧
      (status = XST_SUCCESS → ∀ i ∈ [0], (defaultPendingState.pmReqData i).defaultReq ≠ 0 →
        ((defaultPendingState.pmReqData i).currReq ≠ (defaultPendingState.pmReqData i).nextReq →
          (s1.pmReqData i).nextReq = (s1.pmReqData i).defaultReq ∧
          (s1.pmReqData i).defaultReq = (defaultPendingState.pmReqData i).defaultReq ∧
          (s1.pmReqData i).currReq = (defaultPendingState.pmReqData i).nextReq) ∧
        ((defaultPendingState.pmReqData i).currReq = (defaultPendingState.pmReqData i).nextReq →
          s1.pmReqData i = defaultPendingState.pmReqData i)) :=
  C8_commit_swap_default envOk defaultPendingState 1 [0] ⟨rfl, rfl⟩ 1 (by decide)

/-- C9: when the list of master `R` is well formed, `PmRequirementUpdateScheduled(R, true)`
returns, and when it returns `XST_SUCCESS` every requirement on the list whose default
requirement is zero has `nextReq` equal to its former `currReq` and `currReq` equal to its
former `nextReq`. -/
theorem C9_commit_swap_exchange (env : PmEnv) (s : PmState) (R : Nat) (l : List Nat)
    (hl : MasterList s R l) (fuel : Nat) (hf : l.length ≤ fuel) :
    ∃ status s1, PmRequirementUpdateScheduled env fuel s R true = some (status, s1) ∧
      (status = XST_SUCCESS → ∀ i ∈ l, (s.pmReqData i).defaultReq = 0 →
        (s1.pmReqData i).nextReq = (s.pmReqData i).currReq ∧
        (s1.pmReqData i).currReq = (s.pmReqData i).nextReq) := by
  obtain ⟨r, s1, hrun, hprop⟩ :=
    updateScheduledLoop_spec env true l fuel s XST_SUCCESS _ hl (isList_nodup l _ hl) hf
  refine ⟨r, s1, hrun, fun hr i hi hd => ?_⟩
  rw [(hprop hr).1 i hi]
  by_cases hcn : (s.pmReqData i).currReq = (s.pmReqData i).nextReq
  · simp [commitOne, hcn]
  · simp [commitOne, hcn, hd]

/-- C9 at `pendingState`: in slot `0` the current `0` and the scheduled `5` change places. -/
theorem C9_commit_swap_exchange_witness :
    ∃ status s1, PmRequirementUpdateScheduled envOk 2 pendingState 1 true
        = some (status, s1) ∧
      (status = XST_SUCCESS → ∀ i ∈ [1, 0], (pendingState.pmReqData i).defaultReq = 0 →
        (s1.pmReqData i).nextReq = (pendingState.pmReqData i).currReq ∧
        (s1.pmReqData i).currReq = (pendingState.pmReqData i).nextReq) :=
  C9_commit_swap_exchange envOk pendingState 1 [1, 0] ⟨rfl, rfl, rfl⟩ 2 (by decide)

/-- C10: when the list of master `R` is well formed, `PmRequirementCancelScheduled(R)`
returns, and afterwards every requirement on the list has `nextReq` and `currReq` both equal
to its former `currReq`, every slot outside the list is unchanged, no external call has
been made (neither `PmCheckCapabilities` nor `PmUpdateSlave`), and `pmReqTop` and the list
heads are as before. -/
theorem C10_cancel_scheduled (s : PmState) (R : Nat) (l : List Nat)
    (hl : MasterList s R l) (fuel : Nat) (hf : l.length ≤ fuel) :
    ∃ s1, PmRequirementCancelScheduled fuel s R = some s1 ∧
      (∀ i ∈ l, (s1.pmReqData i).nextReq = (s.pmReqData i).currReq ∧
        (s1.pmReqData i).currReq = (s.pmReqData i).currReq) ∧
      (∀ i, i ∉ l → s1.pmReqData i = s.pmReqData i) ∧
      s1.calls = s.calls ∧
      s1.pmReqTop = s.pmReqTop ∧ s1.masterReqs = s.masterReqs ∧ s1.slaveReqs = s.slaveReqs := by
  obtain ⟨s1, hrun, hcalls, h1, h2⟩ :=
    cancelScheduledLoop_spec l fuel s _ hl (isList_nodup l _ hl) hf
  have hsl := sameLinks_cancelScheduledLoop fuel s s _ s1 (SameLinks.refl s) hrun
  refine ⟨s1, hrun, ?_, h2, hcalls, hsl.top, hsl.masters, hsl.slaves⟩
  intro i hi
  rw [h1 i hi]
  exact ⟨rfl, rfl⟩

/-- C10 at `pendingState`: the scheduled `5` of slot `0` is dropped. -/
theorem C10_cancel_scheduled_witness :
    ∃ s1, PmRequirementCancelScheduled 2 pendingState 1 = some s1 ∧
      (∀ i ∈ [1, 0], (s1.pmReqData i).nextReq = (pendingState.pmReqData i).currReq ∧
        (s1.pmReqData i).currReq = (pendingState.pmReqData i).currReq) ∧
      (∀ i, i ∉ [1, 0] → s1.pmReqData i = pendingState.pmReqData i) ∧
      s1.calls = pendingState.calls ∧
      s1.pmReqTop = pendingState.pmReqTop ∧ s1.masterReqs = pendingState.masterReqs ∧
      s1.slaveReqs = pendingState.slaveReqs :=
  C10_cancel_scheduled pendingState 1 [1, 0] ⟨rfl, rfl, rfl⟩ 2 (by decide)

/-- C11: when the list of master `R` is well formed (and the usage mask is not zero),
`PmRequirementRequestDefault(R)` returns, and afterwards every requirement on the list with
a nonzero default requirement has the usage flag set, `nextReq` equal to its default
requirement and `currReq` unchanged (only `info` and `nextReq` are written); every
requirement on the list with default requirement zero and every slot outside the list is
unchanged in every field; no external call has been made (`PmUpdateSlave` is not called);
`pmReqTop` and the list heads are as before. -/
theorem C11_request_default (env : PmEnv) (s : PmState) (R : Nat) (l : List Nat)
    (hl : MasterList s R l) (fuel : Nat) (hf : l.length ≤ fuel)
    (hmask : env.PM_MASTER_USING_SLAVE_MASK ≠ 0) :
    ∃ s1, PmRequirementRequestDefault env fuel s R = some s1 ∧
      (∀ i ∈ l, (s.pmReqData i).defaultReq ≠ 0 →
        usingSlave env (s1.pmReqData i) ∧
        (s1.pmReqData i).nextReq = (s.pmReqData i).defaultReq ∧
        (s1.pmReqData i).currReq = (s.pmReqData i).currReq ∧
        s1.pmReqData i =
          { s.pmReqData i with
            info := (s.pmReqData i).info ||| env.PM_MASTER_USING_SLAVE_MASK
            nextReq := (s.pmReqData i).defaultReq }) ∧
      (∀ i ∈ l, (s.pmReqData i).defaultReq = 0 → s1.pmReqData i = s.pmReqData i) ∧
      (∀ i, i ∉ l → s1.pmReqData i = s.pmReqData i) ∧
      s1.calls = s.calls ∧
      s1.pmReqTop = s.pmReqTop ∧ s1.masterReqs = s.masterReqs ∧ s1.slaveReqs = s.slaveReqs := by
  obtain ⟨s1, hrun, hcalls, h1, h2⟩ :=
    requestDefaultLoop_spec env l fuel s _ hl (isList_nodup l _ hl) hf
  have hsl := sameLinks_requestDefaultLoop env fuel s s _ s1 (SameLinks.refl s) hrun
  refine ⟨s1, hrun, ?_, ?_, h2, hcalls, hsl.top, hsl.masters, hsl.slaves⟩
  · intro i hi hd
    have hd1 : 0 ≠ (s.pmReqData i).defaultReq := fun e => hd e.symm
    have hreq : requestOne env (s.pmReqData i) =
        { s.pmReqData i with
          info := (s.pmReqData i).info ||| env.PM_MASTER_USING_SLAVE_MASK
          nextReq := (s.pmReqData i).defaultReq } := by
      simp only [requestOne, if_pos hd1]
    rw [h1 i hi, hreq]
    refine ⟨?_, rfl, rfl, rfl⟩
    show 0 ≠ env.PM_MASTER_USING_SLAVE_MASK &&&
      ((s.pmReqData i).info ||| env.PM_MASTER_USING_SLAVE_MASK)
    rw [mask_and_or]
    exact fun e => hmask e.symm
  · intro i hi hd
    rw [h1 i hi]
    simp [requestOne, hd]

/-- C11 at `mixedDefaultState`: slot `0` (default `4`) is staged, slot `1` is untouched. -/
theorem C11_request_default_witness :
    ∃ s1, PmRequirementRequestDefault envOk 2 mixedDefaultState 1 = some s1 ∧
      (∀ i ∈ [1, 0], (mixedDefaultState.pmReqData i).defaultReq ≠ 0 →
        usingSlave envOk (s1.pmReqData i) ∧
        (s1.pmReqData i).nextReq = (mixedDefaultState.pmReqData i).defaultReq ∧
        (s1.pmReqData i).currReq = (mixedDefaultState.pmReqData i).currReq ∧
        s1.pmReqData i =
          { mixedDefaultState.pmReqData i with
            info := (mixedDefaultState.pmReqData i).info ||| envOk.PM_MASTER_USING_SLAVE_MASK
            nextReq := (mixedDefaultState.pmReqData i).defaultReq }) ∧
      (∀ i ∈ [1, 0], (mixedDefaultState.pmReqData i).defaultReq = 0 →
        s1.pmReqData i = mixedDefaultState.pmReqData i) ∧
      (∀ i, i ∉ [1, 0] → s1.pmReqData i = mixedDefaultState.pmReqData i) ∧
      s1.calls = mixedDefaultState.calls ∧
      s1.pmReqTop = mixedDefaultState.pmReqTop ∧
      s1.masterReqs = mixedDefaultState.masterReqs ∧
      s1.slaveReqs = mixedDefaultState.slaveReqs :=
  C11_request_default envOk mixedDefaultState 1 [1, 0] ⟨rfl, rfl, rfl⟩ 2 (by decide) (by decide)

/-- C12: when the list of master `R` is well formed (and the usage mask fits 32 bits),
`PmRequirementReleaseAll(R)` returns; every slot outside the list is unchanged, and when
the call returns `XST_SUCCESS` every requirement on the list whose usage flag was set has
`currReq == nextReq == 0` and the usage flag clear, and every requirement on the list whose
usage flag was clear is unchanged in every field. -/
theorem C12_release_all (env : PmEnv) (s : PmState) (R : Nat) (l : List Nat)
    (hl : MasterList s R l) (fuel : Nat) (hf : l.length ≤ fuel)
    (hmask : env.PM_MASTER_USING_SLAVE_MASK < 2 ^ 32) :
    ∃ status s1, PmRequirementReleaseAll env fuel s R = some (status, s1) ∧
      (∀ i, i ∉ l → s1.pmReqData i = s.pmReqData i) ∧
      (status = XST_SUCCESS → ∀ i ∈ l,
        (usingSlave env (s.pmReqData i) →
          (s1.pmReqData i).currReq = 0 ∧ (s1.pmReqData i).nextReq = 0 ∧
          ¬ usingSlave env (s1.pmReqData i)) ∧
        (¬ usingSlave env (s.pmReqData i) → s1.pmReqData i = s.pmReqData i)) := by
  obtain ⟨r, s1, hrun, h2, h1⟩ :=
    releaseAllLoop_spec env l fuel s XST_SUCCESS _ hl (isList_nodup l _ hl) hf
  refine ⟨r, s1, hrun, h2, fun hr i hi => ?_⟩
  rw [h1 hr i hi]
  constructor
  · intro hu
    have hu1 : 0 ≠ env.PM_MASTER_USING_SLAVE_MASK &&& (s.pmReqData i).info := hu
    rw [releaseOne, if_pos hu1]
    refine ⟨rfl, rfl, ?_⟩
    show ¬ (0 ≠ env.PM_MASTER_USING_SLAVE_MASK &&&
      ((s.pmReqData i).info &&& (0xFFFFFFFF ^^^ env.PM_MASTER_USING_SLAVE_MASK)))
    rw [mask_and_clear _ _ hmask]
    exact fun h => h rfl
  · intro hu
    have hu1 : ¬ 0 ≠ env.PM_MASTER_USING_SLAVE_MASK &&& (s.pmReqData i).info := hu
    rw [releaseOne, if_neg hu1]

/-- C12 at `usedState`: slot `0` is released, slot `1` is untouched. -/
theorem C12_release_all_witness :
    ∃ status s1, PmRequirementReleaseAll envOk 2 usedState 1 = some (status, s1) ∧
      (∀ i, i ∉ [1, 0] → s1.pmReqData i = usedState.pmReqData i) ∧
      (status = XST_SUCCESS → ∀ i ∈ [1, 0],
        (usingSlave envOk (usedState.pmReqData i) →
          (s1.pmReqData i).currReq = 0 ∧ (s1.pmReqData i).nextReq = 0 ∧
          ¬ usingSlave envOk (s1.pmReqData i)) ∧
        (¬ usingSlave envOk (usedState.pmReqData i) →
          s1.pmReqData i = usedState.pmReqData i)) :=
  C12_release_all envOk usedState 1 [1, 0] ⟨rfl, rfl, rfl⟩ 2 (by decide) (by decide)

/-- C13: wake, commit, release.  Start-up, then `PmRequirementAdd(R, S)` (which succeeds),
then default requirement `d != 0` assigned to the new requirement; with a slave layer whose
updates always succeed (and a usage mask that is a nonzero 32-bit value):
`PmRequirementRequestDefault(R)` yields `nextReq == d` and the usage flag set; then
`PmRequirementUpdateScheduled(R, false)` returns `XST_SUCCESS` with `currReq == d`; then
`PmRequirementReleaseAll(R)` returns `XST_SUCCESS` with `currReq == 0`, `nextReq == 0` and
the usage flag clear. -/
theorem C13_wake_commit_release (env : PmEnv) (R S d : Nat) (hd : d ≠ 0)
    (hupd : ∀ st sl, env.PmUpdateSlave st sl = XST_SUCCESS)
    (hcap : 0 < env.PM_REQUIREMENT_MAX)
    (hm0 : env.PM_MASTER_USING_SLAVE_MASK ≠ 0)
    (hm : env.PM_MASTER_USING_SLAVE_MASK < 2 ^ 32) :
    PmRequirementAdd env pmInit R S = some (XST_SUCCESS, addedState pmInit R S) ∧
    ∃ s1 s2 s3,
      PmRequirementRequestDefault env 1 (freshDefaultState R S d) R = some s1 ∧
      (s1.pmReqData 0).nextReq = d ∧ usingSlave env (s1.pmReqData 0) ∧
      PmRequirementUpdateScheduled env 1 s1 R false = some (XST_SUCCESS, s2) ∧
      (s2.pmReqData 0).currReq = d ∧
      PmRequirementReleaseAll env 1 s2 R = some (XST_SUCCESS, s3) ∧
      (s3.pmReqData 0).currReq = 0 ∧ (s3.pmReqData 0).nextReq = 0 ∧
      ¬ usingSlave env (s3.pmReqData 0) := by
  refine ⟨add_of_lt env pmInit R S hcap, ?_⟩
  have hd1 : ¬ 0 = d := fun e => hd e.symm
  have hl0 : MasterList (freshDefaultState R S d) R [0] := by
    refine ⟨?_, ?_⟩
    · simp [freshDefaultState, PmState.setDefaultReq, addedState, pmInit]
    · simp [freshDefaultState, PmState.setDefaultReq, addedState, pmInit, PmState.nextSlaveOf,
        zeroReq, IsList]
  have hrec0 : (freshDefaultState R S d).pmReqData 0 =
      { zeroReq with master := some R, slave := some S, defaultReq := d } := by
    simp [freshDefaultState, PmState.setDefaultReq, addedState, pmInit, zeroReq]
  -- request the default
  obtain ⟨s1, hrun1, -, h1, -⟩ :=
    requestDefaultLoop_spec env [0] 1 _ _ hl0 (isList_nodup _ _ hl0) (Nat.le_refl _)
  have hsl1 := sameLinks_requestDefaultLoop env 1 _ _ _ s1 (SameLinks.refl _) hrun1
  have hrec1 : s1.pmReqData 0 =
      { zeroReq with
        master := some R, slave := some S, defaultReq := d
        info := 0 ||| env.PM_MASTER_USING_SLAVE_MASK, nextReq := d } := by
    rw [h1 0 (List.mem_singleton.mpr rfl), hrec0]
    simp [requestOne, hd1, zeroReq]
  have hl1 : MasterList s1 R [0] := by
    have := isList_sameLinks hsl1 _ _ hl0
    rw [← hsl1.masters] at this
    exact this
  -- commit
  obtain ⟨r2, s2, hrun2, h2⟩ :=
    updateScheduledLoop_spec env false [0] 1 s1 XST_SUCCESS _ hl1 (isList_nodup _ _ hl1)
      (Nat.le_refl _)
  have hr2 : r2 = XST_SUCCESS := updateScheduledLoop_status env false hupd 1 s1 _ _ hrun2
  subst hr2
  have hsl2 := sameLinks_updateScheduledLoop env false 1 s1 s1 _ _ _ (SameLinks.refl _) hrun2
  have hrec2 : s2.pmReqData 0 =
      { zeroReq with
        master := some R, slave := some S, defaultReq := d
        info := 0 ||| env.PM_MASTER_USING_SLAVE_MASK, nextReq := d, currReq := d } := by
    rw [(h2 rfl).1 0 (List.mem_singleton.mpr rfl), hrec1]
    simp [commitOne, hd1, zeroReq]
  have hl2 : MasterList s2 R [0] := by
    have := isList_sameLinks hsl2 _ _ hl1
    rw [← hsl2.masters] at this
    exact this
  -- release
  obtain ⟨r3, s3, hrun3, -, h3⟩ :=
    releaseAllLoop_spec env [0] 1 s2 XST_SUCCESS _ hl2 (isList_nodup _ _ hl2) (Nat.le_refl _)
  have hr3 : r3 = XST_SUCCESS := releaseAllLoop_status env hupd 1 s2 _ _ hrun3
  subst hr3
  have hflag : 0 ≠ env.PM_MASTER_USING_SLAVE_MASK &&& (0 ||| env.PM_MASTER_USING_SLAVE_MASK) := by
    rw [mask_and_or]; exact fun e => hm0 e.symm
  have hrec3 : s3.pmReqData 0 =
      { zeroReq with
        master := some R, slave := some S, defaultReq := d
        info := (0 ||| env.PM_MASTER_USING_SLAVE_MASK) &&&
          (0xFFFFFFFF ^^^ env.PM_MASTER_USING_SLAVE_MASK)
        nextReq := 0, currReq := 0 } := by
    rw [h3 rfl 0 (List.mem_singleton.mpr rfl), hrec2, releaseOne, if_pos hflag]
  refine ⟨s1, s2, s3, hrun1, ?_, ?_, hrun2, ?_, hrun3, ?_, ?_, ?_⟩
  · rw [hrec1]
  · rw [hrec1]; exact hflag
  · rw [hrec2]
  · rw [hrec3]
  · rw [hrec3]
  · rw [hrec3]
    show ¬ (0 ≠ env.PM_MASTER_USING_SLAVE_MASK &&&
      ((0 ||| env.PM_MASTER_USING_SLAVE_MASK) &&&
        (0xFFFFFFFF ^^^ env.PM_MASTER_USING_SLAVE_MASK)))
    rw [mask_and_clear _ _ hm]
    exact fun h => h rfl

/-- C13 at master `1`, slave `2` and default requirement `4`. -/
theorem C13_wake_commit_release_witness :
    PmRequirementAdd envOk pmInit 1 2 = some (XST_SUCCESS, addedState pmInit 1 2) ∧
    ∃ s1 s2 s3,
      PmRequirementRequestDefault envOk 1 (freshDefaultState 1 2 4) 1 = some s1 ∧
      (s1.pmReqData 0).nextReq = 4 ∧ usingSlave envOk (s1.pmReqData 0) ∧
      PmRequirementUpdateScheduled envOk 1 s1 1 false = some (XST_SUCCESS, s2) ∧
      (s2.pmReqData 0).currReq = 4 ∧
      PmRequirementReleaseAll envOk 1 s2 1 = some (XST_SUCCESS, s3) ∧
      (s3.pmReqData 0).currReq = 0 ∧ (s3.pmReqData 0).nextReq = 0 ∧
      ¬ usingSlave envOk (s3.pmReqData 0) :=
  C13_wake_commit_release envOk 1 2 4 (by decide) (fun _ _ => rfl) (by decide) (by decide)
    (by decide)

/-- C14: the list of master `R` is `pre ++ x :: post`, every requirement on it has
`currReq != nextReq`, the slave update succeeds in the iterations for `pre` and fails in the
iteration for `x` (position `k = pre.length + 1`).  Then
`PmRequirementUpdateScheduled(R, swap)` returns the status of the failed update; every
requirement of `pre` has `currReq` equal to its former `nextReq`; so has `x` itself (it is not
rolled back); every requirement of `post` is unchanged in every field and still has
`currReq != nextReq`; and `PmUpdateSlave` has been called exactly `k` times. -/
theorem C14_commit_partial (env : PmEnv) (swap : Bool) (s : PmState) (R : Nat)
    (pre : List Nat) (x : Nat) (post : List Nat)
    (hl : MasterList s R (pre ++ x :: post))
    (hpend : ∀ i ∈ pre ++ x :: post, (s.pmReqData i).currReq ≠ (s.pmReqData i).nextReq)
    (hok : updatesSucceed env swap s pre)
    (hfail : commitStatus env swap (commitVisits env swap s pre) x ≠ XST_SUCCESS)
    (fuel : Nat) (hf : pre.length + 1 ≤ fuel) :
    ∃ s1, PmRequirementUpdateScheduled env fuel s R swap
        = some (commitStatus env swap (commitVisits env swap s pre) x, s1) ∧
      (∀ i ∈ pre, (s1.pmReqData i).currReq = (s.pmReqData i).nextReq) ∧
      (s1.pmReqData x).currReq = (s.pmReqData x).nextReq ∧
      (∀ i ∈ post, s1.pmReqData i = s.pmReqData i ∧
        (s1.pmReqData i).currReq ≠ (s1.pmReqData i).nextReq) ∧
      countUpdates s1.calls = countUpdates s.calls + (pre.length + 1) := by
  have hnd := isList_nodup _ _ hl
  have hndpre : pre.Nodup := (List.nodup_append.mp hnd).1
  have hxpre : x ∉ pre := fun hx =>
    (List.nodup_append.mp hnd).2.2 hx (List.mem_cons_self _ _)
  have hxpost : x ∉ post := (List.nodup_cons.mp (List.nodup_append.mp hnd).2.1).1
  have hpostpre : ∀ i ∈ post, i ∉ pre := fun i hi hip =>
    (List.nodup_append.mp hnd).2.2 hip (List.mem_cons_of_mem _ hi)
  obtain ⟨-, hcnt, h1, h2⟩ := commitVisits_spec env swap pre s hndpre
    (fun i hi => hpend i (List.mem_append_left _ hi))
  have hpx := hpend x (by simp)
  have hpx1 : ((commitVisits env swap s pre).pmReqData x).currReq
      ≠ ((commitVisits env swap s pre).pmReqData x).nextReq := by
    rw [h2 x hxpre]; exact hpx
  refine ⟨commitVisit env swap (commitVisits env swap s pre) x,
    updateScheduledLoop_stops env swap pre s XST_SUCCESS _ x post fuel hl hnd hpend hok hfail hf,
    ?_, ?_, ?_, ?_⟩
  · intro i hi
    have hix : i ≠ x := fun e => hxpre (e ▸ hi)
    rw [commitVisit_pmReqData env swap _ x hpx1, if_neg hix, h1 i hi]
    simp [commitOne, hpend i (List.mem_append_left _ hi)]
  · rw [commitVisit_pmReqData env swap _ x hpx1, if_pos rfl, h2 x hxpre]
    simp [commitOne, hpx]
  · intro i hi
    have hix : i ≠ x := fun e => hxpost (e ▸ hi)
    rw [commitVisit_pmReqData env swap _ x hpx1, if_neg hix, h2 i (hpostpre i hi)]
    exact ⟨rfl, hpend i (List.mem_append_right _ (List.mem_cons_of_mem _ hi))⟩
  · rw [commitVisit_countUpdates, hcnt]
    omega

/-- C14 at `threePendingState` with a slave layer whose second update fails: slot `2` is
committed, slot `1` is committed and not rolled back, slot `0` is untouched. -/
theorem C14_commit_partial_witness :
    ∃ s1, PmRequirementUpdateScheduled envSecondFails 3 threePendingState 1 false
        = some (commitStatus envSecondFails false
            (commitVisits envSecondFails false threePendingState [2]) 1, s1) ∧
      (∀ i ∈ [2], (s1.pmReqData i).currReq = (threePendingState.pmReqData i).nextReq) ∧
      (s1.pmReqData 1).currReq = (threePendingState.pmReqData 1).nextReq ∧
      (∀ i ∈ [0], s1.pmReqData i = threePendingState.pmReqData i ∧
        (s1.pmReqData i).currReq ≠ (s1.pmReqData i).nextReq) ∧
      countUpdates s1.calls = countUpdates threePendingState.calls + ([2].length + 1) :=
  C14_commit_partial envSecondFails false threePendingState 1 [2] 1 [0] ⟨rfl, rfl, rfl, rfl⟩
    (by decide) ⟨rfl, trivial⟩ (by decide) 3 (by decide)

/-- C16: in a state reached from start-up by calls of the public functions, none of them
`PmRequirementFreeAll`, every allocated requirement (slot below `pmReqTop`) has a master and
a slave, occurs exactly once in the list of that master and in the list of no other master,
and exactly once in the list of that slave and in the list of no other slave; and every
further call other than `PmRequirementFreeAll` leaves each list as a suffix of what it
becomes (at most one requirement is put in front, none is removed or moved). -/
theorem C16_exactly_once (env : PmEnv) (evs : List (PmCall × Option Int)) (s : PmState)
    (h : Reaches env evs s) (hno : ∀ e ∈ evs, e.1 ≠ PmCall.freeAll) :
    (∀ i, i < s.pmReqTop →
      (∃ m, (s.pmReqData i).master = some m ∧
        (∃ l, MasterList s m l ∧ l.count i = 1) ∧
        (∀ k l, k ≠ m → MasterList s k l → i ∉ l)) ∧
      (∃ n, (s.pmReqData i).slave = some n ∧
        (∃ l, SlaveList s n l ∧ l.count i = 1) ∧
        (∀ k l, k ≠ n → SlaveList s k l → i ∉ l))) ∧
    (∀ fuel c r s1, c ≠ PmCall.freeAll → exec env fuel c s = some (r, s1) →
      (∀ m l, MasterList s m l → ∃ pre, MasterList s1 m (pre ++ l) ∧ pre.length ≤ 1) ∧
      (∀ n l, SlaveList s n l → ∃ pre, SlaveList s1 n (pre ++ l) ∧ pre.length ≤ 1)) := by
  have hw := reaches_listsWellFormed env evs s h hno
  refine ⟨fun i hi => ⟨hw.1.exactly_once i hi, hw.2.exactly_once i hi⟩, ?_⟩
  intro fuel c r s1 hc hex
  exact exec_keeps_lists env fuel c s r s1 hex hc hw

/-- C16 at the state after `PmRequirementAdd(1, 2)`. -/
theorem C16_exactly_once_witness :
    (∀ i, i < (addedState pmInit 1 2).pmReqTop →
      (∃ m, ((addedState pmInit 1 2).pmReqData i).master = some m ∧
        (∃ l, MasterList (addedState pmInit 1 2) m l ∧ l.count i = 1) ∧
        (∀ k l, k ≠ m → MasterList (addedState pmInit 1 2) k l → i ∉ l)) ∧
      (∃ n, ((addedState pmInit 1 2).pmReqData i).slave = some n ∧
        (∃ l, SlaveList (addedState pmInit 1 2) n l ∧ l.count i = 1) ∧
        (∀ k l, k ≠ n → SlaveList (addedState pmInit 1 2) k l → i ∉ l))) ∧
    (∀ fuel c r s1, c ≠ PmCall.freeAll →
      exec envOk fuel c (addedState pmInit 1 2) = some (r, s1) →
      (∀ m l, MasterList (addedState pmInit 1 2) m l →
        ∃ pre, MasterList s1 m (pre ++ l) ∧ pre.length ≤ 1) ∧
      (∀ n l, SlaveList (addedState pmInit 1 2) n l →
        ∃ pre, SlaveList s1 n (pre ++ l) ∧ pre.length ≤ 1)) :=
  C16_exactly_once envOk [(PmCall.add 1 2, some XST_SUCCESS)] (addedState pmInit 1 2)
    (Reaches.step 0 (PmCall.add 1 2) (some XST_SUCCESS) (addedState pmInit 1 2) Reaches.init
      (by rw [exec, add_of_lt envOk pmInit 1 2 (by decide)]; rfl))
    (by simp)

/-- C19: in a state reached from start-up by calls of the public functions, none of them
`PmRequirementFreeAll`, the links `nextSlave` and `nextMaster` of every slot point to a
slot with a strictly smaller index or are `NULL`; the list of every master and of every
slave is finite, without repetition, and no longer than `pmReqTop`; and the walks of
`PmRequirementGet`, `PmRequirementUpdateScheduled`, `PmRequirementCancelScheduled`,
`PmRequirementRequestDefault` and `PmRequirementReleaseAll` return within `pmReqTop`
iterations. -/
theorem C19_links_decrease (env : PmEnv) (evs : List (PmCall × Option Int)) (s : PmState)
    (h : Reaches env evs s) (hno : ∀ e ∈ evs, e.1 ≠ PmCall.freeAll) :
    (∀ i j, (s.pmReqData i).nextSlave = some j → j < i) ∧
    (∀ i j, (s.pmReqData i).nextMaster = some j → j < i) ∧
    (∀ m, ∃ l, MasterList s m l ∧ l.Nodup ∧ l.length ≤ s.pmReqTop) ∧
    (∀ n, ∃ l, SlaveList s n l ∧ l.Nodup ∧ l.length ≤ s.pmReqTop) ∧
    (∀ fuel m, s.pmReqTop ≤ fuel →
      (∀ sl, ∃ r, PmRequirementGet fuel s m sl = some r) ∧
      (∀ swap, ∃ r, PmRequirementUpdateScheduled env fuel s m swap = some r) ∧
      (∃ r, PmRequirementCancelScheduled fuel s m = some r) ∧
      (∃ r, PmRequirementRequestDefault env fuel s m = some r) ∧
      (∃ r, PmRequirementReleaseAll env fuel s m = some r)) := by
  have hw := reaches_listsWellFormed env evs s h hno
  refine ⟨hw.1.next_lt, hw.2.next_lt, ?_, ?_, ?_⟩
  · intro m
    obtain ⟨l, hl, hlen, -⟩ := hw.1.head_list m
    exact ⟨l, hl, isList_nodup l _ hl, hlen⟩
  · intro n
    obtain ⟨l, hl, hlen, -⟩ := hw.2.head_list n
    exact ⟨l, hl, isList_nodup l _ hl, hlen⟩
  · intro fuel m hf
    exact walks_terminate env s hw fuel m hf

/-- C19 at the state after `PmRequirementAdd(1, 2)`. -/
theorem C19_links_decrease_witness :
    (∀ i j, ((addedState pmInit 1 2).pmReqData i).nextSlave = some j → j < i) ∧
    (∀ i j, ((addedState pmInit 1 2).pmReqData i).nextMaster = some j → j < i) ∧
    (∀ m, ∃ l, MasterList (addedState pmInit 1 2) m l ∧ l.Nodup ∧
      l.length ≤ (addedState pmInit 1 2).pmReqTop) ∧
    (∀ n, ∃ l, SlaveList (addedState pmInit 1 2) n l ∧ l.Nodup ∧
      l.length ≤ (addedState pmInit 1 2).pmReqTop) ∧
    (∀ fuel m, (addedState pmInit 1 2).pmReqTop ≤ fuel →
      (∀ sl, ∃ r, PmRequirementGet fuel (addedState pmInit 1 2) m sl = some r) ∧
      (∀ swap, ∃ r,
        PmRequirementUpdateScheduled envOk fuel (addedState pmInit 1 2) m swap = some r) ∧
      (∃ r, PmRequirementCancelScheduled fuel (addedState pmInit 1 2) m = some r) ∧
      (∃ r, PmRequirementRequestDefault envOk fuel (addedState pmInit 1 2) m = some r) ∧
      (∃ r, PmRequirementReleaseAll envOk fuel (addedState pmInit 1 2) m = some r)) :=
  C19_links_decrease envOk [(PmCall.add 1 2, some XST_SUCCESS)] (addedState pmInit 1 2)
    (Reaches.step 0 (PmCall.add 1 2) (some XST_SUCCESS) (addedState pmInit 1 2) Reaches.init
      (by rw [exec, add_of_lt envOk pmInit 1 2 (by decide)]; rfl))
    (by simp)

/-- C20 as stated fails: `PmRequirementAdd(1, 2)`, `PmRequirementFreeAll()`,
`PmRequirementAdd(1, 2)` is a run of public calls that ends in `loopState`, where the list
head of master `1` is slot `0` and `nextSlave` of slot `0` is slot `0` itself
(`PmRequirementFreeAll` leaves the list heads as they are and `PmRequirementLink` copies the
stale head into the new requirement).  The list of master `1` is not a finite list, and
`PmRequirementGet(1, 3)` does not return for any number of iterations. -/
theorem C20_lists_after_reset_counterexample :
    Reaches envOk
      [(PmCall.add 1 2, some XST_SUCCESS), (PmCall.freeAll, none),
        (PmCall.add 1 2, some XST_SUCCESS)] loopState ∧
    loopState.masterReqs 1 = some 0 ∧
    (loopState.pmReqData 0).nextSlave = some 0 ∧
    (¬ ∃ l, MasterList loopState 1 l) ∧
    (∀ fuel, PmRequirementGet fuel loopState 1 (some 3) = none) := by
  refine ⟨?_, rfl, rfl, ?_, ?_⟩
  · refine Reaches.step 0 (PmCall.add 1 2) (some XST_SUCCESS) loopState
      (Reaches.step 0 PmCall.freeAll none (PmRequirementFreeAll (addedState pmInit 1 2))
        (Reaches.step 0 (PmCall.add 1 2) (some XST_SUCCESS) (addedState pmInit 1 2)
          Reaches.init ?_) rfl) ?_
    · rw [exec, add_of_lt envOk pmInit 1 2 (by decide)]; rfl
    · rw [exec, add_of_lt envOk (PmRequirementFreeAll (addedState pmInit 1 2)) 1 2 (by decide)]
      rfl
  · rintro ⟨l, hl⟩
    exact loopState_no_list l hl
  · intro fuel
    exact loopState_get_diverges fuel

/-- C20, amended: in a state reached from start-up by calls of the public functions in
which every `PmRequirementFreeAll` comes together with `NULL` stored into every list head,
`pmReqTop` is the number of requirements added since the last reset, and the list of every
master `R` is finite, without repetition, and consists exactly of the allocated
requirements whose master is `R`, so that `PmRequirementGet(R, S)` returns within
`pmReqTop` iterations for every `S`. -/
theorem C20_lists_after_reset (env : PmEnv) (evs : List (PmCall × Option Int)) (s : PmState)
    (h : ReachesCleared env evs s) (R : Nat) :
    s.pmReqTop = allocatedSinceReset evs ∧
    ∃ l, MasterList s R l ∧ l.Nodup ∧
      (∀ i, i ∈ l ↔ (i < s.pmReqTop ∧ (s.pmReqData i).master = some R)) ∧
      (∀ fuel sl, s.pmReqTop ≤ fuel → ∃ r, PmRequirementGet fuel s R sl = some r) := by
  have hw := reachesCleared_listsWellFormed env evs s h
  refine ⟨reachesCleared_top env evs s h, ?_⟩
  obtain ⟨l, hl, hlen, hlt⟩ := hw.1.head_list R
  refine ⟨l, hl, isList_nodup l _ hl, ?_, ?_⟩
  · intro i
    constructor
    · intro hi
      exact ⟨hlt i hi,
        isList_own R hw.1.next_own l _ hl (fun a ha => hw.1.head_own R a ha) i hi⟩
    · rintro ⟨hi, hm⟩
      exact isList_mem_of_onList _ i (hw.1.member i R hi hm) l hl
  · intro fuel sl hf
    exact getLoop_terminates s sl l fuel _ hl (le_trans hlen hf)

/-- C20, amended, at `PmRequirementAdd(1, 2)`, reset with the list heads cleared,
`PmRequirementAdd(1, 2)`. -/
theorem C20_lists_after_reset_witness :
    (addedState (clearListHeads (PmRequirementFreeAll (addedState pmInit 1 2))) 1 2).pmReqTop
      = allocatedSinceReset
        [(PmCall.add 1 2, some XST_SUCCESS), (PmCall.freeAll, none),
          (PmCall.add 1 2, some XST_SUCCESS)] ∧
    ∃ l, MasterList
        (addedState (clearListHeads (PmRequirementFreeAll (addedState pmInit 1 2))) 1 2) 1 l ∧
      l.Nodup ∧
      (∀ i, i ∈ l ↔
        (i < (addedState (clearListHeads (PmRequirementFreeAll (addedState pmInit 1 2))) 1
            2).pmReqTop ∧
          ((addedState (clearListHeads (PmRequirementFreeAll (addedState pmInit 1 2))) 1
            2).pmReqData i).master = some 1)) ∧
      (∀ fuel sl,
        (addedState (clearListHeads (PmRequirementFreeAll (addedState pmInit 1 2))) 1
          2).pmReqTop ≤ fuel →
        ∃ r, PmRequirementGet fuel
          (addedState (clearListHeads (PmRequirementFreeAll (addedState pmInit 1 2))) 1 2) 1 sl
          = some r) :=
  C20_lists_after_reset envOk
    [(PmCall.add 1 2, some XST_SUCCESS), (PmCall.freeAll, none),
      (PmCall.add 1 2, some XST_SUCCESS)]
    (addedState (clearListHeads (PmRequirementFreeAll (addedState pmInit 1 2))) 1 2)
    (ReachesCleared.step 0 (PmCall.add 1 2) (some XST_SUCCESS) _
      (ReachesCleared.reset
        (ReachesCleared.step 0 (PmCall.add 1 2) (some XST_SUCCESS) (addedState pmInit 1 2)
          ReachesCleared.init (by decide)
          (by rw [exec, add_of_lt envOk pmInit 1 2 (by decide)]; rfl)))
      (by decide)
      (by rw [exec, add_of_lt envOk _ 1 2 (by decide)]; rfl))
    1

/-- C17: two masters, one slave.  After start-up, `PmRequirementAdd(R1, S)` and
`PmRequirementAdd(R2, S)` with `R1 != R2` (both succeed), `PmRequirementGet` finds slot `0`
for `(R1, S)` and slot `1` for `(R2, S)`.  For capability masks `c1`, `c2` that
`PmCheckCapabilities` accepts, `PmRequirementUpdate` of slot `0` to `c1` and then of slot `1`
to `c2` each call `PmUpdateSlave(S)` exactly once, in a memory where `currReq` of the
updated requirement is already the requested mask and the list of slave `S` holds both
requirements. -/
theorem C17_two_masters (env : PmEnv) (R1 R2 S c1 c2 : Nat) (hR : R1 ≠ R2)
    (hcap : 2 ≤ env.PM_REQUIREMENT_MAX)
    (hc1 : env.PmCheckCapabilities (twoMastersState R1 R2 S) (some S) c1 = XST_SUCCESS)
    (hc2 : env.PmCheckCapabilities (firstUpdateState env R1 R2 S c1) (some S) c2
      = XST_SUCCESS) :
    PmRequirementAdd env pmInit R1 S = some (XST_SUCCESS, addedState pmInit R1 S) ∧
    PmRequirementAdd env (addedState pmInit R1 S) R2 S
      = some (XST_SUCCESS, twoMastersState R1 R2 S) ∧
    PmRequirementGet 1 (twoMastersState R1 R2 S) R1 (some S) = some (some 0) ∧
    PmRequirementGet 1 (firstUpdateState env R1 R2 S c1) R2 (some S) = some (some 1) ∧
    (∃ m1, (firstUpdateState env R1 R2 S c1).calls
        = ExtCall.update (some S) m1 :: ExtCall.check (some S) c1 ::
          (twoMastersState R1 R2 S).calls ∧
      (m1.pmReqData 0).currReq = c1 ∧ MemSlaveList m1 S [1, 0]) ∧
    countUpdates (firstUpdateState env R1 R2 S c1).calls
      = countUpdates (twoMastersState R1 R2 S).calls + 1 ∧
    (∃ m2, (secondUpdateState env R1 R2 S c1 c2).calls
        = ExtCall.update (some S) m2 :: ExtCall.check (some S) c2 ::
          (firstUpdateState env R1 R2 S c1).calls ∧
      (m2.pmReqData 1).currReq = c2 ∧ MemSlaveList m2 S [1, 0]) ∧
    countUpdates (secondUpdateState env R1 R2 S c1 c2).calls
      = countUpdates (firstUpdateState env R1 R2 S c1).calls + 1 := by
  have hsl0 : ((twoMastersState R1 R2 S).pmReqData 0).slave = some S := by
    simp [twoMastersState, addedState, pmInit]
  have hsl1 : ((twoMastersState R1 R2 S).pmReqData 1).slave = some S := by
    simp [twoMastersState, addedState, pmInit]
  have hs23 : SameLinks (twoMastersState R1 R2 S) (firstUpdateState env R1 R2 S c1) :=
    sameLinks_update env _ 0 c1
  have hsl1a : ((firstUpdateState env R1 R2 S c1).pmReqData 1).slave = some S := by
    rw [hs23.slave]; exact hsl1
  have hlist := twoMastersState_slaveList R1 R2 S
  have hlist3 : SlaveList (firstUpdateState env R1 R2 S c1) S [1, 0] :=
    memSlaveList_sameLinks hs23 S _ hlist
  have hcalls1 := update_calls_of_accepted env (twoMastersState R1 R2 S) 0 c1
    (by rw [hsl0]; exact hc1)
  have hcalls2 := update_calls_of_accepted env (firstUpdateState env R1 R2 S c1) 1 c2
    (by rw [hsl1a]; exact hc2)
  rw [hsl0] at hcalls1
  rw [hsl1a] at hcalls2
  have htop1 : (addedState pmInit R1 S).pmReqTop < env.PM_REQUIREMENT_MAX := by
    show 0 + 1 < env.PM_REQUIREMENT_MAX
    omega
  refine ⟨add_of_lt env pmInit R1 S (by show 0 < env.PM_REQUIREMENT_MAX; omega),
    add_of_lt env (addedState pmInit R1 S) R2 S htop1,
    (twoMastersState_get R1 R2 S hR).1, ?_, ?_, ?_, ?_, ?_⟩
  · rw [get_sameLinks hs23]
    exact (twoMastersState_get R1 R2 S hR).2
  · exact ⟨_, hcalls1, updateCallState_currReq env _ 0 c1,
      memSlaveList_sameLinks (updateCallState_sameLinks env _ 0 c1) S _ hlist⟩
  · show countUpdates (PmRequirementUpdate env (twoMastersState R1 R2 S) 0 c1).2.calls = _
    rw [hcalls1]
    rfl
  · exact ⟨_, hcalls2, updateCallState_currReq env _ 1 c2,
      memSlaveList_sameLinks (updateCallState_sameLinks env _ 1 c2) S _ hlist3⟩
  · show countUpdates (PmRequirementUpdate env (firstUpdateState env R1 R2 S c1) 1 c2).2.calls
      = _
    rw [hcalls2]
    rfl

/-- C17 at masters `1` and `2`, slave `3`, masks `5` and `6`. -/
theorem C17_two_masters_witness :
    PmRequirementAdd envOk pmInit 1 3 = some (XST_SUCCESS, addedState pmInit 1 3) ∧
    PmRequirementAdd envOk (addedState pmInit 1 3) 2 3
      = some (XST_SUCCESS, twoMastersState 1 2 3) ∧
    PmRequirementGet 1 (twoMastersState 1 2 3) 1 (some 3) = some (some 0) ∧
    PmRequirementGet 1 (firstUpdateState envOk 1 2 3 5) 2 (some 3) = some (some 1) ∧
    (∃ m1, (firstUpdateState envOk 1 2 3 5).calls
        = ExtCall.update (some 3) m1 :: ExtCall.check (some 3) 5 ::
          (twoMastersState 1 2 3).calls ∧
      (m1.pmReqData 0).currReq = 5 ∧ MemSlaveList m1 3 [1, 0]) ∧
    countUpdates (firstUpdateState envOk 1 2 3 5).calls
      = countUpdates (twoMastersState 1 2 3).calls + 1 ∧
    (∃ m2, (secondUpdateState envOk 1 2 3 5 6).calls
        = ExtCall.update (some 3) m2 :: ExtCall.check (some 3) 6 ::
          (firstUpdateState envOk 1 2 3 5).calls ∧
      (m2.pmReqData 1).currReq = 6 ∧ MemSlaveList m2 3 [1, 0]) ∧
    countUpdates (secondUpdateState envOk 1 2 3 5 6).calls
      = countUpdates (firstUpdateState envOk 1 2 3 5).calls + 1 :=
  C17_two_masters envOk 1 2 3 5 6 (by decide) (by decide) rfl rfl

/-- C18: in a state reached from start-up by calls of the public functions whose requirement
arguments point to allocated requirements (default requirements assigned in between), after
`PmRequirementFreeAll` `pmReqTop` is zero and every slot of `pmReqData` is zero-filled, the
slots that were never allocated included.  In a run of `PmRequirementAdd` calls that
follows, the call number `j` (counted from zero) returns `XST_SUCCESS` when
`j < PM_REQUIREMENT_MAX` and `XST_FAILURE` otherwise, and afterwards every slot has
`currReq`, `nextReq` and `defaultReq` zero and the usage flag clear. -/
theorem C18_reset_all_zero (env : PmEnv) (hist : List PmState) (s : PmState)
    (h : ReachesValid env hist s) :
    (PmRequirementFreeAll s).pmReqTop = 0 ∧
    (∀ i, (PmRequirementFreeAll s).pmReqData i = zeroReq) ∧
    ∀ ps : List (Nat × Nat),
      ∃ s1, addAll env (PmRequirementFreeAll s) ps =
          some ((List.range ps.length).map
            (fun j => if j < env.PM_REQUIREMENT_MAX then XST_SUCCESS else XST_FAILURE), s1) ∧
        ∀ i, (s1.pmReqData i).currReq = 0 ∧ (s1.pmReqData i).nextReq = 0 ∧
          (s1.pmReqData i).defaultReq = 0 ∧ ¬ usingSlave env (s1.pmReqData i) := by
  have hinv := validInv_freeAll (reachesValid_inv env hist s h)
  have hz : ∀ i, (PmRequirementFreeAll s).pmReqData i = zeroReq :=
    fun i => hinv.zero i (Nat.zero_le _)
  refine ⟨rfl, hz, ?_⟩
  intro ps
  obtain ⟨s1, hrun, hf⟩ := addAll_spec env ps (PmRequirementFreeAll s)
  refine ⟨s1, ?_, ?_⟩
  · rw [hrun]
    have htop : (PmRequirementFreeAll s).pmReqTop = 0 := rfl
    simp only [htop, Nat.zero_add]
  · intro i
    obtain ⟨h1, h2, h3, h4⟩ := hf i
    rw [hz i] at h1 h2 h3 h4
    refine ⟨h1, h2, h3, ?_⟩
    show ¬ (0 ≠ env.PM_MASTER_USING_SLAVE_MASK &&& (s1.pmReqData i).info)
    rw [h4]
    simp [zeroReq]

/-- C18 at the state after `PmRequirementAdd(1, 2)` and an update of the new requirement
to `5`. -/
theorem C18_reset_all_zero_witness :
    (PmRequirementFreeAll updatedState).pmReqTop = 0 ∧
    (∀ i, (PmRequirementFreeAll updatedState).pmReqData i = zeroReq) ∧
    ∀ ps : List (Nat × Nat),
      ∃ s1, addAll envOk (PmRequirementFreeAll updatedState) ps =
          some ((List.range ps.length).map
            (fun j => if j < envOk.PM_REQUIREMENT_MAX then XST_SUCCESS else XST_FAILURE), s1) ∧
        ∀ i, (s1.pmReqData i).currReq = 0 ∧ (s1.pmReqData i).nextReq = 0 ∧
          (s1.pmReqData i).defaultReq = 0 ∧ ¬ usingSlave envOk (s1.pmReqData i) :=
  C18_reset_all_zero envOk [addedState pmInit 1 2, pmInit] updatedState
    (ReachesValid.call 0 (PmCall.update 0 5) (some XST_SUCCESS) updatedState
      (ReachesValid.call 0 (PmCall.add 1 2) (some XST_SUCCESS) (addedState pmInit 1 2)
        ReachesValid.init trivial
        (by rw [exec, add_of_lt envOk pmInit 1 2 (by decide)]; rfl))
      (show 0 < 1 from Nat.zero_lt_one) rfl)

/-- C15 as stated fails: with a slave layer that rejects every capability request,
`PmRequirementAdd(1, 2)`, default requirement `4` assigned, `PmRequirementRequestDefault(1)`
and `PmRequirementUpdateScheduled(1, false)` lead to `wokenState`, where `currReq` of the
requirement is `4` although `PmCheckCapabilities` accepts no value for slave `2` in any
state, and the only external call on record is one `PmUpdateSlave` (the capability check
was never called). -/
theorem C15_current_allowed_counterexample :
    ReachesValid envRejects
      [requestStore envRejects (freshDefaultState 1 2 4) 0, freshDefaultState 1 2 4, pmInit]
      wokenState ∧
    (wokenState.pmReqData 0).currReq = 4 ∧
    (wokenState.pmReqData 0).slave = some 2 ∧
    (∀ st c, envRejects.PmCheckCapabilities st (some 2) c ≠ XST_SUCCESS) ∧
    wokenState.calls.length = 1 ∧ countUpdates wokenState.calls = 1 := by
  refine ⟨?_, rfl, rfl, ?_, rfl, rfl⟩
  · refine ReachesValid.call 1 (PmCall.updateScheduled 1 false) (some XST_SUCCESS) wokenState
      (ReachesValid.call 1 (PmCall.requestDefault 1) none
        (requestStore envRejects (freshDefaultState 1 2 4) 0)
        (ReachesValid.setDefault 0 4
          (ReachesValid.call 0 (PmCall.add 1 2) (some XST_SUCCESS) (addedState pmInit 1 2)
            ReachesValid.init trivial ?_)
          (show 0 < 1 from Nat.zero_lt_one) rfl)
        trivial rfl)
      trivial rfl
    rw [exec, add_of_lt envRejects pmInit 1 2 (by decide)]; rfl
  · intro st c
    show XST_NO_FEATURE ≠ XST_SUCCESS
    decide

/-- C15, amended: in a state reached from start-up by calls of the public functions whose
requirement arguments point to allocated requirements, with each default requirement
assigned once to an allocated requirement, `currReq` of every slot is zero, or the default
requirement of the slot, or a value that `PmCheckCapabilities` accepted for the slave of the
slot in a state in which a public function was called; the same holds for `nextReq`. -/
theorem C15_current_allowed (env : PmEnv) (hist : List PmState) (s : PmState)
    (h : ReachesValid env hist s) (i : Nat) :
    ((s.pmReqData i).currReq = 0 ∨
      (s.pmReqData i).currReq = (s.pmReqData i).defaultReq ∨
      ∃ st, st ∈ hist ∧
        env.PmCheckCapabilities st (s.pmReqData i).slave (s.pmReqData i).currReq
          = XST_SUCCESS) ∧
    Allowed env hist (s.pmReqData i) (s.pmReqData i).nextReq :=
  (reachesValid_inv env hist s h).good i

/-- C15, amended, at the state after `PmRequirementAdd(1, 2)` and an update of the new
requirement to `5`. -/
theorem C15_current_allowed_witness :
    ((updatedState.pmReqData 0).currReq = 0 ∨
      (updatedState.pmReqData 0).currReq = (updatedState.pmReqData 0).defaultReq ∨
      ∃ st, st ∈ [addedState pmInit 1 2, pmInit] ∧
        envOk.PmCheckCapabilities st (updatedState.pmReqData 0).slave
          (updatedState.pmReqData 0).currReq = XST_SUCCESS) ∧
    Allowed envOk [addedState pmInit 1 2, pmInit] (updatedState.pmReqData 0)
      (updatedState.pmReqData 0).nextReq :=
  C15_current_allowed envOk [addedState pmInit 1 2, pmInit] updatedState
    (ReachesValid.call 0 (PmCall.update 0 5) (some XST_SUCCESS) updatedState
      (ReachesValid.call 0 (PmCall.add 1 2) (some XST_SUCCESS) (addedState pmInit 1 2)
        ReachesValid.init trivial
        (by rw [exec, add_of_lt envOk pmInit 1 2 (by decide)]; rfl))
      (show 0 < 1 from Nat.zero_lt_one) rfl)
    0

end Pm
